import Mathlib

/-!
# Aptomi: actions, rules, contextual data, resources handler and dependency trace

A shallow embedding of

* `pkg/engine/apply/action/component/dependency_attach.go`
* `pkg/lang/rule_actions.go`
* `pkg/engine/resolve/policy_resolver_node_contextual_data.go`
* `pkg/slinga/engine/resolve/unit_test_helpers_test.go`
* `cmd/endpoint.go`
* `pkg/api/dependency_resources.go`
* `pkg/visualization/builder_view_dependency_resolution.go`

Go maps are association lists read by first match, whose order stands for the iteration
order; Go `error` values are `Option Err` (`none` is `nil`); a Go call that may panic
yields a `Completion`, and an `Outcome` when the value handed to `panic` may be nil;
goroutines are program points that take turns, one action on the shared state per turn; a
recursion that need not end is allowed a number of nested calls.
-/

namespace Aptomi

/-! ## Go maps -/

/-- A Go `map[κ]υ`, as an association list that is read by first match. -/
abbrev GoMap (κ υ : Type) := List (κ × υ)

namespace GoMap

variable {κ υ : Type} [DecidableEq κ]

/-- The Go read `v, ok := m[k]`. -/
def get (k : κ) : GoMap κ υ → Option υ
  | [] => none
  | (k', v') :: t => if k' = k then some v' else get k t

/-- The Go write `m[k] = v`: replaces the entry of `k`, or adds one. -/
def set (k : κ) (v : υ) : GoMap κ υ → GoMap κ υ
  | [] => [(k, v)]
  | (k', v') :: t => if k' = k then (k, v) :: t else (k', v') :: set k v t

end GoMap

/-! ## Errors and panics -/

/-- A non-nil Go `error`, by its message. -/
abbrev Err := String

/-- A time stamp, as returned by `time.Now()`. -/
abbrev Time := Nat

/-- A non-nil value handed to `panic`; `text` is its rendering under the `%s` verb. -/
structure PanicValue where
  text : String
  deriving DecidableEq, Repr

/-- How a Go call ends: it returns a value, or it panics with a non-nil value. -/
inductive Completion (α : Type) where
  | returned (a : α)
  | panicked (v : PanicValue)
  deriving DecidableEq, Repr

/-- How a call into code behind a Go interface ends. Such code may hand any value to
`panic`, the nil interface value included: `panicked none` is `panic(nil)`, which unwinds
the stack like any other panic and after which `recover()` returns nil (the Go releases
before 1.21, those of the repository). -/
inductive Outcome (α : Type) where
  | returned (a : α)
  | panicked (v : Option PanicValue)
  deriving DecidableEq, Repr

/-- The runtime panic of a write to a nil map. -/
def nilMapWrite : PanicValue := ⟨"assignment to entry in nil map"⟩

/-- The runtime panic of a nil pointer dereference. -/
def nilDereference : PanicValue :=
  ⟨"runtime error: invalid memory address or nil pointer dereference"⟩

/-! ## Nested parameter maps and instance keys -/

/-- A value of a `util.NestedParameterMap`: a scalar or a nested map. -/
inductive util.Value where
  | scalar (s : String)
  | nested (m : List (String × util.Value))
  deriving Repr

mutual
/-- Equality of values is decidable. -/
def util.Value.decEq : (a b : util.Value) → Decidable (a = b)
  | .scalar s, .scalar t =>
    if h : s = t then isTrue (by rw [h]) else isFalse (by intro h'; cases h'; exact h rfl)
  | .scalar _, .nested _ => isFalse (by intro h; cases h)
  | .nested _, .scalar _ => isFalse (by intro h; cases h)
  | .nested m, .nested m' =>
    match util.Value.decEqEntries m m' with
    | isTrue h => isTrue (by rw [h])
    | isFalse h => isFalse (by intro h'; cases h'; exact h rfl)
/-- Equality of lists of entries is decidable. -/
def util.Value.decEqEntries : (a b : List (String × util.Value)) → Decidable (a = b)
  | [], [] => isTrue rfl
  | [], _ :: _ => isFalse (by intro h; cases h)
  | _ :: _, [] => isFalse (by intro h; cases h)
  | (k, v) :: t, (k', v') :: t' =>
    if hk : k = k' then
      match util.Value.decEq v v' with
      | isTrue hv =>
        match util.Value.decEqEntries t t' with
        | isTrue ht => isTrue (by rw [hk, hv, ht])
        | isFalse ht => isFalse (by intro h'; cases h'; exact ht rfl)
      | isFalse hv => isFalse (by intro h'; cases h'; exact hv rfl)
    else isFalse (by intro h'; cases h'; exact hk rfl)
end

instance : DecidableEq util.Value := util.Value.decEq

/-- The type `util.NestedParameterMap`. -/
abbrev util.NestedParameterMap := GoMap String util.Value

/-- The struct `resolve.ComponentInstanceKey`, by its exported fields. -/
structure ComponentInstanceKey where
  ClusterNameSpace : String
  ClusterName : String
  TargetSuffix : String
  Namespace : String
  ContractName : String
  ContextName : String
  KeysResolved : List String
  ContextNameWithKeys : String
  ServiceName : String
  ComponentName : String
  deriving DecidableEq, Repr

/-- The struct `resolve.ComponentInstanceMetadata`. -/
structure ComponentInstanceMetadata where
  Key : ComponentInstanceKey
  deriving DecidableEq, Repr

/-! ## Actual state -/

/-- The fields of `resolve.ComponentInstance` that the embedded code reads or writes.
`DependencyKeys = none` is the nil (uninitialised) map. -/
structure ComponentInstance where
  Metadata : ComponentInstanceMetadata
  DependencyKeys : Option (GoMap String Int)
  EdgesOut : GoMap String Bool
  CalculatedCodeParams : util.NestedParameterMap
  IsCode : Bool
  deriving DecidableEq, Repr

/-- The actual state, `resolve.PolicyResolution`: component instances by key. -/
structure PolicyResolution where
  ComponentInstanceMap : GoMap String ComponentInstance
  deriving DecidableEq, Repr

/-- The mutation function handed to `UpdateComponentInstance`. -/
abbrev UpdateFn := ComponentInstance → Completion ComponentInstance

/-- One behaviour of `ActualStateUpdater.UpdateComponentInstance`: from a key, a
mutation function and the state it holds, the state it leaves and how the call ends.
The updater is an interface, so the call may end in a panic with any value, nil included. -/
abbrev StateUpdater :=
  String → UpdateFn → PolicyResolution → PolicyResolution × Outcome (Option Err)

/-- Modelled from the spec: the implementation of `ActualStateUpdater.UpdateComponentInstance`
is not part of the sources; the spec describes it as an atomic read-modify-write by key.
A key that is absent is reported as an error, and a panic of the mutation function
passes through with the state untouched. -/
def readModifyWrite : StateUpdater := fun key updateFn st =>
  match GoMap.get key st.ComponentInstanceMap with
  | none => (st, .returned (some ("component instance not found: " ++ key)))
  | some obj =>
    match updateFn obj with
    | .panicked v => (st, .panicked (some v))
    | .returned obj' =>
      ({ st with ComponentInstanceMap := GoMap.set key obj' st.ComponentInstanceMap },
        .returned none)

/-! ## `AttachDependencyAction` -/

/-- The struct `action.Metadata` of an action: its kind and the keys it was built from. -/
structure action.Metadata where
  Kind : String
  Keys : List String
  deriving DecidableEq, Repr

/-- The call `action.NewMetadata(kind, keys...)`. -/
def action.NewMetadata (kind : String) (keys : List String) : action.Metadata := ⟨kind, keys⟩

/-- The constant `AttachDependencyActionObject.Kind`. -/
def AttachDependencyActionKind : String := "action-component-dependency-attach"

/-- The struct `AttachDependencyAction`. -/
structure AttachDependencyAction where
  TypeKind : String
  Metadata : action.Metadata
  ComponentKey : String
  DependencyID : String
  Depth : Int
  deriving DecidableEq, Repr

/-- The constructor `NewAttachDependencyAction`. -/
def NewAttachDependencyAction (componentKey dependencyID : String) (depth : Int) :
    AttachDependencyAction where
  TypeKind := AttachDependencyActionKind
  Metadata := action.NewMetadata AttachDependencyActionKind [componentKey, dependencyID]
  ComponentKey := componentKey
  DependencyID := dependencyID
  Depth := depth

/-- One behaviour of `context.EventLog.NewEntry().Debugf`: from the message and the
log so far, the log it leaves and how the call ends; a panic of the event log is taken
to carry a non-nil value. -/
abbrev EventLogger := String → List String → List String × Completion Unit

/-- The struct `action.Context`, by the behaviour of the two collaborators `Apply` calls. -/
structure action.Context where
  EventLog : EventLogger
  ActualStateUpdater : StateUpdater

/-- One call of `action.CollectMetricsFor(action, start, err)`. -/
structure MetricsRecord where
  action : AttachDependencyAction
  start : Time
  err : Option Err
  deriving DecidableEq, Repr

/-- Everything `Apply` can change: the actual state held by the updater, the event
log and the calls received by the metrics collector. -/
structure World where
  actual : PolicyResolution
  eventLog : List String
  metrics : List MetricsRecord
  deriving DecidableEq, Repr

/-- Modelled from the spec: `action.CollectMetricsFor` is not part of the sources; the
spec describes it as recording duration and outcome per applied action. Each call is
recorded, in order. -/
def action.CollectMetricsFor (a : AttachDependencyAction) (start : Time) (err : Option Err)
    (w : World) : World :=
  { w with metrics := w.metrics ++ [⟨a, start, err⟩] }

/-- The closure of `Apply`: `obj.DependencyKeys[a.DependencyID] = a.Depth`. -/
def attachUpdateFn (a : AttachDependencyAction) : UpdateFn := fun obj =>
  match obj.DependencyKeys with
  | none => .panicked nilMapWrite
  | some m => .returned { obj with DependencyKeys := some (GoMap.set a.DependencyID a.Depth m) }

/-- The text logged by `Apply`. -/
def attachMessage (a : AttachDependencyAction) : String :=
  "Attaching dependency '" ++ a.DependencyID ++ "' to component instance: '" ++
    a.ComponentKey ++ "'"

/-- The body of `Apply` after its `defer`: the debug entry, then the update. A nil
`context` panics at `context.EventLog`. -/
def applyBody (a : AttachDependencyAction) (context : Option action.Context) (w : World) :
    World × Outcome (Option Err) :=
  match context with
  | none => (w, .panicked (some nilDereference))
  | some c =>
    match c.EventLog (attachMessage a) w.eventLog with
    | (log, .panicked v) => ({ w with eventLog := log }, .panicked (some v))
    | (log, .returned _) =>
      match c.ActualStateUpdater a.ComponentKey (attachUpdateFn a) w.actual with
      | (st, r) => ({ w with eventLog := log, actual := st }, r)

/-- The error built by the deferred function from a recovered panic:
`fmt.Errorf("panic: %s\n%s", err, string(debug.Stack()))`. -/
def panicError (v : PanicValue) (stack : String) : Err :=
  "panic: " ++ v.text ++ "\n" ++ stack

/-- The value of `recover()` in a deferred function: nil when the body returned, and the
value handed to `panic` when it panicked, which is nil after `panic(nil)`. -/
def recover {α : Type} (r : Outcome α) : Option PanicValue :=
  match r with
  | .returned _ => none
  | .panicked v => v

/-- The value of `errResult` once the deferred function has run
`if err := recover(); err != nil`, whose branch sets `errResult = fmt.Errorf(...)`: the
named result holds what `return` stored, or nil when the body panicked before returning,
and is replaced only when `recover()` is not nil. -/
def recovered (r : Outcome (Option Err)) (stack : String) : Option Err :=
  let errResult : Option Err :=
    match r with
    | .returned e => e
    | .panicked _ => none
  match recover r with
  | some err => some (panicError err stack)
  | none => errResult

/-- The method `AttachDependencyAction.Apply`: `start` is `time.Now()` and `stack` is
what `debug.Stack()` gives in the deferred function. -/
def AttachDependencyAction.Apply (a : AttachDependencyAction) (context : Option action.Context)
    (start : Time) (stack : String) (w : World) : World × Completion (Option Err) :=
  match applyBody a context w with
  | (w1, r) =>
    let errResult := recovered r stack
    (action.CollectMetricsFor a start errResult w1, .returned errResult)

/-! ## Rule actions (`pkg/lang/rule_actions.go`) -/

/-- The constant `Reject`. -/
def lang.Reject : String := "reject"

/-- The struct `lang.LabelSet`. -/
structure lang.LabelSet where
  Labels : GoMap String String
  deriving DecidableEq, Repr

/-- The type `lang.LabelOperations`: operation name to the labels it acts on. -/
abbrev lang.LabelOperations := GoMap String (GoMap String String)

/-- The struct `lang.RuleActions`; `ChangeLabels = none` is the nil action. -/
structure lang.RuleActions where
  Dependency : String
  Ingress : String
  ChangeLabels : Option lang.LabelOperations
  deriving DecidableEq, Repr

/-- The struct `lang.Rule`, by the fields `ApplyActions` reads. -/
structure lang.Rule where
  Name : String
  Actions : lang.RuleActions
  deriving DecidableEq, Repr

/-- The struct `RuleActionResult`. -/
structure lang.RuleActionResult where
  RejectDependency : Bool
  RejectIngress : Bool
  ChangedLabelsOnLastApply : Bool
  Labels : lang.LabelSet
  deriving DecidableEq, Repr

/-- One behaviour of `LabelSet.ApplyTransform`, which is not part of the sources: the
label set it leaves and whether it reports a change. -/
abbrev lang.Transform := lang.LabelSet → lang.LabelOperations → lang.LabelSet × Bool

/-- The constructor `NewRuleActionResult`. -/
def lang.NewRuleActionResult (labels : lang.LabelSet) : lang.RuleActionResult where
  RejectDependency := false
  RejectIngress := false
  ChangedLabelsOnLastApply := false
  Labels := labels

/-- The method `Rule.ApplyActions`. -/
def lang.Rule.ApplyActions (ApplyTransform : lang.Transform) (rule : lang.Rule)
    (result : lang.RuleActionResult) : lang.RuleActionResult :=
  let result := { result with RejectDependency := decide (rule.Actions.Dependency = lang.Reject) }
  let result := { result with RejectIngress := decide (rule.Actions.Ingress = lang.Reject) }
  let result := { result with ChangedLabelsOnLastApply := false }
  match rule.Actions.ChangeLabels with
  | none => result
  | some ops =>
    match ApplyTransform result.Labels ops with
    | (labels, changed) => { result with ChangedLabelsOnLastApply := changed, Labels := labels }

/-- A sequence of rules applied in order to one result. -/
def lang.applyRules (ApplyTransform : lang.Transform) (rules : List lang.Rule)
    (result : lang.RuleActionResult) : lang.RuleActionResult :=
  rules.foldl (fun r rule => rule.ApplyActions ApplyTransform r) result

/-! ## Contextual data (`policy_resolver_node_contextual_data.go`) -/

/-- The struct `lang.Metadata`. -/
structure lang.Metadata where
  Namespace : String
  Name : String
  Generation : Nat
  deriving DecidableEq, Repr

/-- The struct `lang.Code`, by the field the embedded code reads: `TypeName` is its
field `Type`. -/
structure lang.Code where
  TypeName : String
  deriving DecidableEq, Repr

/-- The struct `lang.ServiceComponent`; `Code = none` is the nil pointer. -/
structure lang.ServiceComponent where
  Name : String
  Contract : String
  Code : Option lang.Code
  deriving DecidableEq, Repr

/-- The struct `lang.Service`. -/
structure lang.Service where
  TypeKind : String
  Metadata : lang.Metadata
  Labels : GoMap String String
  Components : List lang.ServiceComponent
  deriving DecidableEq, Repr

/-- The struct `lang.Dependency`. -/
structure lang.Dependency where
  TypeKind : String
  Metadata : lang.Metadata
  User : String
  Contract : String
  Labels : GoMap String String
  deriving DecidableEq, Repr

/-- The struct `lang.User`. -/
structure lang.User where
  Name : String
  Labels : GoMap String String
  deriving DecidableEq, Repr

/-- The method `NestedParameterMap.MakeCopy`, a deep copy (on one value). -/
def util.Value.MakeCopy : util.Value → util.Value
  | .scalar s => .scalar s
  | .nested m => .nested (copyEntries m)
where
  /-- The deep copy, entry by entry. -/
  copyEntries : List (String × util.Value) → List (String × util.Value)
    | [] => []
    | (k, v) :: t => (k, v.MakeCopy) :: copyEntries t

/-- The method `NestedParameterMap.MakeCopy`, a deep copy. -/
def util.NestedParameterMap.MakeCopy (m : util.NestedParameterMap) : util.NestedParameterMap :=
  util.Value.MakeCopy.copyEntries m

/-- The functions of other packages that the contextual data calls and that are not
part of the sources. -/
structure Env where
  EscapeName : String → String
  HashFnv : String → String
  KeyForStorable : lang.Dependency → String
  GetDeployName : ComponentInstanceKey → String
  GetKey : ComponentInstanceKey → String
  IsComponent : ComponentInstanceKey → Bool
  IsService : ComponentInstanceKey → Bool
  GetParentServiceKey : ComponentInstanceKey → ComponentInstanceKey

/-- The interface `SecretLoader`: secrets by user name. -/
structure SecretLoader where
  LoadSecretsByUserName : String → GoMap String String

/-- The external data of a resolver. -/
structure ExternalData where
  SecretLoader : SecretLoader

/-- The struct `PolicyResolver`, by the field the contextual data reads. -/
structure PolicyResolver where
  externalData : ExternalData

/-- The struct `resolutionNode`, by the fields the contextual data reads. -/
structure resolutionNode where
  resolver : PolicyResolver
  labels : lang.LabelSet
  user : lang.User
  dependency : lang.Dependency
  service : lang.Service
  discoveryTreeNode : util.NestedParameterMap
  componentKey : ComponentInstanceKey

/-- What `proxyService` returns: `struct { lang.Metadata; Labels }`. -/
structure ServiceProxy where
  Metadata : lang.Metadata
  Labels : GoMap String String
  deriving DecidableEq, Repr

/-- What `proxyUser` returns: `struct { Name; Labels; Secrets }`. -/
structure UserProxy where
  Name : String
  Labels : GoMap String String
  Secrets : GoMap String String
  deriving DecidableEq, Repr

/-- What `proxyDependency` returns: `struct { lang.Metadata; ID }`. -/
structure DependencyProxy where
  Metadata : lang.Metadata
  ID : String
  deriving DecidableEq, Repr

/-- What `proxyTarget` returns: `struct { Namespace }`. -/
structure TargetProxy where
  Namespace : String
  deriving DecidableEq, Repr

/-- A value handed to the expression or template engine as `interface{}`. -/
inductive Exposed where
  | labels (m : GoMap String String)
  | service (p : ServiceProxy)
  | user (p : UserProxy)
  | dependency (p : DependencyProxy)
  | target (p : TargetProxy)
  | discovery (m : util.NestedParameterMap)
  deriving Repr

/-- What `expression.NewParams(stringParams, structParams)` is built from. -/
structure expression.Parameters where
  stringParams : GoMap String String
  structParams : GoMap String Exposed
  deriving Repr

/-- The constructor `expression.NewParams`. -/
def expression.NewParams (stringParams : GoMap String String)
    (structParams : GoMap String Exposed) : expression.Parameters :=
  ⟨stringParams, structParams⟩

/-- What `template.NewParams(data)` is built from: the fields of the anonymous struct,
by name, as the template engine reads them. -/
structure template.Parameters where
  data : GoMap String Exposed
  deriving Repr

/-- The constructor `template.NewParams`. -/
def template.NewParams (data : GoMap String Exposed) : template.Parameters := ⟨data⟩

/-- The calls received by the secret loader so far: the user names, in order. -/
abbrev LoaderCalls := List String

namespace resolutionNode

/-- The method `getContextualDataForContextExpression`. -/
def getContextualDataForContextExpression (node : resolutionNode) : expression.Parameters :=
  expression.NewParams node.labels.Labels []

/-- The method `getContextualDataForComponentCriteria`. -/
def getContextualDataForComponentCriteria (node : resolutionNode) : expression.Parameters :=
  expression.NewParams node.labels.Labels []

/-- The method `proxyService`. -/
def proxyService (_node : resolutionNode) (service : lang.Service) : Exposed :=
  .service { Metadata := service.Metadata, Labels := service.Labels }

/-- The method `proxyUser`; the call of the secret loader is recorded. -/
def proxyUser (node : resolutionNode) (user : lang.User) (calls : LoaderCalls) :
    Exposed × LoaderCalls :=
  (.user {
      Name := user.Name
      Labels := user.Labels
      Secrets := node.resolver.externalData.SecretLoader.LoadSecretsByUserName user.Name },
    calls ++ [user.Name])

/-- The method `proxyDependency`. -/
def proxyDependency (env : Env) (_node : resolutionNode) (dependency : lang.Dependency) :
    Exposed :=
  .dependency { Metadata := dependency.Metadata, ID := env.KeyForStorable dependency }

/-- The method `proxyTarget`. -/
def proxyTarget (_node : resolutionNode) (cik : ComponentInstanceKey) : Exposed :=
  .target { Namespace := cik.TargetSuffix }

/-- The map built by `proxyDiscovery`. -/
def proxyDiscoveryMap (env : Env) (discoveryTree : util.NestedParameterMap)
    (cik : ComponentInstanceKey) : util.NestedParameterMap :=
  let result := discoveryTree.MakeCopy
  let result := GoMap.set "Instance" (.scalar (env.EscapeName (env.GetDeployName cik))) result
  let result := GoMap.set "InstanceId" (.scalar (env.HashFnv (env.GetKey cik))) result
  if env.IsComponent cik then
    let serviceCik := env.GetParentServiceKey cik
    GoMap.set "Service"
      (.nested [
        ("Instance", .scalar (env.EscapeName (env.GetDeployName serviceCik))),
        ("InstanceId", .scalar (env.HashFnv (env.GetKey serviceCik)))])
      result
  else
    result

/-- The method `proxyDiscovery`. -/
def proxyDiscovery (env : Env) (_node : resolutionNode)
    (discoveryTree : util.NestedParameterMap) (cik : ComponentInstanceKey) : Exposed :=
  .discovery (proxyDiscoveryMap env discoveryTree cik)

/-- The method `getContextualDataForRuleExpression`. -/
def getContextualDataForRuleExpression (env : Env) (node : resolutionNode) :
    expression.Parameters :=
  expression.NewParams node.labels.Labels [
    ("Service", node.proxyService node.service),
    ("Dependency", node.proxyDependency env node.dependency)]

/-- The method `getContextualDataForContextAllocationTemplate`. -/
def getContextualDataForContextAllocationTemplate (env : Env) (node : resolutionNode)
    (calls : LoaderCalls) : template.Parameters × LoaderCalls :=
  match node.proxyUser node.user calls with
  | (user, calls) =>
    (template.NewParams [
        ("User", user),
        ("Dependency", node.proxyDependency env node.dependency),
        ("Labels", .labels node.labels.Labels)],
      calls)

/-- The method `getContextualDataForCodeDiscoveryTemplate`. -/
def getContextualDataForCodeDiscoveryTemplate (env : Env) (node : resolutionNode)
    (calls : LoaderCalls) : template.Parameters × LoaderCalls :=
  match node.proxyUser node.user calls with
  | (user, calls) =>
    (template.NewParams [
        ("User", user),
        ("Labels", .labels node.labels.Labels),
        ("Discovery", node.proxyDiscovery env node.discoveryTreeNode node.componentKey),
        ("Target", node.proxyTarget node.componentKey)],
      calls)

end resolutionNode

/-! ## Maps as objects -/

namespace GoMap

variable {κ υ : Type} [DecidableEq κ]

/-- The entries visited by `for k, v := range m`: one per key, in the order of the list,
which stands for the iteration order. -/
def range : GoMap κ υ → List (κ × υ)
  | [] => []
  | (k, v) :: t => (k, v) :: (range t).filter (fun p => decide (p.1 ≠ k))

end GoMap

/-- Map objects by address: a variable of type `util.NestedParameterMap` holds an address,
and two variables with the same address share their entries. -/
abbrev util.Heap := List util.NestedParameterMap

/-- The entries of the map object at an address; no map, or the nil map, reads as empty. -/
def util.Heap.read (heap : util.Heap) (addr : Nat) : util.NestedParameterMap :=
  heap.getD addr []

/-- The write `m[key] = value` on the map object at an address. -/
def util.Heap.assign (heap : util.Heap) (addr : Nat) (key : String) (value : util.Value) :
    util.Heap :=
  List.set heap addr (GoMap.set key value (heap.read addr))

/-- Modelled from the spec: `NestedParameterMap.MakeCopy` is not part of the sources; the
spec describes the proxied discovery tree as a copy-on-read map. The call makes a new map
object that holds a deep copy of the entries, and returns its address. -/
def util.Heap.MakeCopy (heap : util.Heap) (addr : Nat) : util.Heap × Nat :=
  (heap ++ [(heap.read addr).MakeCopy], heap.length)

/-- The method `proxyDiscovery` on map objects: `discoveryTree` is the address of the tree
handed in, and the address returned is that of `result`. -/
def resolutionNode.proxyDiscoveryOnHeap (env : Env) (_node : resolutionNode)
    (heap : util.Heap) (discoveryTree : Nat) (cik : ComponentInstanceKey) : util.Heap × Nat :=
  match heap.MakeCopy discoveryTree with
  | (heap, result) =>
    let heap := heap.assign result "Instance"
      (.scalar (env.EscapeName (env.GetDeployName cik)))
    let heap := heap.assign result "InstanceId" (.scalar (env.HashFnv (env.GetKey cik)))
    if env.IsComponent cik then
      let serviceCik := env.GetParentServiceKey cik
      let heap := heap.assign result "Service"
        (.nested [
          ("Instance", .scalar (env.EscapeName (env.GetDeployName serviceCik))),
          ("InstanceId", .scalar (env.HashFnv (env.GetKey serviceCik)))])
      (heap, result)
    else
      (heap, result)

/-! ## Event-log verifier (`unit_test_helpers_test.go`) -/

/-- The log levels of `logrus`. -/
inductive logrus.Level where
  | PanicLevel
  | FatalLevel
  | ErrorLevel
  | WarnLevel
  | InfoLevel
  | DebugLevel
  deriving DecidableEq, Repr

/-- The struct `logrus.Entry`, by the fields `Fire` reads. -/
structure logrus.Entry where
  Level : logrus.Level
  Message : String
  deriving DecidableEq, Repr

/-- The function `strings.Contains`: `substr` occurs in `s` as a run of characters. -/
def strings.Contains (s substr : String) : Bool :=
  decide (substr.data <:+: s.data)

/-- The constant `ResSuccess`. -/
def ResSuccess : Nat := 0

/-- The constant `ResError`. -/
def ResError : Nat := 1

/-- The struct `UnitTestLogVerifier`. -/
structure UnitTestLogVerifier where
  checkForErrorMessage : String
  present : Bool
  deriving DecidableEq, Repr

/-- The constructor `NewUnitTestLogVerifier`. -/
def NewUnitTestLogVerifier (checkForErrorMessage : String) : UnitTestLogVerifier where
  checkForErrorMessage := checkForErrorMessage
  present := false

/-- The method `UnitTestLogVerifier.Levels`: all levels. -/
def UnitTestLogVerifier.Levels (_verifier : UnitTestLogVerifier) : List logrus.Level :=
  [.PanicLevel, .FatalLevel, .ErrorLevel, .WarnLevel, .InfoLevel, .DebugLevel]

/-- The method `UnitTestLogVerifier.Fire`: the verifier it leaves and the error returned. -/
def UnitTestLogVerifier.Fire (verifier : UnitTestLogVerifier) (e : logrus.Entry) :
    UnitTestLogVerifier × Option Err :=
  if e.Level = .ErrorLevel && strings.Contains e.Message verifier.checkForErrorMessage then
    ({ verifier with present := true }, none)
  else
    (verifier, none)

/-- A sequence of entries fired at a verifier, in order. -/
def UnitTestLogVerifier.fireAll (verifier : UnitTestLogVerifier)
    (entries : List logrus.Entry) : UnitTestLogVerifier :=
  entries.foldl (fun v e => (v.Fire e).1) verifier

/-- How a test helper ends: `t.FailNow()` was called, or it returned a value. -/
inductive TestOutcome (α : Type) where
  | failNow
  | returned (a : α)
  deriving DecidableEq, Repr

/-- The helper `resolvePolicy`, from what the resolver gave: `resolved` is the pair
returned by `ResolveAllDependencies` (the resolution of the result, and the error) and
`eventLog` holds the entries that `resolver.eventLog.Save` fires at the hook it is given. -/
def resolvePolicy (resolved : Option PolicyResolution × Option Err)
    (eventLog : List logrus.Entry) (expectedResult : Nat) (expectedErrorMessage : String) :
    TestOutcome (Option PolicyResolution) :=
  match resolved with
  | (result, err) =>
    if decide (expectedResult ≠ ResError) != err.isNone then
      .failNow
    else if expectedResult = ResError then
      let verifier := (NewUnitTestLogVerifier expectedErrorMessage).fireAll eventLog
      if !verifier.present then .failNow else .returned none
    else
      .returned result

/-! ## The command `endpoint show` (`cmd/endpoint.go`) -/

/-- The insertion of a key into a sorted list of keys. -/
def sort.insert (key : String) : List String → List String
  | [] => [key]
  | k :: rest => if key < k then key :: k :: rest else k :: sort.insert key rest

/-- The function `sort.Strings`: the keys in ascending order. -/
def sort.Strings (keys : List String) : List String :=
  keys.foldr sort.insert []

/-- The line printed by `fmt.Println` for the header of a key. -/
def endpointHeader (parsed : String × String × String × String) : String :=
  "Service: " ++ parsed.1 ++ "  |  Context: " ++ parsed.2.1 ++ "  |  Allocation: " ++
    parsed.2.2.1 ++ "  |  Component: " ++ parsed.2.2.2

/-- The lines printed by the `Run` function of `endpointCmdShow` for the map returned by
`state.Endpoints("")`; `ParseServiceUsageKey` is not part of the sources. The order of the
entries of a map is its iteration order. -/
def endpointCmdShow (ParseServiceUsageKey : String → String × String × String × String)
    (endpoints : GoMap String (GoMap String String)) : List String :=
  let keys := (GoMap.range endpoints).map (fun p => p.1)
  let keys := sort.Strings keys
  keys.flatMap (fun key =>
    let keyEndpoints := (GoMap.get key endpoints).getD []
    [endpointHeader (ParseServiceUsageKey key)] ++
      (GoMap.range keyEndpoints).map (fun p => "\t " ++ p.1 ++ " " ++ p.2) ++ [""])

/-! ## Policy objects -/

/-- The struct `lang.Cluster`, by the fields the embedded code can read. -/
structure lang.Cluster where
  TypeKind : String
  Metadata : lang.Metadata
  deriving DecidableEq, Repr

/-- The struct `lang.Context`, by its name. -/
structure lang.Context where
  Name : String
  deriving DecidableEq, Repr

/-- The struct `lang.Contract`. -/
structure lang.Contract where
  TypeKind : String
  Metadata : lang.Metadata
  Contexts : List lang.Context
  deriving DecidableEq, Repr

/-- An object of the policy, as held in an interface value. -/
inductive lang.Base where
  | service (service : lang.Service)
  | contract (contract : lang.Contract)
  | cluster (cluster : lang.Cluster)
  | dependency (dependency : lang.Dependency)
  deriving DecidableEq, Repr

/-- The constant `lang.DependencyObject.Kind`. -/
def lang.DependencyObjectKind : String := "dependency"

/-- The constant `lang.ServiceObject.Kind`. -/
def lang.ServiceObjectKind : String := "service"

/-- The constant `lang.ContractObject.Kind`. -/
def lang.ContractObjectKind : String := "contract"

/-- The constant `lang.ClusterObject.Kind`. -/
def lang.ClusterObjectKind : String := "cluster"

/-- The struct `lang.Policy`, by the behaviour of its two lookups, which are not part of
the sources: `GetObject(kind, name, ns)` gives an object (or nil) and an error (or nil). -/
structure lang.Policy where
  GetObject : String → String → String → Option lang.Base × Option Err
  GetObjectsByKind : String → List lang.Base

/-- The method `Service.GetComponentsMap`: the components by name. -/
def lang.Service.GetComponentsMap (service : lang.Service) :
    GoMap String lang.ServiceComponent :=
  service.Components.foldl (fun m component => GoMap.set component.Name component m) []

/-- The dynamic type of a `runtime.Object`, as Go prints it; `none` is the nil interface. -/
def lang.Base.typeName : Option lang.Base → String
  | none => "nil"
  | some (.service _) => "*lang.Service"
  | some (.contract _) => "*lang.Contract"
  | some (.cluster _) => "*lang.Cluster"
  | some (.dependency _) => "*lang.Dependency"

/-- The panic of a type assertion `obj.(T)` on a `runtime.Object` that does not hold a `T`,
with the text of the `runtime.TypeAssertionError` raised by Go. -/
def interfaceConversion (obj : Option lang.Base) (want : String) : PanicValue :=
  ⟨"interface conversion: runtime.Object is " ++ lang.Base.typeName obj ++ ", not " ++ want⟩

/-! ## Resources of a dependency (`pkg/api/dependency_resources.go`) -/

/-- The type `plugin.Resources`: tables of rows, by resource type. -/
abbrev plugin.Resources := GoMap String (List (List String))

/-- The struct `plugin.CodePluginInvocationParams`, without its event log. -/
structure plugin.CodePluginInvocationParams where
  DeployName : String
  Params : util.NestedParameterMap
  PluginParams : GoMap String String
  deriving DecidableEq, Repr

/-- The interface `plugin.CodePlugin`, by one behaviour of `Resources`: it returns
resources and an error (or nil), or it panics. -/
structure plugin.CodePlugin where
  Resources : plugin.CodePluginInvocationParams → Completion (plugin.Resources × Option Err)

/-- The interface `plugin.Registry`, by one behaviour of `ForCodeType`: a plugin (or nil)
and an error (or nil). -/
structure plugin.Registry where
  ForCodeType : lang.Cluster → String → Option plugin.CodePlugin × Option Err

/-- What the handler uses of the packages `plugin` and `runtime` and that is not part of
the sources: the constant `plugin.ParamTargetSuffix`, the method `Resources.Merge` and the
rendering of `runtime.LastGen`. -/
structure plugin.Lib where
  ParamTargetSuffix : String
  Merge : plugin.Resources → plugin.Resources → plugin.Resources
  LastGen : String

/-- The struct `coreAPI`, by what the handler asks of it: `GetPolicy` is the pair of policy
and error returned by `api.store.GetPolicy(gen)`, and `GetActualState` the pair returned
by `api.store.GetActualState()`. -/
structure coreAPI where
  GetPolicy : Option lang.Policy × Option Err
  GetActualState : Option PolicyResolution × Option Err
  pluginRegistryFactory : plugin.Registry

/-- The function `pluginForComponentInstance`. -/
def pluginForComponentInstance (inst : ComponentInstance) (policy : lang.Policy)
    (plugins : plugin.Registry) : Completion (Option plugin.CodePlugin × Option Err) :=
  match policy.GetObject lang.ServiceObjectKind inst.Metadata.Key.ServiceName
      inst.Metadata.Key.Namespace with
  | (_, some err) => .returned (none, some err)
  | (some (.service service), none) =>
    match GoMap.get inst.Metadata.Key.ComponentName service.GetComponentsMap with
    | none => .returned (none, none)
    | some component =>
      match component.Code with
      | none => .returned (none, none)
      | some code =>
        match policy.GetObject lang.ClusterObjectKind inst.Metadata.Key.ClusterName
            inst.Metadata.Key.ClusterNameSpace with
        | (_, some err) => .returned (none, some err)
        | (none, none) =>
          .returned (none, some ("can't find cluster '" ++
            inst.Metadata.Key.ClusterNameSpace ++ "/" ++
            inst.Metadata.Key.ClusterName ++ "'"))
        | (some (.cluster cluster), none) => .returned (plugins.ForCodeType cluster code.TypeName)
        | (some clusterObj, none) =>
          .panicked (interfaceConversion (some clusterObj) "*lang.Cluster")
  | (serviceObj, none) => .panicked (interfaceConversion serviceObj "*lang.Service")

/-- The body of the goroutine up to the merge: the plugin lookup and the call of
`Resources`. The result says whether `Resources` was called, and how the body ends:
with the resources of the instance, or with a panic. -/
def resourcesTask (env : Env) (lib : plugin.Lib) (policy : lang.Policy)
    (plugins : plugin.Registry) (inst : ComponentInstance) :
    Bool × Completion plugin.Resources :=
  match pluginForComponentInstance inst policy plugins with
  | .panicked v => (false, .panicked v)
  | .returned (_, some pluginErr) =>
    (false, .panicked ⟨"Can't get plugin for component instance " ++
      env.GetKey inst.Metadata.Key ++ ": " ++ pluginErr⟩)
  | .returned (none, none) => (false, .panicked nilDereference)
  | .returned (some codePlugin, none) =>
    match codePlugin.Resources {
        DeployName := env.GetDeployName inst.Metadata.Key
        Params := inst.CalculatedCodeParams
        PluginParams := [(lib.ParamTargetSuffix, inst.Metadata.Key.TargetSuffix)] } with
    | .panicked v => (true, .panicked v)
    | .returned (_, some resErr) =>
      (true, .panicked ⟨"Error while getting deployment resources for component instance " ++
        env.GetKey inst.Metadata.Key ++ ": " ++ resErr⟩)
    | .returned (instanceResources, none) => (true, .returned instanceResources)

/-- Where a goroutine of the handler stands. Each move from one point to the next is one
action on what the goroutines share. -/
inductive TaskPc where
  /-- Started with `go`, body not run yet. -/
  | spawned
  /-- `Resources` returned; next is `rMergeMutex.Lock()`. -/
  | fetched (r : plugin.Resources)
  /-- The mutex is held; next is `resources.Merge`. -/
  | holding (r : plugin.Resources)
  /-- Merged; next is the deferred `rMergeMutex.Unlock()`. -/
  | merged
  /-- The body panicked; next is the deferred `recover` with its send on `errors`. -/
  | failed (v : PanicValue)
  /-- Next is the deferred `wg.Done()`. -/
  | finishing
  /-- The goroutine is over. -/
  | done
  deriving DecidableEq, Repr

/-- What the goroutines of the handler share, and a record of what they did: the keys of
the instances a plugin was looked up for, those `Resources` was called for, and the
goroutines that merged, that sent on `errors` and that called `wg.Done`, each in order. -/
structure Pool where
  pcs : List TaskPc
  resources : plugin.Resources
  mutexHeld : Bool
  errors : Option Err
  wg : Int
  lookups : List String
  resourcesCalls : List String
  merges : List Nat
  sends : List Nat
  dones : List Nat
  deriving DecidableEq, Repr

/-- The pool after the loop of the handler: `n` goroutines started, `wg.Add(1)` called `n`
times, `resources` and the channel `errors` empty. -/
def Pool.init (n : Nat) : Pool where
  pcs := List.replicate n .spawned
  resources := []
  mutexHeld := false
  errors := none
  wg := n
  lookups := []
  resourcesCalls := []
  merges := []
  sends := []
  dones := []

/-- One action of goroutine `i`, or `none` when it cannot act: it is over, or it waits
for the mutex. `body` is the body of a goroutine up to the merge. -/
def Pool.step (body : ComponentInstance → Bool × Completion plugin.Resources)
    (lib : plugin.Lib) (stack : String) (tasks : List (String × ComponentInstance))
    (i : Nat) (s : Pool) : Option Pool :=
  match s.pcs[i]? with
  | none => none
  | some .spawned =>
    match tasks[i]? with
    | none => none
    | some (key, inst) =>
      match body inst with
      | (called, .returned r) =>
        some { s with
          pcs := s.pcs.set i (.fetched r)
          lookups := s.lookups ++ [key]
          resourcesCalls := if called then s.resourcesCalls ++ [key] else s.resourcesCalls }
      | (called, .panicked v) =>
        some { s with
          pcs := s.pcs.set i (.failed v)
          lookups := s.lookups ++ [key]
          resourcesCalls := if called then s.resourcesCalls ++ [key] else s.resourcesCalls }
  | some (.fetched r) =>
    if s.mutexHeld then none
    else some { s with pcs := s.pcs.set i (.holding r), mutexHeld := true }
  | some (.holding r) =>
    some { s with
      pcs := s.pcs.set i .merged
      resources := lib.Merge s.resources r
      merges := s.merges ++ [i] }
  | some .merged => some { s with pcs := s.pcs.set i .finishing, mutexHeld := false }
  | some (.failed v) =>
    some { s with
      pcs := s.pcs.set i .finishing
      errors := match s.errors with
        | none => some (panicError v stack)
        | some e => some e
      sends := s.sends ++ [i] }
  | some .finishing =>
    some { s with pcs := s.pcs.set i .done, wg := s.wg - 1, dones := s.dones ++ [i] }
  | some .done => none

/-- A schedule is the list of goroutines that get a turn, in order; a goroutine that
cannot act at its turn leaves the pool as it is. -/
def Pool.run (body : ComponentInstance → Bool × Completion plugin.Resources)
    (lib : plugin.Lib) (stack : String) (tasks : List (String × ComponentInstance))
    (s : Pool) (schedule : List Nat) : Pool :=
  schedule.foldl (fun s i => (Pool.step body lib stack tasks i s).getD s) s

/-- The loop of the handler over the component instances: the instances a goroutine is
started for. -/
def spawnTasks (depKey : String) :
    List (String × ComponentInstance) → List (String × ComponentInstance)
  | [] => []
  | (key, inst) :: rest =>
    match inst.DependencyKeys.bind (GoMap.get depKey) with
    | some _ =>
      if !inst.IsCode then spawnTasks depKey rest
      else (key, inst) :: spawnTasks depKey rest
    | none => spawnTasks depKey rest

/-- A call that writes a response. -/
inductive Written where
  | WriteOneWithStatus (status : Nat)
  | WriteOne (resources : plugin.Resources)
  deriving DecidableEq, Repr

/-- The constant `http.StatusNotFound`. -/
def StatusNotFound : Nat := 404

/-- What a call of the handler did: the responses written, the number of calls of
`GetActualState`, the pool of goroutines, and how the call ended (`none` while it waits
in `wg.Wait()`). -/
structure HandlerResult where
  written : List Written
  actualStateLoads : Nat
  pool : Pool
  completion : Option (Completion Unit)
  deriving DecidableEq, Repr

/-- The method `coreAPI.handleDependencyResourcesGet`, for the request parameters `ns` and
`name`; `stack` is what `debug.Stack()` gives, and `schedule` the turns of the goroutines
up to the moment the result is looked at. -/
def coreAPI.handleDependencyResourcesGet (env : Env) (lib : plugin.Lib) (api : coreAPI)
    (ns name : String) (stack : String) (schedule : List Nat) : HandlerResult :=
  match api.GetPolicy with
  | (_, some err) =>
    ⟨[], 0, Pool.init 0, some (.panicked ⟨"error while getting requested policy: " ++ err⟩)⟩
  | (none, none) => ⟨[], 0, Pool.init 0, some (.panicked nilDereference)⟩
  | (some policy, none) =>
    let kind := lang.DependencyObjectKind
    match policy.GetObject kind name ns with
    | (_, some _) =>
      ⟨[], 0, Pool.init 0, some (.panicked ⟨"error while getting object " ++ ns ++ "/" ++
        kind ++ "/" ++ name ++ " in policy #" ++ lib.LastGen⟩)⟩
    | (obj, none) =>
      let written : List Written :=
        match obj with
        | none => [.WriteOneWithStatus StatusNotFound]
        | some _ => []
      match obj with
      | some (.dependency dependency) =>
        match api.GetActualState with
        | (_, some err) =>
          ⟨written, 1, Pool.init 0,
            some (.panicked ⟨"Can't load actual state to get endpoints: " ++ err⟩)⟩
        | (none, none) => ⟨written, 1, Pool.init 0, some (.panicked nilDereference)⟩
        | (some actualState, none) =>
          let plugins := api.pluginRegistryFactory
          let depKey := env.KeyForStorable dependency
          let tasks := spawnTasks depKey (GoMap.range actualState.ComponentInstanceMap)
          let pool := Pool.run (resourcesTask env lib policy plugins) lib stack tasks
            (Pool.init tasks.length) schedule
          if pool.wg = 0 then
            match pool.errors with
            | some err => ⟨written, 1, pool, some (.panicked ⟨err⟩)⟩
            | none =>
              ⟨written ++ [.WriteOne pool.resources], 1, pool, some (.returned ())⟩
          else
            ⟨written, 1, pool, none⟩
      | _ =>
        ⟨written, 0, Pool.init 0,
          some (.panicked (interfaceConversion obj "*lang.Dependency"))⟩

/-- How the body of goroutine `i` ends, when there is one. -/
def Pool.outcome (body : ComponentInstance → Bool × Completion plugin.Resources)
    (tasks : List (String × ComponentInstance)) (i : Nat) :
    Option (Completion plugin.Resources) :=
  (tasks[i]?).map (fun t => (body t.2).2)

/-- The resources goroutine `i` has to merge, when its body returns. -/
def Pool.resultOf (body : ComponentInstance → Bool × Completion plugin.Resources)
    (tasks : List (String × ComponentInstance)) (i : Nat) : Option plugin.Resources :=
  match Pool.outcome body tasks i with
  | some (.returned r) => some r
  | _ => none

/-- The error goroutine `i` has to send, when its body panics. -/
def Pool.errorOf (body : ComponentInstance → Bool × Completion plugin.Resources)
    (stack : String) (tasks : List (String × ComponentInstance)) (i : Nat) : Option Err :=
  match Pool.outcome body tasks i with
  | some (.panicked v) => some (panicError v stack)
  | _ => none

/-- The number of actions a goroutine has left at most. -/
def TaskPc.rank : TaskPc → Nat
  | .spawned => 5
  | .fetched _ => 4
  | .holding _ => 3
  | .merged => 2
  | .failed _ => 2
  | .finishing => 1
  | .done => 0

/-- The number of actions the goroutines of a pool have left at most. -/
def Pool.potential (s : Pool) : Nat := (s.pcs.map TaskPc.rank).sum

/-- Every goroutine of the pool is over. -/
def Pool.allDone (s : Pool) : Prop := ∀ pc ∈ s.pcs, pc = TaskPc.done

/-- What holds of goroutine `i` standing at `pc`. -/
structure TaskOk (body : ComponentInstance → Bool × Completion plugin.Resources)
    (stack : String) (tasks : List (String × ComponentInstance))
    (s : Pool) (i : Nat) (pc : TaskPc) : Prop where
  merges_iff : i ∈ s.merges ↔
    (pc = .merged ∨ pc = .finishing ∨ pc = .done) ∧ (Pool.resultOf body tasks i).isSome = true
  sends_iff : i ∈ s.sends ↔
    (pc = .finishing ∨ pc = .done) ∧ (Pool.errorOf body stack tasks i).isSome = true
  dones_iff : i ∈ s.dones ↔ pc = .done
  fetched : ∀ r, pc = .fetched r → Pool.resultOf body tasks i = some r
  holding : ∀ r, pc = .holding r → Pool.resultOf body tasks i = some r
  merged : pc = .merged → (Pool.resultOf body tasks i).isSome = true
  failed : ∀ v, pc = .failed v → Pool.errorOf body stack tasks i = some (panicError v stack)

/-- What holds of a pool of the handler at every moment: the points the goroutines stand
at agree with the records, the shared resources are the merge of what was merged, the
channel holds the first error sent, a held mutex has a holder, and the counter of the
wait group is the number of goroutines that did not call `Done`. -/
structure Pool.Inv (body : ComponentInstance → Bool × Completion plugin.Resources)
    (lib : plugin.Lib) (stack : String) (tasks : List (String × ComponentInstance))
    (s : Pool) : Prop where
  len : s.pcs.length = tasks.length
  task : ∀ i pc, s.pcs[i]? = some pc → TaskOk body stack tasks s i pc
  bound : ∀ i, i ∈ s.merges ∨ i ∈ s.sends ∨ i ∈ s.dones → i < s.pcs.length
  merges_nodup : s.merges.Nodup
  sends_nodup : s.sends.Nodup
  dones_nodup : s.dones.Nodup
  resources_eq : s.resources =
    (s.merges.filterMap (Pool.resultOf body tasks)).foldl lib.Merge []
  errors_eq : s.errors = (s.sends.filterMap (Pool.errorOf body stack tasks)).head?
  mutex : s.mutexHeld = true →
    ∃ i : Nat, (∃ r, s.pcs[i]? = some (TaskPc.holding r)) ∨ s.pcs[i]? = some TaskPc.merged
  wg_eq : s.wg = (tasks.length : Int) - (s.dones.length : Int)
  lookups_mem : ∀ k ∈ s.lookups, ∃ (i : Nat) (inst : ComponentInstance),
    tasks[i]? = some (k, inst) ∧ ∃ pc, s.pcs[i]? = some pc ∧ pc ≠ TaskPc.spawned
  calls_sub : s.resourcesCalls.Sublist s.lookups
  lookups_nodup : s.lookups.Nodup

/-- The goroutines the handler starts for a dependency: one per entry of the actual state
that passes the two tests of its loop. -/
def resourceTasks (env : Env) (dependency : lang.Dependency) (actualState : PolicyResolution) :
    List (String × ComponentInstance) :=
  spawnTasks (env.KeyForStorable dependency) (GoMap.range actualState.ComponentInstanceMap)

/-- Panic isolation, for a pool: the counter of the wait group is zero and every goroutine
called `Done` once; every goroutine whose body returned merged once, no other did, and the
shared resources are the merge of theirs in the order they merged; every goroutine whose
body panicked tried once to send, and the channel holds the error of the first. -/
structure Pool.Isolated (body : ComponentInstance → Bool × Completion plugin.Resources)
    (lib : plugin.Lib) (stack : String) (tasks : List (String × ComponentInstance))
    (s : Pool) : Prop where
  wg_zero : s.wg = 0
  done_once : ∀ i, i < tasks.length → s.dones.count i = 1
  merged_once : ∀ i, i < tasks.length → (Pool.resultOf body tasks i).isSome = true →
    s.merges.count i = 1
  merges_only : ∀ i ∈ s.merges, (Pool.resultOf body tasks i).isSome = true
  resources_eq : s.resources =
    (s.merges.filterMap (Pool.resultOf body tasks)).foldl lib.Merge []
  sent_once : ∀ i, i < tasks.length → (Pool.errorOf body stack tasks i).isSome = true →
    s.sends.count i = 1
  sends_only : ∀ i ∈ s.sends, (Pool.errorOf body stack tasks i).isSome = true
  errors_eq : s.errors = (s.sends.head?).bind (Pool.errorOf body stack tasks)

/-! ## Tracing a dependency (`builder_view_dependency_resolution.go`) -/

/-- A node of the graph. -/
inductive graphNode where
  | dependencyNode (dependency : lang.Dependency)
  | contractNode (contract : lang.Contract)
  | serviceInstanceNode (inst : ComponentInstance) (service : lang.Service)
  | errorNode (err : Err)
  deriving DecidableEq, Repr

/-- An edge of the graph, as built by `newEdge(src, dst, label)`; `src = none` is nil. -/
structure graphEdge where
  src : Option graphNode
  dst : graphNode
  label : String
  deriving DecidableEq, Repr

/-- The struct `Graph`, by the calls of `addNode` and `addEdge` it received, in order. -/
structure Graph where
  nodes : List (graphNode × Int)
  edges : List graphEdge
  deriving DecidableEq, Repr

/-- The struct `DependencyResolutionCfg`. -/
structure DependencyResolutionCfg where
  showTrivialContracts : Bool
  showContracts : Bool
  deriving DecidableEq, Repr

/-- The variable `DependencyResolutionCfgDefault`. -/
def DependencyResolutionCfgDefault : DependencyResolutionCfg where
  showTrivialContracts := true
  showContracts := false

/-- The struct `resolve.DependencyResolution`, by the fields the trace reads. -/
structure resolve.DependencyResolution where
  Resolved : Bool
  ComponentInstanceKey : String
  deriving DecidableEq, Repr

/-- The struct `GraphBuilder`; `GetDependencyResolution` is the method of that name of
`b.resolution`, which is not part of the sources. -/
structure GraphBuilder where
  policy : lang.Policy
  resolution : PolicyResolution
  GetDependencyResolution : lang.Dependency → resolve.DependencyResolution
  graph : Graph

/-- The call `b.graph.addNode(node, level)`. -/
def GraphBuilder.addNode (b : GraphBuilder) (node : graphNode) (level : Int) : GraphBuilder :=
  { b with graph := { b.graph with nodes := b.graph.nodes ++ [(node, level)] } }

/-- The call `b.graph.addEdge(edge)`. -/
def GraphBuilder.addEdge (b : GraphBuilder) (edge : graphEdge) : GraphBuilder :=
  { b with graph := { b.graph with edges := b.graph.edges ++ [edge] } }

/-- How a trace ends: it returned, it panicked, or it was cut off after the number of
nested calls it was allowed. -/
inductive Run where
  | finished
  | panicked (v : PanicValue)
  | outOfFuel
  deriving DecidableEq, Repr

/-- One round of the loop `for keyDst := range edgesOut` of `traceDependencyResolution`;
`recurse` is the nested call of `traceDependencyResolution` for the same dependency. -/
def traceEdge (env : Env)
    (recurse : String → Option graphNode → Int → GraphBuilder → GraphBuilder × Run)
    (dependency : lang.Dependency) (last : Option graphNode) (level : Int)
    (cfg : DependencyResolutionCfg) (existsFn : ComponentInstance → Bool)
    (keyDst : String) (b : GraphBuilder) : GraphBuilder × Run :=
  match GoMap.get keyDst b.resolution.ComponentInstanceMap with
  | none => (b, .panicked nilDereference)
  | some instanceCurrent =>
    let depKey := env.KeyForStorable dependency
    match instanceCurrent.DependencyKeys.bind (GoMap.get depKey) with
    | none => (b, .finished)
    | some _ =>
      if !existsFn instanceCurrent then (b, .finished)
      else if env.IsService instanceCurrent.Metadata.Key then
        match b.policy.GetObject lang.ContractObjectKind
            instanceCurrent.Metadata.Key.ContractName instanceCurrent.Metadata.Key.Namespace with
        | (_, some errContract) => (b.addNode (.errorNode errContract) level, .finished)
        | (some (.contract contract), none) =>
          let ctrNode := graphNode.contractNode contract
          match b.policy.GetObject lang.ServiceObjectKind
              instanceCurrent.Metadata.Key.ServiceName instanceCurrent.Metadata.Key.Namespace with
          | (_, some errService) => (b.addNode (.errorNode errService) level, .finished)
          | (some (.service service), none) =>
            let svcInstNode := graphNode.serviceInstanceNode instanceCurrent service
            let trivialContract := decide (contract.Contexts.length ≤ 1)
            if cfg.showContracts && (!trivialContract || cfg.showTrivialContracts) then
              let b := b.addNode ctrNode level
              let b := b.addEdge ⟨last, ctrNode, ""⟩
              let b := b.addNode svcInstNode (level + 1)
              let b := b.addEdge
                ⟨some ctrNode, svcInstNode, instanceCurrent.Metadata.Key.ContextNameWithKeys⟩
              recurse keyDst (some svcInstNode) (level + 2) b
            else
              let b := b.addNode svcInstNode level
              let b := b.addEdge ⟨last, svcInstNode, ""⟩
              recurse keyDst (some svcInstNode) (level + 1) b
          | (serviceObj, none) =>
            (b, .panicked (interfaceConversion serviceObj "*lang.Service"))
        | (contractObj, none) =>
          (b, .panicked (interfaceConversion contractObj "*lang.Contract"))
      else
        recurse keyDst last level b

/-- The loop `for keyDst := range edgesOut`: the rounds in order, up to the first that
does not return. -/
def traceEdges (round : String → GraphBuilder → GraphBuilder × Run) :
    List String → GraphBuilder → GraphBuilder × Run
  | [], b => (b, .finished)
  | keyDst :: rest, b =>
    match round keyDst b with
    | (b, .finished) => traceEdges round rest b
    | (b, r) => (b, r)

/-- The method `GraphBuilder.traceDependencyResolution`, allowed `fuel` nested calls. -/
def traceDependencyResolution (env : Env) :
    Nat → String → lang.Dependency → Option graphNode → Int → DependencyResolutionCfg →
    (ComponentInstance → Bool) → GraphBuilder → GraphBuilder × Run
  | 0, _, _, _, _, _, _, b => (b, .outOfFuel)
  | fuel + 1, keySrc, dependency, last, level, cfg, existsFn, b =>
    if keySrc.length ≤ 0 then
      let depNode := graphNode.dependencyNode dependency
      let b := b.addNode depNode 0
      let last := some depNode
      let level := level + 1
      let dResolution := b.GetDependencyResolution dependency
      let edgesOut : GoMap String Bool :=
        if dResolution.Resolved then GoMap.set dResolution.ComponentInstanceKey true [] else []
      traceEdges
        (traceEdge env
          (fun k l lv b => traceDependencyResolution env fuel k dependency l lv cfg existsFn b)
          dependency last level cfg existsFn)
        ((GoMap.range edgesOut).map (fun p => p.1)) b
    else
      match GoMap.get keySrc b.resolution.ComponentInstanceMap with
      | none => (b, .panicked nilDereference)
      | some instanceSrc =>
        traceEdges
          (traceEdge env
            (fun k l lv b => traceDependencyResolution env fuel k dependency l lv cfg existsFn b)
            dependency last level cfg existsFn)
          ((GoMap.range instanceSrc.EdgesOut).map (fun p => p.1)) b

/-- The loop of `DependencyResolutionWithFunc` over the dependencies of the policy. -/
def traceDependencies (env : Env) (fuel : Nat) (cfg : DependencyResolutionCfg)
    (existsFn : ComponentInstance → Bool) : List lang.Base → GraphBuilder → GraphBuilder × Run
  | [], b => (b, .finished)
  | dependencyObj :: rest, b =>
    match dependencyObj with
    | .dependency dependency =>
      match traceDependencyResolution env fuel "" dependency none 0 cfg existsFn b with
      | (b, .finished) => traceDependencies env fuel cfg existsFn rest b
      | (b, r) => (b, r)
    | _ => (b, .panicked (interfaceConversion (some dependencyObj) "*lang.Dependency"))

/-- The method `GraphBuilder.DependencyResolutionWithFunc`: the graph, and how the call
ends. -/
def GraphBuilder.DependencyResolutionWithFunc (env : Env) (fuel : Nat) (b : GraphBuilder)
    (cfg : DependencyResolutionCfg) (existsFn : ComponentInstance → Bool) : Graph × Run :=
  match traceDependencies env fuel cfg existsFn
      (b.policy.GetObjectsByKind lang.DependencyObjectKind) b with
  | (b, r) => (b.graph, r)

/-- The instances shown by the trace of a dependency with key `depKey` whose resolution
is `dResolution`: an instance is shown when its key is followed (it is the resolved root
key, or a key in `EdgesOut` of an instance that is shown), it holds `depKey` in its
`DependencyKeys` and it passes `existsFn`. -/
inductive Shown (res : PolicyResolution) (dResolution : resolve.DependencyResolution)
    (depKey : String) (existsFn : ComponentInstance → Bool) :
    String → ComponentInstance → Prop where
  | root (inst : ComponentInstance) :
    dResolution.Resolved = true →
    GoMap.get dResolution.ComponentInstanceKey res.ComponentInstanceMap = some inst →
    (inst.DependencyKeys.bind (GoMap.get depKey)).isSome = true →
    existsFn inst = true →
    Shown res dResolution depKey existsFn dResolution.ComponentInstanceKey inst
  | edge (keySrc keyDst : String) (src inst : ComponentInstance) :
    Shown res dResolution depKey existsFn keySrc src →
    keyDst ∈ (GoMap.range src.EdgesOut).map (fun p => p.1) →
    GoMap.get keyDst res.ComponentInstanceMap = some inst →
    (inst.DependencyKeys.bind (GoMap.get depKey)).isSome = true →
    existsFn inst = true →
    Shown res dResolution depKey existsFn keyDst inst

/-- The builder `b'` has the policy, the resolution and the dependency resolutions of `b`. -/
def GraphBuilder.Same (b b' : GraphBuilder) : Prop :=
  b'.policy = b.policy ∧ b'.resolution = b.resolution ∧
    b'.GetDependencyResolution = b.GetDependencyResolution

/-- The builder `b'` is `b` with some nodes added to the graph, all of which satisfy `P`. -/
def GraphBuilder.Extends (P : graphNode → Prop) (b b' : GraphBuilder) : Prop :=
  b.Same b' ∧ ∃ added : List (graphNode × Int),
    b'.graph.nodes = b.graph.nodes ++ added ∧ ∀ p ∈ added, P p.1

/-- A node is a service-instance node only for an instance that is shown. -/
def ShownNode (res : PolicyResolution) (dResolution : resolve.DependencyResolution)
    (depKey : String) (existsFn : ComponentInstance → Bool) (node : graphNode) : Prop :=
  ∀ inst service, node = .serviceInstanceNode inst service →
    ∃ key, Shown res dResolution depKey existsFn key inst

/-- The instance at `keySrc` has an edge out to `keyDst`. -/
def EdgeOut (res : PolicyResolution) (keySrc keyDst : String) : Prop :=
  ∃ inst, GoMap.get keySrc res.ComponentInstanceMap = some inst ∧
    keyDst ∈ (GoMap.range inst.EdgesOut).map (fun p => p.1)

/-- The trace ended within the calls it was allowed, and not by the dereference of a
missing instance. -/
def Run.Ends (r : Run) : Prop := r ≠ .outOfFuel ∧ r ≠ .panicked nilDereference

/-! ## Sample inputs -/

/-- An event log that appends the message and never panics. -/
def appendLog : EventLogger := fun msg log => (log ++ [msg], .returned ())

/-- A context with the appending log and the read-modify-write updater. -/
def sampleContext : action.Context := ⟨appendLog, readModifyWrite⟩

/-- A sample key of a component of a service, in cluster `cluster` and namespace `main`. -/
def sampleKey (service component : String) : ComponentInstanceKey where
  ClusterNameSpace := "system"
  ClusterName := "cluster"
  TargetSuffix := "ns"
  Namespace := "main"
  ContractName := service
  ContextName := "prod"
  KeysResolved := []
  ContextNameWithKeys := "prod"
  ServiceName := service
  ComponentName := component

/-- A sample code instance `web` that holds `dep1` at depth 1. -/
def webInstance : ComponentInstance where
  Metadata := ⟨sampleKey "web" "app"⟩
  DependencyKeys := some [("dep1", 1)]
  EdgesOut := []
  CalculatedCodeParams := []
  IsCode := true

/-- A sample code instance `db` whose `DependencyKeys` map is nil. -/
def dbInstance : ComponentInstance where
  Metadata := ⟨sampleKey "db" "app"⟩
  DependencyKeys := none
  EdgesOut := []
  CalculatedCodeParams := []
  IsCode := true

/-- A world with two instances: `web` has a dependency map, `db` has a nil one. -/
def sampleWorld : World where
  actual := ⟨[("web", webInstance), ("db", dbInstance)]⟩
  eventLog := []
  metrics := []

/-- An updater that fails with an error and leaves the state alone. -/
def failingUpdater : StateUpdater := fun _ _ st => (st, .returned (some "store is down"))

/-- An updater whose `UpdateComponentInstance` calls `panic(nil)`. -/
def nilPanicUpdater : StateUpdater := fun _ _ st => (st, .panicked none)

/-- Sample external functions: a component key has a non-empty component name. -/
def sampleEnv : Env where
  EscapeName := fun s => "esc:" ++ s
  HashFnv := fun s => "fnv:" ++ s
  KeyForStorable := fun d => d.Metadata.Namespace ++ "/" ++ d.TypeKind ++ "/" ++ d.Metadata.Name
  GetDeployName := fun k => k.ServiceName ++ "#" ++ k.ComponentName
  GetKey := fun k => k.ClusterName ++ "#" ++ k.ServiceName ++ "#" ++ k.ComponentName
  IsComponent := fun k => decide (k.ComponentName ≠ "root")
  IsService := fun k => decide (k.ComponentName = "root")
  GetParentServiceKey := fun k => { k with ComponentName := "root" }

/-- A sample loader with one secret for `alice`. -/
def sampleLoader : SecretLoader where
  LoadSecretsByUserName := fun name => if name = "alice" then [("token", "s3cr3t")] else []

/-- A sample node at component level. -/
def sampleNode : resolutionNode where
  resolver := ⟨⟨sampleLoader⟩⟩
  labels := ⟨[("tier", "gold")]⟩
  user := ⟨"alice", [("team", "dev")]⟩
  dependency := ⟨"dependency", ⟨"main", "dep1", 1⟩, "alice", "kafka", [("tier", "gold")]⟩
  service := ⟨"service", ⟨"main", "kafka", 1⟩, [("kind", "queue")],
    [⟨"broker", "", some ⟨"helm"⟩⟩]⟩
  discoveryTreeNode := [("url", .scalar "kafka:9092"), ("Instance", .scalar "stale")]
  componentKey := sampleKey "kafka" "broker"

/-- A node with the labels of `sampleNode` and everything else different. -/
def otherNode : resolutionNode where
  resolver := ⟨⟨⟨fun _ => []⟩⟩⟩
  labels := ⟨[("tier", "gold")]⟩
  user := ⟨"bob", []⟩
  dependency := ⟨"dependency", ⟨"main", "dep2", 1⟩, "bob", "zookeeper", []⟩
  service := ⟨"service", ⟨"main", "zookeeper", 1⟩, [], []⟩
  discoveryTreeNode := []
  componentKey := sampleKey "zookeeper" "root"

/-- The node `sampleNode` with another user, another discovery tree, another resolver, and
a dependency and a service that keep their metadata only. -/
def hiddenVariantNode : resolutionNode where
  resolver := ⟨⟨⟨fun _ => []⟩⟩⟩
  labels := ⟨[("tier", "gold")]⟩
  user := ⟨"bob", []⟩
  dependency := ⟨"dependency", ⟨"main", "dep1", 1⟩, "bob", "zookeeper", []⟩
  service := ⟨"service", ⟨"main", "kafka", 1⟩, [("kind", "queue")],
    [⟨"broker", "", some ⟨"helm"⟩⟩, ⟨"ui", "", none⟩]⟩
  discoveryTreeNode := []
  componentKey := sampleKey "kafka" "root"

/-- A sample behaviour of `ApplyTransform`: the labels under `set` are put in front, and
a change is reported when there are any. -/
def sampleTransform : lang.Transform := fun labels ops =>
  (⟨(GoMap.get "set" ops).getD [] ++ labels.Labels⟩, (GoMap.get "set" ops).isSome)

/-- A heap with one discovery tree, at address 0. -/
def sampleHeap : util.Heap := [[("url", .scalar "kafka:9092"), ("Instance", .scalar "stale")]]

/-- A sample event log: a debug entry and an error entry. -/
def sampleEntries : List logrus.Entry :=
  [⟨.DebugLevel, "cycle detected in debug"⟩, ⟨.ErrorLevel, "policy has a cycle: a -> b -> a"⟩]

/-- A policy that knows no object and reports no error. -/
def notFoundPolicy : lang.Policy := ⟨fun _ _ _ => (none, none), fun _ => []⟩

/-- An API over the policy that knows no object. -/
def notFoundAPI : coreAPI :=
  ⟨(some notFoundPolicy, none), (some ⟨[]⟩, none), ⟨fun _ _ => (none, none)⟩⟩

/-- Sample library functions: merging appends. -/
def sampleLib : plugin.Lib := ⟨"target-suffix", fun a b => a ++ b, "last"⟩

/-- A sample plugin: it fails for the deployment `db#app` and lists one pod for others. -/
def samplePlugin : plugin.CodePlugin where
  Resources := fun params =>
    if params.DeployName = "db#app" then .returned ([], some "timeout")
    else .returned ([("pods", [[params.DeployName]])], none)

/-- A sample policy: one dependency, one service with a code component `app` and a
component `idle` without code, one cluster. -/
def samplePolicy : lang.Policy where
  GetObject := fun kind _ _ =>
    if kind = "dependency" then (some (.dependency sampleNode.dependency), none)
    else if kind = "service" then
      (some (.service ⟨"service", ⟨"main", "web", 1⟩, [],
        [⟨"app", "", some ⟨"helm"⟩⟩, ⟨"idle", "", none⟩]⟩), none)
    else if kind = "cluster" then (some (.cluster ⟨"cluster", ⟨"system", "cluster", 1⟩⟩), none)
    else (none, none)
  GetObjectsByKind := fun kind =>
    if kind = "dependency" then [.dependency sampleNode.dependency] else []

/-- A sample instance of a component, holding the given dependency keys. -/
def sampleInstance (service component : String) (isCode : Bool)
    (dependencyKeys : Option (GoMap String Int)) : ComponentInstance where
  Metadata := ⟨sampleKey service component⟩
  DependencyKeys := dependencyKeys
  EdgesOut := []
  CalculatedCodeParams := []
  IsCode := isCode

/-- A sample actual state: `web`, `db` and `cache` are code instances of the sample
dependency, `lb` is not code, and `other` belongs to another dependency. -/
def sampleActualState : PolicyResolution :=
  ⟨[("web", sampleInstance "web" "app" true (some [("main/dependency/dep1", 1)])),
    ("db", sampleInstance "db" "app" true (some [("main/dependency/dep1", 2)])),
    ("cache", sampleInstance "cache" "idle" true (some [("main/dependency/dep1", 2)])),
    ("lb", sampleInstance "lb" "app" false (some [("main/dependency/dep1", 1)])),
    ("other", sampleInstance "other" "app" true (some [("main/dependency/dep9", 1)]))]⟩

/-- A sample API over the sample policy and actual state. -/
def sampleAPI : coreAPI :=
  ⟨(some samplePolicy, none), (some sampleActualState, none), ⟨fun _ _ => (some samplePlugin, none)⟩⟩

/-- A schedule for three goroutines: `db` runs to its end, then `cache`, then `web`. -/
def sampleSchedule : List Nat := [1, 1, 1, 2, 2, 2, 0, 0, 0, 0, 0]

/-- A sample policy for graphs: every contract and every service is found. -/
def graphPolicy : lang.Policy where
  GetObject := fun kind name _ =>
    if kind = "contract" then (some (.contract ⟨"contract", ⟨"main", name, 1⟩, [⟨"prod"⟩]⟩), none)
    else if kind = "service" then (some (.service ⟨"service", ⟨"main", name, 1⟩, [], []⟩), none)
    else (none, none)
  GetObjectsByKind := fun kind =>
    if kind = "dependency" then [.dependency sampleNode.dependency] else []

/-- A sample instance for graphs, of the sample dependency, with edges out. -/
def graphInstance (service component : String) (hasDependency : Bool)
    (edgesOut : List String) : ComponentInstance where
  Metadata := ⟨sampleKey service component⟩
  DependencyKeys := if hasDependency then some [("main/dependency/dep1", 1)] else some []
  EdgesOut := edgesOut.map (fun k => (k, true))
  CalculatedCodeParams := []
  IsCode := false

/-- A sample builder: the service instance `root` depends on the component `app`, which
depends on the service instance `svc2`, and on `skip`, which is not of the dependency and
is the only way to the service instance `hidden`. -/
def graphBuilder : GraphBuilder where
  policy := graphPolicy
  resolution := ⟨[
    ("root", graphInstance "web" "root" true ["app", "skip"]),
    ("app", graphInstance "web" "app" true ["svc2"]),
    ("skip", graphInstance "side" "root" false ["hidden"]),
    ("svc2", graphInstance "store" "root" true []),
    ("hidden", graphInstance "vault" "root" true [])]⟩
  GetDependencyResolution := fun _ => ⟨true, "root"⟩
  graph := ⟨[], []⟩

/-- A small sample builder: the service instance `root` depends on the component `app`. -/
def smallBuilder : GraphBuilder where
  policy := graphPolicy
  resolution := ⟨[
    ("root", graphInstance "web" "root" true ["app"]),
    ("app", graphInstance "web" "app" true [])]⟩
  GetDependencyResolution := fun _ => ⟨true, "root"⟩
  graph := ⟨[], []⟩

/-- A builder over a resolution whose only instance, a component, has the empty key, which
is also the resolved root key. -/
def emptyKeyBuilder : GraphBuilder where
  policy := graphPolicy
  resolution := ⟨[("", graphInstance "web" "app" true [])]⟩
  GetDependencyResolution := fun _ => ⟨true, ""⟩
  graph := ⟨[], []⟩

/-- Whether the template parameters have a field of the given name. -/
def template.Parameters.exposes (p : template.Parameters) (field : String) : Bool :=
  (GoMap.get field p.data).isSome

/-! ## Lemmas on Go maps -/

namespace GoMap

variable {κ υ : Type} [DecidableEq κ]

theorem get_set_self (k : κ) (v : υ) (m : GoMap κ υ) : get k (set k v m) = some v := by
  induction m with
  | nil => simp [set, get]
  | cons p t ih =>
    obtain ⟨k', v'⟩ := p
    by_cases h : k' = k
    · simp [set, get, h]
    · simp [set, get, h, ih]

theorem get_set_ne (k k' : κ) (v : υ) (m : GoMap κ υ) (h : k ≠ k') :
    get k' (set k v m) = get k' m := by
  induction m with
  | nil => simp [set, get, h]
  | cons p t ih =>
    obtain ⟨k2, v2⟩ := p
    by_cases h2 : k2 = k
    · subst h2
      simp [set, get, h]
    · by_cases h3 : k2 = k'
      · subst h3
        simp [set, get, h2]
      · simp [set, get, h2, h3, ih]

theorem set_set (k : κ) (v : υ) (m : GoMap κ υ) : set k v (set k v m) = set k v m := by
  induction m with
  | nil => simp [set]
  | cons p t ih =>
    obtain ⟨k', v'⟩ := p
    by_cases h : k' = k
    · simp [set, h]
    · simp [set, h, ih]

end GoMap

theorem util.Value.MakeCopy_value_eq (v : util.Value) : v.MakeCopy = v := by
  induction v using util.Value.rec
    (motive_2 := fun m => util.Value.MakeCopy.copyEntries m = m)
    (motive_3 := fun p => p.2.MakeCopy = p.2) with
  | scalar s => simp [util.Value.MakeCopy]
  | nested m ih => simp [util.Value.MakeCopy, ih]
  | nil => simp [util.Value.MakeCopy.copyEntries]
  | cons p t ihp iht =>
    obtain ⟨k, v⟩ := p
    simp only [util.Value.MakeCopy.copyEntries]
    simp only at ihp
    rw [ihp, iht]
  | mk k v ih => exact ih

theorem util.NestedParameterMap.MakeCopy_eq (m : util.NestedParameterMap) : m.MakeCopy = m := by
  induction m with
  | nil => simp [util.NestedParameterMap.MakeCopy, util.Value.MakeCopy.copyEntries]
  | cons p t ih =>
    obtain ⟨k, v⟩ := p
    simp only [util.NestedParameterMap.MakeCopy, util.Value.MakeCopy.copyEntries] at ih ⊢
    rw [util.Value.MakeCopy_value_eq, ih]

/-! ## The attach-dependency action -/

/-- What the read-modify-write updater does with the closure of `Apply` on an instance
that is present and has an initialised dependency map. -/
theorem readModifyWrite_attach (a : AttachDependencyAction) (st : PolicyResolution)
    (obj : ComponentInstance) (m : GoMap String Int)
    (hkey : GoMap.get a.ComponentKey st.ComponentInstanceMap = some obj)
    (hmap : obj.DependencyKeys = some m) :
    readModifyWrite a.ComponentKey (attachUpdateFn a) st =
      (⟨GoMap.set a.ComponentKey
          { obj with DependencyKeys := some (GoMap.set a.DependencyID a.Depth m) }
          st.ComponentInstanceMap⟩, .returned none) := by
  simp [readModifyWrite, hkey, attachUpdateFn, hmap]

/-- C1: when `ComponentKey` names an instance of the actual state whose `DependencyKeys`
map is initialised, a successful `Apply` of the action built by
`NewAttachDependencyAction componentKey dependencyID depth` leaves that instance with
`DependencyKeys[dependencyID] = depth`. -/
theorem attach_apply_sets_depth (componentKey dependencyID : String) (depth : Int)
    (log : EventLogger) (start : Time) (stack : String) (w : World)
    (obj : ComponentInstance) (m : GoMap String Int)
    (hkey : GoMap.get componentKey w.actual.ComponentInstanceMap = some obj)
    (hmap : obj.DependencyKeys = some m)
    (hok : ((NewAttachDependencyAction componentKey dependencyID depth).Apply
      (some ⟨log, readModifyWrite⟩) start stack w).2 = .returned none) :
    ∃ obj' m',
      GoMap.get componentKey ((NewAttachDependencyAction componentKey dependencyID depth).Apply
        (some ⟨log, readModifyWrite⟩) start stack w).1.actual.ComponentInstanceMap = some obj' ∧
      obj'.DependencyKeys = some m' ∧ GoMap.get dependencyID m' = some depth := by
  have hrmw := readModifyWrite_attach
    (NewAttachDependencyAction componentKey dependencyID depth) w.actual obj m hkey hmap
  simp only [NewAttachDependencyAction] at hrmw
  simp only [AttachDependencyAction.Apply, applyBody, NewAttachDependencyAction] at hok ⊢
  rcases hlog : log (attachMessage ⟨AttachDependencyActionKind,
      action.NewMetadata AttachDependencyActionKind [componentKey, dependencyID],
      componentKey, dependencyID, depth⟩) w.eventLog with ⟨l, c⟩
  rw [hlog] at hok
  cases c with
  | panicked v => simp [recovered, recover] at hok
  | returned u =>
    simp only [hrmw, action.CollectMetricsFor]
    exact ⟨_, _, GoMap.get_set_self _ _ _, rfl, GoMap.get_set_self _ _ _⟩

/-- C1, on a sample world: attaching `dep2` at depth 3 to `web` succeeds and records it. -/
theorem attach_apply_sets_depth_witness :
    GoMap.get "web" sampleWorld.actual.ComponentInstanceMap = some webInstance ∧
      ((NewAttachDependencyAction "web" "dep2" 3).Apply
        (some ⟨appendLog, readModifyWrite⟩) 0 "" sampleWorld).2 = .returned none ∧
      ∃ obj' m',
        GoMap.get "web" ((NewAttachDependencyAction "web" "dep2" 3).Apply
          (some ⟨appendLog, readModifyWrite⟩) 0 "" sampleWorld).1.actual.ComponentInstanceMap
            = some obj' ∧
        obj'.DependencyKeys = some m' ∧ GoMap.get "dep2" m' = some 3 :=
  ⟨by decide, by decide,
    attach_apply_sets_depth "web" "dep2" 3 appendLog 0 "" sampleWorld
      webInstance [("dep1", 1)] (by decide) rfl (by decide)⟩

/-- C2, as stated, fails: when `UpdateComponentInstance` calls `panic(nil)`, the body of
`Apply` panics, `recover()` gives nil, and `Apply` returns a nil error. -/
theorem attach_apply_nil_panic_returns_nil :
    (applyBody (NewAttachDependencyAction "db" "dep1" 2) (some ⟨appendLog, nilPanicUpdater⟩)
        sampleWorld).2 = .panicked none ∧
      ((NewAttachDependencyAction "db" "dep1" 2).Apply (some ⟨appendLog, nilPanicUpdater⟩) 7
        "goroutine 1" sampleWorld).2 = .returned none :=
  ⟨by decide, by decide⟩

/-- C2, amended: `Apply` always returns normally, whatever the context, the event log and
the updater do; when its body panics with a non-nil value, in the event log, in
`UpdateComponentInstance` or in the mutation function (a write to a nil `DependencyKeys`
map), the error returned is `"panic: "`, the panic value, a newline and the stack trace. -/
theorem attach_apply_never_panics (a : AttachDependencyAction)
    (context : Option action.Context) (start : Time) (stack : String) (w : World) :
    (∃ e, (a.Apply context start stack w).2 = .returned e) ∧
    (∀ v, (applyBody a context w).2 = .panicked (some v) →
      (a.Apply context start stack w).2 = .returned (some ("panic: " ++ v.text ++ "\n" ++ stack))) ∧
    (∀ c v, context = some c → (c.EventLog (attachMessage a) w.eventLog).2 = .returned () →
      (c.ActualStateUpdater a.ComponentKey (attachUpdateFn a) w.actual).2 = .panicked (some v) →
      (a.Apply context start stack w).2 = .returned (some ("panic: " ++ v.text ++ "\n" ++ stack))) ∧
    (∀ obj, obj.DependencyKeys = none → attachUpdateFn a obj = .panicked nilMapWrite) := by
  have h2 : ∀ v, (applyBody a context w).2 = .panicked (some v) →
      (a.Apply context start stack w).2 =
        .returned (some ("panic: " ++ v.text ++ "\n" ++ stack)) := by
    intro v hv
    simp only [AttachDependencyAction.Apply]
    rw [hv]
    rfl
  refine ⟨⟨_, rfl⟩, h2, ?_, ?_⟩
  · intro c v hc hlog hupd
    apply h2
    subst hc
    simp only [applyBody]
    rcases hl : c.EventLog (attachMessage a) w.eventLog with ⟨l, r⟩
    rw [hl] at hlog
    simp only at hlog
    subst hlog
    simp only [hupd]
  · intro obj hobj
    simp [attachUpdateFn, hobj]

/-- C2, on a sample world: attaching to `db`, whose `DependencyKeys` map is nil, panics in
the mutation function and `Apply` returns the converted error. -/
theorem attach_apply_never_panics_witness :
    (applyBody (NewAttachDependencyAction "db" "dep1" 2) (some sampleContext) sampleWorld).2 =
        .panicked (some nilMapWrite) ∧
      ((NewAttachDependencyAction "db" "dep1" 2).Apply (some sampleContext) 7 "goroutine 1"
        sampleWorld).2 =
        .returned (some "panic: assignment to entry in nil map\ngoroutine 1") :=
  ⟨by decide,
    (attach_apply_never_panics (NewAttachDependencyAction "db" "dep1" 2) (some sampleContext) 7
      "goroutine 1" sampleWorld).2.1 nilMapWrite (by decide)⟩

/-- C3, as stated, fails: when `UpdateComponentInstance` calls `panic(nil)`, the body of
`Apply` panics and the one call received by the metrics collector carries a nil error,
not a converted panic error. -/
theorem attach_apply_nil_panic_metrics :
    (applyBody (NewAttachDependencyAction "web" "dep2" 3) (some ⟨appendLog, nilPanicUpdater⟩)
        sampleWorld).2 = .panicked none ∧
      ((NewAttachDependencyAction "web" "dep2" 3).Apply (some ⟨appendLog, nilPanicUpdater⟩) 5
        "goroutine 1" sampleWorld).1.metrics =
        [⟨NewAttachDependencyAction "web" "dep2" 3, 5, none⟩] :=
  ⟨by decide, by decide⟩

/-- C3, amended: every `Apply` adds exactly one call to those received by the metrics
collector, made with the action, the start time and the very error that `Apply` returns:
nil when the body returned nil, the updater's error when it returned one, and the
converted panic error when it panicked with a non-nil value. -/
theorem attach_apply_reports_metrics_once (a : AttachDependencyAction)
    (context : Option action.Context) (start : Time) (stack : String) (w : World) :
    ∃ e, (a.Apply context start stack w).2 = .returned e ∧
      (a.Apply context start stack w).1.metrics = w.metrics ++ [⟨a, start, e⟩] ∧
      ((applyBody a context w).2 = .returned none → e = none) ∧
      (∀ err, (applyBody a context w).2 = .returned (some err) → e = some err) ∧
      (∀ v, (applyBody a context w).2 = .panicked (some v) → e = some (panicError v stack)) := by
  have hm : (applyBody a context w).1.metrics = w.metrics := by
    simp only [applyBody]
    cases context with
    | none => rfl
    | some c =>
      simp only
      rcases c.EventLog (attachMessage a) w.eventLog with ⟨l, r⟩
      cases r <;> rfl
  refine ⟨recovered (applyBody a context w).2 stack, rfl, ?_, ?_, ?_, ?_⟩
  · simp only [AttachDependencyAction.Apply, action.CollectMetricsFor, hm]
  · intro h
    rw [h]
    rfl
  · intro err h
    rw [h]
    rfl
  · intro v h
    rw [h]
    rfl

/-- C3, on a sample world: an updater that fails with an error leads to one metrics call
carrying that error, which is also what `Apply` returns. -/
theorem attach_apply_reports_metrics_once_witness :
    ((NewAttachDependencyAction "web" "dep2" 3).Apply (some ⟨appendLog, failingUpdater⟩) 5 ""
        sampleWorld).2 = .returned (some "store is down") ∧
      ((NewAttachDependencyAction "web" "dep2" 3).Apply (some ⟨appendLog, failingUpdater⟩) 5 ""
        sampleWorld).1.metrics =
        [⟨NewAttachDependencyAction "web" "dep2" 3, 5, some "store is down"⟩] := by
  obtain ⟨e, he, hm, _, herr, _⟩ := attach_apply_reports_metrics_once
    (NewAttachDependencyAction "web" "dep2" 3) (some ⟨appendLog, failingUpdater⟩) 5 "" sampleWorld
  have : e = some "store is down" := herr "store is down" (by decide)
  subst this
  exact ⟨he, hm⟩

/-- The actual state after `Apply` with the read-modify-write updater and an event log
that does not panic: the state after the updater ran on the state before. -/
theorem attach_apply_actual (a : AttachDependencyAction) (log : EventLogger)
    (hlog : ∀ msg l, (log msg l).2 = .returned ()) (start : Time) (stack : String) (w : World) :
    (a.Apply (some ⟨log, readModifyWrite⟩) start stack w).1.actual =
      (readModifyWrite a.ComponentKey (attachUpdateFn a) w.actual).1 := by
  simp only [AttachDependencyAction.Apply, applyBody]
  have h := hlog (attachMessage a) w.eventLog
  rcases hl : log (attachMessage a) w.eventLog with ⟨l, r⟩
  rw [hl] at h
  simp only at h
  subst h
  rfl

/-- The read-modify-write updater with the closure of `Apply` is idempotent on the state. -/
theorem readModifyWrite_attach_idempotent (a : AttachDependencyAction) (st : PolicyResolution) :
    (readModifyWrite a.ComponentKey (attachUpdateFn a)
      (readModifyWrite a.ComponentKey (attachUpdateFn a) st).1).1 =
    (readModifyWrite a.ComponentKey (attachUpdateFn a) st).1 := by
  cases hkey : GoMap.get a.ComponentKey st.ComponentInstanceMap with
  | none => simp [readModifyWrite, hkey]
  | some obj =>
    cases hmap : obj.DependencyKeys with
    | none => simp [readModifyWrite, hkey, attachUpdateFn, hmap]
    | some m =>
      rw [readModifyWrite_attach a st obj m hkey hmap]
      simp only
      rw [readModifyWrite_attach a _ { obj with DependencyKeys := some (GoMap.set a.DependencyID a.Depth m) }
        (GoMap.set a.DependencyID a.Depth m) (GoMap.get_set_self _ _ _) rfl]
      simp only [GoMap.set_set]

/-- C4: with the read-modify-write updater and an event log that does not panic, applying
an attach action twice in succession leaves the same actual state as applying it once. -/
theorem attach_apply_idempotent (a : AttachDependencyAction) (log : EventLogger)
    (hlog : ∀ msg l, (log msg l).2 = .returned ())
    (start1 start2 : Time) (stack1 stack2 : String) (w : World) :
    (a.Apply (some ⟨log, readModifyWrite⟩) start2 stack2
        (a.Apply (some ⟨log, readModifyWrite⟩) start1 stack1 w).1).1.actual =
      (a.Apply (some ⟨log, readModifyWrite⟩) start1 stack1 w).1.actual := by
  rw [attach_apply_actual a log hlog, attach_apply_actual a log hlog]
  exact readModifyWrite_attach_idempotent a w.actual

/-- C4, on a sample world: attaching `dep2` to `web` twice gives the state of attaching
it once, in which `web` holds `dep1` and `dep2`. -/
theorem attach_apply_idempotent_witness :
    ((NewAttachDependencyAction "web" "dep2" 3).Apply (some ⟨appendLog, readModifyWrite⟩) 1 ""
        ((NewAttachDependencyAction "web" "dep2" 3).Apply (some ⟨appendLog, readModifyWrite⟩)
          0 "" sampleWorld).1).1.actual =
      ((NewAttachDependencyAction "web" "dep2" 3).Apply (some ⟨appendLog, readModifyWrite⟩) 0 ""
        sampleWorld).1.actual ∧
    ((NewAttachDependencyAction "web" "dep2" 3).Apply (some ⟨appendLog, readModifyWrite⟩) 0 ""
        sampleWorld).1.actual =
      ⟨[("web", { webInstance with DependencyKeys := some [("dep1", 1), ("dep2", 3)] }),
        ("db", dbInstance)]⟩ :=
  ⟨attach_apply_idempotent (NewAttachDependencyAction "web" "dep2" 3) appendLog
      (fun _ _ => rfl) 0 1 "" "" sampleWorld,
    by decide⟩

/-! ## Rule actions -/

/-- After a non-empty sequence of rules, the reject flags are those of the last rule. -/
theorem lang.applyRules_last (T : lang.Transform) (rules : List lang.Rule) (rule : lang.Rule)
    (result : lang.RuleActionResult) :
    (lang.applyRules T (rules ++ [rule]) result).RejectDependency =
        decide (rule.Actions.Dependency = lang.Reject) ∧
      (lang.applyRules T (rules ++ [rule]) result).RejectIngress =
        decide (rule.Actions.Ingress = lang.Reject) := by
  simp only [lang.applyRules, List.foldl_append, List.foldl_cons, List.foldl_nil,
    lang.Rule.ApplyActions]
  cases rule.Actions.ChangeLabels <;> simp

/-- C5, the code at the failing input: a rejecting rule followed by a rule that does not
reject leaves `RejectDependency` and `RejectIngress` false, whatever `ApplyTransform` does. -/
theorem applyRules_reject_cleared (T : lang.Transform) :
    (lang.applyRules T
        [⟨"deny", ⟨"reject", "reject", none⟩⟩, ⟨"pass", ⟨"allow", "allow", none⟩⟩]
        (lang.NewRuleActionResult ⟨[]⟩)).RejectDependency = false ∧
      (lang.applyRules T
        [⟨"deny", ⟨"reject", "reject", none⟩⟩, ⟨"pass", ⟨"allow", "allow", none⟩⟩]
        (lang.NewRuleActionResult ⟨[]⟩)).RejectIngress = false ∧
      (lang.applyRules T [⟨"deny", ⟨"reject", "reject", none⟩⟩]
        (lang.NewRuleActionResult ⟨[]⟩)).RejectDependency = true := by
  refine ⟨?_, ?_, ?_⟩ <;> simp [lang.applyRules, lang.Rule.ApplyActions, lang.Reject]

/-! ## Contextual data -/

/-- C6: two nodes with equal labels get equal parameters for context-selection criteria
and for component criteria, and the map of extra objects is empty in both. -/
theorem criteria_data_labels_only (node other : resolutionNode)
    (h : node.labels.Labels = other.labels.Labels) :
    node.getContextualDataForContextExpression = other.getContextualDataForContextExpression ∧
      node.getContextualDataForComponentCriteria =
        other.getContextualDataForComponentCriteria ∧
      node.getContextualDataForContextExpression.structParams = [] ∧
      node.getContextualDataForComponentCriteria.structParams = [] ∧
      node.getContextualDataForContextExpression.stringParams = node.labels.Labels ∧
      node.getContextualDataForComponentCriteria.stringParams = node.labels.Labels := by
  simp [resolutionNode.getContextualDataForContextExpression,
    resolutionNode.getContextualDataForComponentCriteria, expression.NewParams, h]

/-- C6, on two sample nodes that share their labels and differ in user, dependency,
service, discovery tree and component key. -/
theorem criteria_data_labels_only_witness :
    sampleNode.user ≠ otherNode.user ∧ sampleNode.dependency ≠ otherNode.dependency ∧
      sampleNode.service ≠ otherNode.service ∧
      sampleNode.componentKey ≠ otherNode.componentKey ∧
      sampleNode.getContextualDataForContextExpression =
        otherNode.getContextualDataForContextExpression ∧
      sampleNode.getContextualDataForComponentCriteria =
        otherNode.getContextualDataForComponentCriteria :=
  ⟨by decide, by decide, by decide, by decide,
    (criteria_data_labels_only sampleNode otherNode rfl).1,
    (criteria_data_labels_only sampleNode otherNode rfl).2.1⟩

/-- C7: the parameters for rule criteria are the labels of the node and two objects,
`Service` (the metadata and labels of the service) and `Dependency` (the metadata of
the dependency and `KeyForStorable` of it); two nodes that agree on these five values get
equal parameters, whatever else differs. -/
theorem rule_data_exposure (env : Env) (node other : resolutionNode) :
    (node.getContextualDataForRuleExpression env).stringParams = node.labels.Labels ∧
      (node.getContextualDataForRuleExpression env).structParams =
        [("Service", .service ⟨node.service.Metadata, node.service.Labels⟩),
          ("Dependency",
            .dependency ⟨node.dependency.Metadata, env.KeyForStorable node.dependency⟩)] ∧
      (node.labels.Labels = other.labels.Labels →
        node.service.Metadata = other.service.Metadata →
        node.service.Labels = other.service.Labels →
        node.dependency.Metadata = other.dependency.Metadata →
        env.KeyForStorable node.dependency = env.KeyForStorable other.dependency →
        node.getContextualDataForRuleExpression env =
          other.getContextualDataForRuleExpression env) := by
  refine ⟨rfl, rfl, ?_⟩
  intro h1 h2 h3 h4 h5
  simp [resolutionNode.getContextualDataForRuleExpression, resolutionNode.proxyService,
    resolutionNode.proxyDependency, expression.NewParams, h1, h2, h3, h4, h5]

/-- C7, on two sample nodes that differ in user, discovery tree, service components and
the user, contract and labels of the dependency. -/
theorem rule_data_exposure_witness :
    sampleNode.user ≠ hiddenVariantNode.user ∧
      sampleNode.dependency ≠ hiddenVariantNode.dependency ∧
      sampleNode.service ≠ hiddenVariantNode.service ∧
      sampleNode.getContextualDataForRuleExpression sampleEnv =
        hiddenVariantNode.getContextualDataForRuleExpression sampleEnv ∧
      (sampleNode.getContextualDataForRuleExpression sampleEnv).structParams =
        [("Service", .service ⟨⟨"main", "kafka", 1⟩, [("kind", "queue")]⟩),
          ("Dependency", .dependency ⟨⟨"main", "dep1", 1⟩, "main/dependency/dep1"⟩)] :=
  ⟨by decide, by decide, by decide,
    (rule_data_exposure sampleEnv sampleNode hiddenVariantNode).2.2 rfl rfl rfl rfl
      (by decide),
    (rule_data_exposure sampleEnv sampleNode hiddenVariantNode).2.1⟩

/-- C8 as stated fails: on the sample node the allocation-key parameters have no
`Discovery` and no `Target` field, and the code/discovery parameters have no `Dependency`
field. -/
theorem template_data_not_all_five :
    ¬ (∀ field ∈ ["Labels", "User", "Dependency", "Discovery", "Target"],
        (sampleNode.getContextualDataForContextAllocationTemplate sampleEnv []).1.exposes field
            = true ∧
          (sampleNode.getContextualDataForCodeDiscoveryTemplate sampleEnv []).1.exposes field
            = true) := by
  intro h
  have h1 := (h "Discovery" (by simp)).1
  revert h1
  decide

/-- C8, amended: the allocation-key parameters have exactly the fields `User`,
`Dependency` and `Labels`, and the code/discovery parameters have exactly the fields
`User`, `Labels`, `Discovery` and `Target`, each holding the proxy of that name built
from the node. -/
theorem template_data_fields (env : Env) (node : resolutionNode) (calls : LoaderCalls) :
    (node.getContextualDataForContextAllocationTemplate env calls).1.data =
        [("User", (node.proxyUser node.user calls).1),
          ("Dependency", node.proxyDependency env node.dependency),
          ("Labels", .labels node.labels.Labels)] ∧
      (node.getContextualDataForCodeDiscoveryTemplate env calls).1.data =
        [("User", (node.proxyUser node.user calls).1),
          ("Labels", .labels node.labels.Labels),
          ("Discovery", node.proxyDiscovery env node.discoveryTreeNode node.componentKey),
          ("Target", node.proxyTarget node.componentKey)] ∧
      (∀ field, (node.getContextualDataForContextAllocationTemplate env calls).1.exposes field
          = true ↔ field ∈ ["User", "Dependency", "Labels"]) ∧
      (∀ field, (node.getContextualDataForCodeDiscoveryTemplate env calls).1.exposes field
          = true ↔ field ∈ ["User", "Labels", "Discovery", "Target"]) := by
  refine ⟨rfl, rfl, ?_, ?_⟩
  · intro field
    simp only [template.Parameters.exposes,
      resolutionNode.getContextualDataForContextAllocationTemplate, template.NewParams,
      GoMap.get]
    by_cases h1 : "User" = field
    · subst h1
      simp
    · by_cases h2 : "Dependency" = field
      · subst h2
        simp
      · by_cases h3 : "Labels" = field
        · subst h3
          simp
        · simp [h1, h2, h3, Ne.symm h1, Ne.symm h2, Ne.symm h3]
  · intro field
    simp only [template.Parameters.exposes,
      resolutionNode.getContextualDataForCodeDiscoveryTemplate, template.NewParams,
      GoMap.get]
    by_cases h1 : "User" = field
    · subst h1
      simp
    · by_cases h2 : "Labels" = field
      · subst h2
        simp
      · by_cases h3 : "Discovery" = field
        · subst h3
          simp
        · by_cases h4 : "Target" = field
          · subst h4
            simp
          · simp [h1, h2, h3, h4, Ne.symm h1, Ne.symm h2, Ne.symm h3, Ne.symm h4]

/-- C9: the map returned by `proxyDiscovery` agrees with the tree on every key other than
`Instance`, `InstanceId` and `Service`; its `Instance` is the escaped deploy name and its
`InstanceId` the hashed key of `cik`; for a component key its `Service` holds the same two
entries for the parent service key, and for a service key its `Service` is that of the
tree. -/
theorem proxyDiscovery_entries (env : Env) (node : resolutionNode)
    (discoveryTree : util.NestedParameterMap) (cik : ComponentInstanceKey) :
    ∃ result, node.proxyDiscovery env discoveryTree cik = .discovery result ∧
      (∀ key, key ≠ "Instance" → key ≠ "InstanceId" → key ≠ "Service" →
        GoMap.get key result = GoMap.get key discoveryTree) ∧
      GoMap.get "Instance" result = some (.scalar (env.EscapeName (env.GetDeployName cik))) ∧
      GoMap.get "InstanceId" result = some (.scalar (env.HashFnv (env.GetKey cik))) ∧
      (env.IsComponent cik = true →
        GoMap.get "Service" result = some (.nested [
          ("Instance",
            .scalar (env.EscapeName (env.GetDeployName (env.GetParentServiceKey cik)))),
          ("InstanceId",
            .scalar (env.HashFnv (env.GetKey (env.GetParentServiceKey cik))))])) ∧
      (env.IsComponent cik = false →
        GoMap.get "Service" result = GoMap.get "Service" discoveryTree) := by
  refine ⟨_, rfl, ?_, ?_, ?_, ?_, ?_⟩
  · intro key h1 h2 h3
    simp only [resolutionNode.proxyDiscoveryMap, util.NestedParameterMap.MakeCopy_eq]
    split
    · rw [GoMap.get_set_ne _ _ _ _ (Ne.symm h3), GoMap.get_set_ne _ _ _ _ (Ne.symm h2),
        GoMap.get_set_ne _ _ _ _ (Ne.symm h1)]
    · rw [GoMap.get_set_ne _ _ _ _ (Ne.symm h2), GoMap.get_set_ne _ _ _ _ (Ne.symm h1)]
  · simp only [resolutionNode.proxyDiscoveryMap]
    split
    · rw [GoMap.get_set_ne _ _ _ _ (by decide), GoMap.get_set_ne _ _ _ _ (by decide),
        GoMap.get_set_self]
    · rw [GoMap.get_set_ne _ _ _ _ (by decide), GoMap.get_set_self]
  · simp only [resolutionNode.proxyDiscoveryMap]
    split
    · rw [GoMap.get_set_ne _ _ _ _ (by decide), GoMap.get_set_self]
    · rw [GoMap.get_set_self]
  · intro h
    simp only [resolutionNode.proxyDiscoveryMap, h, if_true]
    rw [GoMap.get_set_self]
  · intro h
    simp only [resolutionNode.proxyDiscoveryMap, h, util.NestedParameterMap.MakeCopy_eq]
    simp only [Bool.false_eq_true, if_false]
    rw [GoMap.get_set_ne _ _ _ _ (by decide), GoMap.get_set_ne _ _ _ _ (by decide)]

/-- C9, on the sample node, a component of service `kafka`: the stale `Instance` of the
tree is replaced, `url` is kept and `Service` is added. -/
theorem proxyDiscovery_entries_witness :
    sampleEnv.IsComponent sampleNode.componentKey = true ∧
      sampleNode.proxyDiscovery sampleEnv sampleNode.discoveryTreeNode sampleNode.componentKey =
        .discovery [("url", .scalar "kafka:9092"), ("Instance", .scalar "esc:kafka#broker"),
          ("InstanceId", .scalar "fnv:cluster#kafka#broker"),
          ("Service", .nested [("Instance", .scalar "esc:kafka#root"),
            ("InstanceId", .scalar "fnv:cluster#kafka#root")])] ∧
      ∃ result, sampleNode.proxyDiscovery sampleEnv sampleNode.discoveryTreeNode
          sampleNode.componentKey = .discovery result ∧
        GoMap.get "Instance" result = some (.scalar "esc:kafka#broker") := by
  refine ⟨by decide, rfl, ?_⟩
  obtain ⟨result, h, _, hinst, _⟩ := proxyDiscovery_entries sampleEnv sampleNode
    sampleNode.discoveryTreeNode sampleNode.componentKey
  exact ⟨result, h, by rw [hinst]; rfl⟩

/-- C10 as stated fails: on the sample node, building the proxied user, the allocation-key
parameters or the code/discovery parameters each calls the secret loader, before any
template is evaluated. -/
theorem secrets_not_lazy :
    ¬ ((sampleNode.proxyUser sampleNode.user []).2 = [] ∧
        (sampleNode.getContextualDataForContextAllocationTemplate sampleEnv []).2 = [] ∧
        (sampleNode.getContextualDataForCodeDiscoveryTemplate sampleEnv []).2 = []) := by
  decide

/-- C10, amended: secrets are loaded when the proxy is built. `proxyUser` calls the secret
loader exactly once, with the name of the user, and puts what it returns in `Secrets`;
building the allocation-key parameters or the code/discovery parameters makes exactly
that one call, for the user of the node. -/
theorem secrets_loaded_on_build (env : Env) (node : resolutionNode) (user : lang.User)
    (calls : LoaderCalls) :
    (node.proxyUser user calls).2 = calls ++ [user.Name] ∧
      (node.proxyUser user calls).1 = .user ⟨user.Name, user.Labels,
        node.resolver.externalData.SecretLoader.LoadSecretsByUserName user.Name⟩ ∧
      (node.getContextualDataForContextAllocationTemplate env calls).2 =
        calls ++ [node.user.Name] ∧
      (node.getContextualDataForCodeDiscoveryTemplate env calls).2 =
        calls ++ [node.user.Name] :=
  ⟨rfl, rfl, rfl, rfl⟩

/-! ## Label changes of a rule -/

/-- C15: a rule without a label action leaves `ChangedLabelsOnLastApply` false and the
labels of the result as they were; a rule with a label action sets
`ChangedLabelsOnLastApply` to what `ApplyTransform` returns on the labels of the result
(and the labels to what it leaves). -/
theorem applyActions_label_change (T : lang.Transform) (rule : lang.Rule)
    (result : lang.RuleActionResult) :
    (rule.Actions.ChangeLabels = none →
      (rule.ApplyActions T result).ChangedLabelsOnLastApply = false ∧
      (rule.ApplyActions T result).Labels = result.Labels) ∧
    (∀ ops, rule.Actions.ChangeLabels = some ops →
      (rule.ApplyActions T result).ChangedLabelsOnLastApply = (T result.Labels ops).2 ∧
      (rule.ApplyActions T result).Labels = (T result.Labels ops).1) := by
  constructor
  · intro h
    simp [lang.Rule.ApplyActions, h]
  · intro ops h
    simp [lang.Rule.ApplyActions, h]

/-- C15, on a sample: after a rule that changed the labels, a rule without a label action
resets the flag and keeps the labels. -/
theorem applyActions_label_change_witness :
    ((⟨"tag", ⟨"allow", "allow", some [("set", [("tier", "gold")])]⟩⟩ : lang.Rule).ApplyActions
        sampleTransform (lang.NewRuleActionResult ⟨[]⟩)).ChangedLabelsOnLastApply = true ∧
      ((⟨"plain", ⟨"allow", "allow", none⟩⟩ : lang.Rule).ApplyActions sampleTransform
        ⟨false, false, true, ⟨[("tier", "gold")]⟩⟩).ChangedLabelsOnLastApply = false ∧
      ((⟨"plain", ⟨"allow", "allow", none⟩⟩ : lang.Rule).ApplyActions sampleTransform
        ⟨false, false, true, ⟨[("tier", "gold")]⟩⟩).Labels = ⟨[("tier", "gold")]⟩ :=
  ⟨by decide,
    ((applyActions_label_change sampleTransform ⟨"plain", ⟨"allow", "allow", none⟩⟩
      ⟨false, false, true, ⟨[("tier", "gold")]⟩⟩).1 rfl).1,
    ((applyActions_label_change sampleTransform ⟨"plain", ⟨"allow", "allow", none⟩⟩
      ⟨false, false, true, ⟨[("tier", "gold")]⟩⟩).1 rfl).2⟩

/-! ## The event-log verifier -/

/-- The message a verifier checks for is not changed by firing entries at it. -/
theorem UnitTestLogVerifier.fireAll_message (v : UnitTestLogVerifier)
    (entries : List logrus.Entry) :
    (v.fireAll entries).checkForErrorMessage = v.checkForErrorMessage := by
  induction entries generalizing v with
  | nil => rfl
  | cons e t ih =>
    simp only [UnitTestLogVerifier.fireAll, List.foldl_cons] at ih ⊢
    rw [ih]
    simp only [UnitTestLogVerifier.Fire]
    split <;> rfl

/-- The flag after a sequence of entries: it was set before, or one of the entries is an
error entry with the message inside. -/
theorem UnitTestLogVerifier.fireAll_present (v : UnitTestLogVerifier)
    (entries : List logrus.Entry) :
    (v.fireAll entries).present = true ↔
      v.present = true ∨ ∃ e ∈ entries, e.Level = .ErrorLevel ∧
        v.checkForErrorMessage.data <:+: e.Message.data := by
  induction entries generalizing v with
  | nil => simp [UnitTestLogVerifier.fireAll]
  | cons e t ih =>
    simp only [UnitTestLogVerifier.fireAll, List.foldl_cons] at ih ⊢
    rw [ih]
    simp only [UnitTestLogVerifier.Fire, strings.Contains, Bool.and_eq_true,
      decide_eq_true_eq, List.mem_cons]
    by_cases h : e.Level = logrus.Level.ErrorLevel ∧
        v.checkForErrorMessage.data <:+: e.Message.data
    · rw [if_pos h]
      constructor
      · intro _
        exact Or.inr ⟨e, Or.inl rfl, h⟩
      · intro _
        exact Or.inl rfl
    · rw [if_neg h]
      constructor
      · rintro (hp | ⟨e', he', hl⟩)
        · exact Or.inl hp
        · exact Or.inr ⟨e', Or.inr he', hl⟩
      · rintro (hp | ⟨e', he' | he', hl⟩)
        · exact Or.inl hp
        · subst he'
          exact absurd hl h
        · exact Or.inr ⟨e', he', hl⟩

/-- C13: after any sequence of entries fired at a verifier built with message `m`, the
flag `present` is true exactly when one of the entries has level `Error` and a message
that contains `m`; every `Fire` returns nil; and `resolvePolicy` returns from an
expected-error run only when the resolver gave an error and the flag is true. -/
theorem verifier_present_iff (m : String) (entries : List logrus.Entry) :
    (((NewUnitTestLogVerifier m).fireAll entries).present = true ↔
      ∃ e ∈ entries, e.Level = .ErrorLevel ∧ strings.Contains e.Message m = true) ∧
    (∀ (v : UnitTestLogVerifier) (e : logrus.Entry), (v.Fire e).2 = none) ∧
    (∀ resolved r, resolvePolicy resolved entries ResError m = .returned r →
      ((NewUnitTestLogVerifier m).fireAll entries).present = true ∧ resolved.2 ≠ none) := by
  refine ⟨?_, ?_, ?_⟩
  · rw [UnitTestLogVerifier.fireAll_present]
    simp [NewUnitTestLogVerifier, strings.Contains]
  · intro v e
    simp only [UnitTestLogVerifier.Fire]
    split <;> rfl
  · rintro ⟨result, err⟩ r h
    simp only [resolvePolicy, ResError] at h
    cases err with
    | none => simp at h
    | some e =>
      simp only [ne_eq, not_true_eq_false, decide_False, Option.isNone_some, bne_self_eq_false,
        Bool.false_eq_true, if_false, if_true] at h
      by_cases hp : ((NewUnitTestLogVerifier m).fireAll entries).present = true
      · exact ⟨hp, by simp⟩
      · simp [hp] at h

/-- C13, on a sample log: a debug entry that contains the words does not set the flag, an
error entry does. -/
theorem verifier_present_iff_witness :
    ((NewUnitTestLogVerifier "cycle").fireAll [⟨.DebugLevel, "cycle detected in debug"⟩]).present
        = false ∧
      ((NewUnitTestLogVerifier "cycle").fireAll sampleEntries).present = true ∧
      resolvePolicy (none, some "failed") sampleEntries ResError "cycle" = .returned none ∧
      resolvePolicy (none, some "failed") sampleEntries ResError "timeout" = .failNow := by
  refine ⟨?_, ?_, by decide, by decide⟩
  · rw [Bool.eq_false_iff]
    intro h
    obtain ⟨e, he, hl, _⟩ := (verifier_present_iff "cycle" _).1.mp h
    simp only [List.mem_singleton] at he
    subst he
    exact absurd hl (by decide)
  · exact (verifier_present_iff "cycle" sampleEntries).1.mpr
      ⟨⟨.ErrorLevel, "policy has a cycle: a -> b -> a"⟩, by decide, rfl, by decide⟩

/-! ## The command `endpoint show` -/

/-- C14, the code at the failing input: one usage key with the endpoints `http` and
`https`. The two lists are the same map (every read agrees) in two iteration orders, and
the lines printed for them differ in the order of the two endpoint lines. -/
theorem endpointCmdShow_inner_order
    (ParseServiceUsageKey : String → String × String × String × String) :
    (∀ tp, GoMap.get tp [("http", "a"), ("https", "b")] =
        GoMap.get tp [("https", "b"), ("http", "a")]) ∧
      endpointCmdShow ParseServiceUsageKey [("k", [("http", "a"), ("https", "b")])] =
        [endpointHeader (ParseServiceUsageKey "k"), "\t http a", "\t https b", ""] ∧
      endpointCmdShow ParseServiceUsageKey [("k", [("https", "b"), ("http", "a")])] =
        [endpointHeader (ParseServiceUsageKey "k"), "\t https b", "\t http a", ""] ∧
      endpointCmdShow ParseServiceUsageKey [("k", [("http", "a"), ("https", "b")])] ≠
        endpointCmdShow ParseServiceUsageKey [("k", [("https", "b"), ("http", "a")])] := by
  have h1 : endpointCmdShow ParseServiceUsageKey [("k", [("http", "a"), ("https", "b")])] =
      [endpointHeader (ParseServiceUsageKey "k"), "\t http a", "\t https b", ""] := by
    simp [endpointCmdShow, GoMap.range, sort.Strings, sort.insert, GoMap.get]
  have h2 : endpointCmdShow ParseServiceUsageKey [("k", [("https", "b"), ("http", "a")])] =
      [endpointHeader (ParseServiceUsageKey "k"), "\t https b", "\t http a", ""] := by
    simp [endpointCmdShow, GoMap.range, sort.Strings, sort.insert, GoMap.get]
  refine ⟨?_, h1, h2, ?_⟩
  · intro tp
    simp only [GoMap.get]
    by_cases ha : "http" = tp
    · subst ha
      simp
    · by_cases hb : "https" = tp
      · subst hb
        simp
      · simp [ha, hb]
  · rw [h1, h2]
    simp

/-! ## The discovery tree is copied -/

/-- Reading a heap after a write at another address. -/
theorem util.Heap.read_assign_ne (heap : util.Heap) (a b : Nat) (key : String)
    (value : util.Value) (h : a ≠ b) : (heap.assign a key value).read b = heap.read b := by
  simp [util.Heap.read, util.Heap.assign, List.getD_eq_getElem?_getD, List.getElem?_set_ne h]

/-- Reading a heap at the address just written. -/
theorem util.Heap.read_assign_self (heap : util.Heap) (a : Nat) (key : String)
    (value : util.Value) (h : a < heap.length) :
    (heap.assign a key value).read a = GoMap.set key value (heap.read a) := by
  simp [util.Heap.read, util.Heap.assign, List.getD_eq_getElem?_getD, h]

/-- A write keeps the size of the heap. -/
theorem util.Heap.length_assign (heap : util.Heap) (a : Nat) (key : String)
    (value : util.Value) : (heap.assign a key value).length = heap.length := by
  simp [util.Heap.assign]

/-- C16: the call of `proxyDiscovery` leaves every map object that existed before it with
the entries it had, the tree handed in among them; the map it returns is a new object,
and its entries are those computed from the entries of the tree. -/
theorem proxyDiscovery_copy_on_read (env : Env) (node : resolutionNode) (heap : util.Heap)
    (discoveryTree : Nat) (cik : ComponentInstanceKey) :
    (∀ addr, addr < heap.length →
      (node.proxyDiscoveryOnHeap env heap discoveryTree cik).1.read addr = heap.read addr) ∧
    (node.proxyDiscoveryOnHeap env heap discoveryTree cik).2 = heap.length ∧
    (node.proxyDiscoveryOnHeap env heap discoveryTree cik).1.read
        (node.proxyDiscoveryOnHeap env heap discoveryTree cik).2 =
      resolutionNode.proxyDiscoveryMap env (heap.read discoveryTree) cik := by
  have hnew : (heap ++ [(heap.read discoveryTree).MakeCopy]).read heap.length =
      (heap.read discoveryTree).MakeCopy := by
    simp [util.Heap.read, List.getD_eq_getElem?_getD]
  have hold : ∀ addr, addr < heap.length →
      (heap ++ [(heap.read discoveryTree).MakeCopy]).read addr = heap.read addr := by
    intro addr h
    simp [util.Heap.read, List.getD_eq_getElem?_getD, List.getElem?_append_left h]
  have hlen : heap.length < (heap ++ [(heap.read discoveryTree).MakeCopy]).length := by simp
  refine ⟨?_, ?_, ?_⟩
  · intro addr h
    have hne : heap.length ≠ addr := by omega
    simp only [resolutionNode.proxyDiscoveryOnHeap, util.Heap.MakeCopy]
    split
    · simp only [util.Heap.read_assign_ne _ _ _ _ _ hne, hold addr h]
    · simp only [util.Heap.read_assign_ne _ _ _ _ _ hne, hold addr h]
  · simp only [resolutionNode.proxyDiscoveryOnHeap, util.Heap.MakeCopy]
    split <;> rfl
  · simp only [resolutionNode.proxyDiscoveryOnHeap, util.Heap.MakeCopy,
      resolutionNode.proxyDiscoveryMap]
    split
    · rw [util.Heap.read_assign_self _ _ _ _ (by simp [util.Heap.length_assign]),
        util.Heap.read_assign_self _ _ _ _ (by simp [util.Heap.length_assign]),
        util.Heap.read_assign_self _ _ _ _ hlen, hnew]
    · rw [util.Heap.read_assign_self _ _ _ _ (by simp [util.Heap.length_assign]),
        util.Heap.read_assign_self _ _ _ _ hlen, hnew]

/-- C16, on a sample heap with one tree: after the call for the sample node the tree still
holds its own `Instance` and no `Service`, while the returned map holds the new ones; a
second call for another node starts from the same tree. -/
theorem proxyDiscovery_copy_on_read_witness :
    (sampleNode.proxyDiscoveryOnHeap sampleEnv sampleHeap 0 sampleNode.componentKey).1.read 0 =
        [("url", .scalar "kafka:9092"), ("Instance", .scalar "stale")] ∧
      GoMap.get "Instance"
        ((sampleNode.proxyDiscoveryOnHeap sampleEnv sampleHeap 0 sampleNode.componentKey).1.read
          1) = some (.scalar "esc:kafka#broker") ∧
      (otherNode.proxyDiscoveryOnHeap sampleEnv
        (sampleNode.proxyDiscoveryOnHeap sampleEnv sampleHeap 0 sampleNode.componentKey).1 0
        otherNode.componentKey).1.read 0 =
        [("url", .scalar "kafka:9092"), ("Instance", .scalar "stale")] :=
  ⟨(proxyDiscovery_copy_on_read sampleEnv sampleNode sampleHeap 0 sampleNode.componentKey).1 0
      (by decide),
    by decide,
    ((proxyDiscovery_copy_on_read sampleEnv otherNode _ 0 otherNode.componentKey).1 0
      (by decide)).trans
      ((proxyDiscovery_copy_on_read sampleEnv sampleNode sampleHeap 0
        sampleNode.componentKey).1 0 (by decide))⟩

/-! ## The goroutines of the resources handler -/

section PoolTheory

variable {body : ComponentInstance → Bool × Completion plugin.Resources}
  {lib : plugin.Lib} {stack : String} {tasks : List (String × ComponentInstance)}

theorem Pool.resultOf_of_errorOf {i : Nat} {e : Err}
    (h : Pool.errorOf body stack tasks i = some e) : Pool.resultOf body tasks i = none := by
  unfold Pool.errorOf at h
  unfold Pool.resultOf
  split at h
  · rename_i v hv
    rw [hv]
  · cases h

theorem Pool.errorOf_of_resultOf {i : Nat} {r : plugin.Resources}
    (h : Pool.resultOf body tasks i = some r) : Pool.errorOf body stack tasks i = none := by
  unfold Pool.resultOf at h
  unfold Pool.errorOf
  split at h
  · rename_i v hv
    rw [hv]
  · cases h

theorem Pool.resultOf_or_errorOf {i : Nat} (h : i < tasks.length) :
    (Pool.resultOf body tasks i).isSome = true ∨
      (Pool.errorOf body stack tasks i).isSome = true := by
  unfold Pool.resultOf Pool.errorOf Pool.outcome
  rw [List.getElem?_eq_getElem h]
  simp only [Option.map_some']
  cases (body tasks[i].2).2 <;> simp

theorem Pool.inv_init : Pool.Inv body lib stack tasks (Pool.init tasks.length) where
  len := by simp [Pool.init]
  task := by
    intro i pc h
    simp only [Pool.init, List.getElem?_replicate] at h
    split at h
    · cases h
      constructor <;> simp [Pool.init]
    · cases h
  bound := by simp [Pool.init]
  merges_nodup := by simp [Pool.init]
  sends_nodup := by simp [Pool.init]
  dones_nodup := by simp [Pool.init]
  resources_eq := by simp [Pool.init]
  errors_eq := by simp [Pool.init]
  mutex := by simp [Pool.init]
  wg_eq := by simp [Pool.init]
  lookups_mem := by simp [Pool.init]
  calls_sub := by simp [Pool.init]
  lookups_nodup := by simp [Pool.init]

theorem TaskOk.frame {s s' : Pool} {j : Nat} {pc : TaskPc}
    (hm : j ∈ s'.merges ↔ j ∈ s.merges) (hsd : j ∈ s'.sends ↔ j ∈ s.sends)
    (hd : j ∈ s'.dones ↔ j ∈ s.dones) (h : TaskOk body stack tasks s j pc) :
    TaskOk body stack tasks s' j pc where
  merges_iff := hm.trans h.merges_iff
  sends_iff := hsd.trans h.sends_iff
  dones_iff := hd.trans h.dones_iff
  fetched := h.fetched
  holding := h.holding
  merged := h.merged
  failed := h.failed

theorem Pool.Inv.task_step {s s' : Pool} {i : Nat} {pc' : TaskPc}
    (hs : Pool.Inv body lib stack tasks s) (hpcs : s'.pcs = s.pcs.set i pc')
    (hm : ∀ j, j ≠ i → (j ∈ s'.merges ↔ j ∈ s.merges))
    (hsd : ∀ j, j ≠ i → (j ∈ s'.sends ↔ j ∈ s.sends))
    (hd : ∀ j, j ≠ i → (j ∈ s'.dones ↔ j ∈ s.dones))
    (hnew : TaskOk body stack tasks s' i pc') :
    ∀ j pc, s'.pcs[j]? = some pc → TaskOk body stack tasks s' j pc := by
  intro j pc hj
  rw [hpcs, List.getElem?_set] at hj
  by_cases hij : i = j
  · subst hij
    rw [if_pos rfl] at hj
    split at hj
    · cases hj
      exact hnew
    · cases hj
  · rw [if_neg hij] at hj
    have hji : j ≠ i := fun h => hij h.symm
    exact (hs.task j pc hj).frame (hm j hji) (hsd j hji) (hd j hji)

theorem Pool.Inv.mutex_step {s s' : Pool} {i : Nat} {pc pc' : TaskPc}
    (hs : Pool.Inv body lib stack tasks s) (hi : s.pcs[i]? = some pc)
    (hpcs : s'.pcs = s.pcs.set i pc') (hmx : s'.mutexHeld = true → s.mutexHeld = true)
    (hkeep : (∃ r, pc = .holding r) ∨ pc = .merged → (∃ r, pc' = .holding r) ∨ pc' = .merged) :
    s'.mutexHeld = true →
      ∃ j : Nat, (∃ r, s'.pcs[j]? = some (TaskPc.holding r)) ∨ s'.pcs[j]? = some TaskPc.merged := by
  intro h
  obtain ⟨j, hj⟩ := hs.mutex (hmx h)
  have hlt : i < s.pcs.length := (List.getElem?_eq_some.mp hi).1
  refine ⟨j, ?_⟩
  rw [hpcs, List.getElem?_set]
  by_cases hij : i = j
  · subst hij
    rw [if_pos rfl, if_pos hlt]
    rw [hi] at hj
    have : (∃ r, pc = .holding r) ∨ pc = .merged := by
      rcases hj with ⟨r, hr⟩ | hr
      · exact Or.inl ⟨r, by injection hr⟩
      · exact Or.inr (by injection hr)
    rcases hkeep this with ⟨r, hr⟩ | hr
    · exact Or.inl ⟨r, by rw [hr]⟩
    · exact Or.inr (by rw [hr])
  · rw [if_neg hij]
    exact hj

theorem Pool.Inv.lookups_step {s s' : Pool} {i : Nat} {pc pc' : TaskPc}
    (hs : Pool.Inv body lib stack tasks s) (hi : s.pcs[i]? = some pc)
    (hpcs : s'.pcs = s.pcs.set i pc') (hl : s'.lookups = s.lookups)
    (hne : pc' ≠ .spawned) :
    ∀ k ∈ s'.lookups, ∃ (j : Nat) (inst : ComponentInstance),
      tasks[j]? = some (k, inst) ∧ ∃ pc, s'.pcs[j]? = some pc ∧ pc ≠ TaskPc.spawned := by
  intro k hk
  rw [hl] at hk
  obtain ⟨j, inst, hj, pcj, hpcj, hnej⟩ := hs.lookups_mem k hk
  have hlt : i < s.pcs.length := (List.getElem?_eq_some.mp hi).1
  refine ⟨j, inst, hj, ?_⟩
  rw [hpcs, List.getElem?_set]
  by_cases hij : i = j
  · subst hij
    rw [if_pos rfl, if_pos hlt]
    exact ⟨pc', rfl, hne⟩
  · rw [if_neg hij]
    exact ⟨pcj, hpcj, hnej⟩

theorem Pool.Inv.bound_step {s s' : Pool} {i : Nat} {pc : TaskPc} {pc' : TaskPc}
    (hs : Pool.Inv body lib stack tasks s) (hi : s.pcs[i]? = some pc)
    (hpcs : s'.pcs = s.pcs.set i pc')
    (hm : ∀ j, j ≠ i → (j ∈ s'.merges ↔ j ∈ s.merges))
    (hsd : ∀ j, j ≠ i → (j ∈ s'.sends ↔ j ∈ s.sends))
    (hd : ∀ j, j ≠ i → (j ∈ s'.dones ↔ j ∈ s.dones)) :
    ∀ j, j ∈ s'.merges ∨ j ∈ s'.sends ∨ j ∈ s'.dones → j < s'.pcs.length := by
  intro j hj
  have hlt : i < s.pcs.length := (List.getElem?_eq_some.mp hi).1
  rw [hpcs, List.length_set]
  by_cases hji : j = i
  · rw [hji]; exact hlt
  · apply hs.bound j
    rcases hj with h | h | h
    · exact Or.inl ((hm j hji).mp h)
    · exact Or.inr (Or.inl ((hsd j hji).mp h))
    · exact Or.inr (Or.inr ((hd j hji).mp h))

theorem tasks_key_inj (hk : (tasks.map Prod.fst).Nodup) {i j : Nat} {k : String}
    {a b : ComponentInstance} (hi : tasks[i]? = some (k, a)) (hj : tasks[j]? = some (k, b)) :
    i = j := by
  have h1 : (tasks.map Prod.fst)[i]? = some k := by simp [List.getElem?_map, hi]
  have h2 : (tasks.map Prod.fst)[j]? = some k := by simp [List.getElem?_map, hj]
  obtain ⟨hi', e1⟩ := List.getElem?_eq_some.mp h1
  obtain ⟨hj', e2⟩ := List.getElem?_eq_some.mp h2
  exact (List.Nodup.getElem_inj_iff hk).mp (e1.trans e2.symm)

theorem mem_append_singleton_ne {j i : Nat} {l : List Nat} (h : j ≠ i) :
    j ∈ l ++ [i] ↔ j ∈ l := by
  simp [h]

theorem Pool.inv_spawned {s : Pool} {i : Nat} {key : String} {inst : ComponentInstance}
    {pc' : TaskPc} {called : Bool}
    (hk : (tasks.map Prod.fst).Nodup)
    (hs : Pool.Inv body lib stack tasks s) (hi : s.pcs[i]? = some .spawned)
    (ht : tasks[i]? = some (key, inst))
    (hpc : (∃ r, pc' = .fetched r ∧ (body inst).2 = .returned r) ∨
      (∃ v, pc' = .failed v ∧ (body inst).2 = .panicked v)) :
    Pool.Inv body lib stack tasks { s with
      pcs := s.pcs.set i pc'
      lookups := s.lookups ++ [key]
      resourcesCalls := if called then s.resourcesCalls ++ [key] else s.resourcesCalls } := by
  have hold := hs.task i _ hi
  have hlt : i < s.pcs.length := (List.getElem?_eq_some.mp hi).1
  have him : i ∉ s.merges := fun h => by simpa using (hold.merges_iff.mp h).1
  have his : i ∉ s.sends := fun h => by simpa using (hold.sends_iff.mp h).1
  have hid : i ∉ s.dones := fun h => by simpa using hold.dones_iff.mp h
  have hout : Pool.outcome body tasks i = some (body inst).2 := by
    simp [Pool.outcome, ht]
  have hne : pc' ≠ .spawned := by
    rcases hpc with ⟨r, h, _⟩ | ⟨v, h, _⟩ <;> simp [h]
  refine {
    len := by simp [hs.len]
    task := Pool.Inv.task_step hs rfl (fun _ _ => Iff.rfl) (fun _ _ => Iff.rfl)
      (fun _ _ => Iff.rfl) ?_
    bound := Pool.Inv.bound_step hs hi rfl (fun _ _ => Iff.rfl) (fun _ _ => Iff.rfl)
      (fun _ _ => Iff.rfl)
    merges_nodup := hs.merges_nodup
    sends_nodup := hs.sends_nodup
    dones_nodup := hs.dones_nodup
    resources_eq := hs.resources_eq
    errors_eq := hs.errors_eq
    mutex := Pool.Inv.mutex_step hs hi rfl id (by simp)
    wg_eq := hs.wg_eq
    lookups_mem := ?_
    calls_sub := ?_
    lookups_nodup := ?_ }
  · rcases hpc with ⟨r, h, hb⟩ | ⟨v, h, hb⟩
    · subst h
      constructor
      · simp [him]
      · simp [his]
      · simp [hid]
      · intro r' hr'
        injection hr' with hr'
        subst hr'
        simp [Pool.resultOf, hout, hb]
      · simp
      · simp
      · simp
    · subst h
      constructor
      · simp [him]
      · simp [his]
      · simp [hid]
      · simp
      · simp
      · simp
      · intro v' hv'
        injection hv' with hv'
        subst hv'
        simp [Pool.errorOf, hout, hb]
  · intro k hkm
    simp only [List.mem_append, List.mem_singleton] at hkm
    rcases hkm with hkm | hkm
    · obtain ⟨j, inst', hj, pcj, hpcj, hnej⟩ := hs.lookups_mem k hkm
      refine ⟨j, inst', hj, ?_⟩
      simp only [List.getElem?_set]
      by_cases hij : i = j
      · subst hij
        rw [hi] at hpcj
        injection hpcj with hpcj
        exact absurd hpcj.symm hnej
      · rw [if_neg hij]
        exact ⟨pcj, hpcj, hnej⟩
    · subst hkm
      refine ⟨i, inst, ht, pc', ?_, hne⟩
      simp [List.getElem?_set, hlt]
  · simp only
    split
    · exact List.Sublist.append hs.calls_sub (List.Sublist.refl _)
    · exact List.sublist_append_of_sublist_left hs.calls_sub
  · simp only
    rw [List.nodup_append]
    refine ⟨hs.lookups_nodup, by simp, ?_⟩
    intro k hk1 hk2
    simp only [List.mem_singleton] at hk2
    subst hk2
    obtain ⟨j, inst', hj, pcj, hpcj, hnej⟩ := hs.lookups_mem k hk1
    have := tasks_key_inj hk ht hj
    subst this
    rw [hi] at hpcj
    injection hpcj with hpcj
    exact hnej hpcj.symm

theorem Pool.inv_lock {s : Pool} {i : Nat} {r : plugin.Resources}
    (hs : Pool.Inv body lib stack tasks s) (hi : s.pcs[i]? = some (.fetched r)) :
    Pool.Inv body lib stack tasks { s with pcs := s.pcs.set i (.holding r), mutexHeld := true } := by
  have hold := hs.task i _ hi
  have hlt : i < s.pcs.length := (List.getElem?_eq_some.mp hi).1
  have him : i ∉ s.merges := fun h => by simpa using (hold.merges_iff.mp h).1
  have his : i ∉ s.sends := fun h => by simpa using (hold.sends_iff.mp h).1
  have hid : i ∉ s.dones := fun h => by simpa using hold.dones_iff.mp h
  refine {
    len := by simp [hs.len]
    task := Pool.Inv.task_step hs rfl (fun _ _ => Iff.rfl) (fun _ _ => Iff.rfl)
      (fun _ _ => Iff.rfl) ?_
    bound := Pool.Inv.bound_step hs hi rfl (fun _ _ => Iff.rfl) (fun _ _ => Iff.rfl)
      (fun _ _ => Iff.rfl)
    merges_nodup := hs.merges_nodup
    sends_nodup := hs.sends_nodup
    dones_nodup := hs.dones_nodup
    resources_eq := hs.resources_eq
    errors_eq := hs.errors_eq
    mutex := fun _ => ⟨i, Or.inl ⟨r, by simp [List.getElem?_set, hlt]⟩⟩
    wg_eq := hs.wg_eq
    lookups_mem := Pool.Inv.lookups_step hs hi rfl rfl (by simp)
    calls_sub := hs.calls_sub
    lookups_nodup := hs.lookups_nodup }
  constructor
  · simp [him]
  · simp [his]
  · simp [hid]
  · simp
  · intro r' hr'
    injection hr' with hr'
    subst hr'
    exact hold.fetched r rfl
  · simp
  · simp

theorem Pool.inv_merge {s : Pool} {i : Nat} {r : plugin.Resources}
    (hs : Pool.Inv body lib stack tasks s) (hi : s.pcs[i]? = some (.holding r)) :
    Pool.Inv body lib stack tasks { s with
      pcs := s.pcs.set i .merged
      resources := lib.Merge s.resources r
      merges := s.merges ++ [i] } := by
  have hold := hs.task i _ hi
  have hlt : i < s.pcs.length := (List.getElem?_eq_some.mp hi).1
  have hres : Pool.resultOf body tasks i = some r := hold.holding r rfl
  have him : i ∉ s.merges := fun h => by simpa using (hold.merges_iff.mp h).1
  have his : i ∉ s.sends := fun h => by simpa using (hold.sends_iff.mp h).1
  have hid : i ∉ s.dones := fun h => by simpa using hold.dones_iff.mp h
  refine {
    len := by simp [hs.len]
    task := Pool.Inv.task_step hs rfl (fun j hj => mem_append_singleton_ne hj)
      (fun _ _ => Iff.rfl) (fun _ _ => Iff.rfl) ?_
    bound := Pool.Inv.bound_step hs hi rfl (fun j hj => mem_append_singleton_ne hj)
      (fun _ _ => Iff.rfl) (fun _ _ => Iff.rfl)
    merges_nodup := by
      simp only
      rw [List.nodup_append]
      exact ⟨hs.merges_nodup, by simp, by
        intro k hk1 hk2
        simp only [List.mem_singleton] at hk2
        subst hk2
        exact him hk1⟩
    sends_nodup := hs.sends_nodup
    dones_nodup := hs.dones_nodup
    resources_eq := by
      simp only [List.filterMap_append, List.filterMap_cons, hres, List.filterMap_nil,
        List.foldl_append, List.foldl_cons, List.foldl_nil]
      rw [← hs.resources_eq]
    errors_eq := hs.errors_eq
    mutex := Pool.Inv.mutex_step hs hi rfl id (by simp)
    wg_eq := hs.wg_eq
    lookups_mem := Pool.Inv.lookups_step hs hi rfl rfl (by simp)
    calls_sub := hs.calls_sub
    lookups_nodup := hs.lookups_nodup }
  constructor
  · simp [hres]
  · simp [his]
  · simp [hid]
  · simp
  · simp
  · simp [hres]
  · simp

theorem Pool.inv_unlock {s : Pool} {i : Nat}
    (hs : Pool.Inv body lib stack tasks s) (hi : s.pcs[i]? = some .merged) :
    Pool.Inv body lib stack tasks { s with pcs := s.pcs.set i .finishing, mutexHeld := false } := by
  have hold := hs.task i _ hi
  have hlt : i < s.pcs.length := (List.getElem?_eq_some.mp hi).1
  have hres : (Pool.resultOf body tasks i).isSome = true := hold.merged rfl
  have him : i ∈ s.merges := hold.merges_iff.mpr ⟨Or.inl rfl, hres⟩
  have his : i ∉ s.sends := fun h => by simpa using (hold.sends_iff.mp h).1
  have hid : i ∉ s.dones := fun h => by simpa using hold.dones_iff.mp h
  have herr : Pool.errorOf body stack tasks i = none := by
    obtain ⟨r, hr⟩ := Option.isSome_iff_exists.mp hres
    exact Pool.errorOf_of_resultOf hr
  refine {
    len := by simp [hs.len]
    task := Pool.Inv.task_step hs rfl (fun _ _ => Iff.rfl) (fun _ _ => Iff.rfl)
      (fun _ _ => Iff.rfl) ?_
    bound := Pool.Inv.bound_step hs hi rfl (fun _ _ => Iff.rfl) (fun _ _ => Iff.rfl)
      (fun _ _ => Iff.rfl)
    merges_nodup := hs.merges_nodup
    sends_nodup := hs.sends_nodup
    dones_nodup := hs.dones_nodup
    resources_eq := hs.resources_eq
    errors_eq := hs.errors_eq
    mutex := by simp
    wg_eq := hs.wg_eq
    lookups_mem := Pool.Inv.lookups_step hs hi rfl rfl (by simp)
    calls_sub := hs.calls_sub
    lookups_nodup := hs.lookups_nodup }
  constructor
  · simp [him, hres]
  · simp [his, herr]
  · simp [hid]
  · simp
  · simp
  · simp
  · simp

theorem Pool.inv_send {s : Pool} {i : Nat} {v : PanicValue}
    (hs : Pool.Inv body lib stack tasks s) (hi : s.pcs[i]? = some (.failed v)) :
    Pool.Inv body lib stack tasks { s with
      pcs := s.pcs.set i .finishing
      errors := match s.errors with
        | none => some (panicError v stack)
        | some e => some e
      sends := s.sends ++ [i] } := by
  have hold := hs.task i _ hi
  have hlt : i < s.pcs.length := (List.getElem?_eq_some.mp hi).1
  have herr : Pool.errorOf body stack tasks i = some (panicError v stack) := hold.failed v rfl
  have hres : Pool.resultOf body tasks i = none := Pool.resultOf_of_errorOf herr
  have him : i ∉ s.merges := fun h => by simpa using (hold.merges_iff.mp h).1
  have his : i ∉ s.sends := fun h => by simpa using (hold.sends_iff.mp h).1
  have hid : i ∉ s.dones := fun h => by simpa using hold.dones_iff.mp h
  refine {
    len := by simp [hs.len]
    task := Pool.Inv.task_step hs rfl (fun _ _ => Iff.rfl)
      (fun j hj => mem_append_singleton_ne hj) (fun _ _ => Iff.rfl) ?_
    bound := Pool.Inv.bound_step hs hi rfl (fun _ _ => Iff.rfl)
      (fun j hj => mem_append_singleton_ne hj) (fun _ _ => Iff.rfl)
    merges_nodup := hs.merges_nodup
    sends_nodup := by
      simp only
      rw [List.nodup_append]
      exact ⟨hs.sends_nodup, by simp, by
        intro k hk1 hk2
        simp only [List.mem_singleton] at hk2
        subst hk2
        exact his hk1⟩
    dones_nodup := hs.dones_nodup
    resources_eq := hs.resources_eq
    errors_eq := by
      simp only [List.filterMap_append, List.filterMap_cons, herr, List.filterMap_nil,
        List.head?_append]
      rw [hs.errors_eq]
      cases (List.filterMap (Pool.errorOf body stack tasks) s.sends).head? <;> rfl
    mutex := Pool.Inv.mutex_step hs hi rfl id (by simp)
    wg_eq := hs.wg_eq
    lookups_mem := Pool.Inv.lookups_step hs hi rfl rfl (by simp)
    calls_sub := hs.calls_sub
    lookups_nodup := hs.lookups_nodup }
  constructor
  · simp [him, hres]
  · simp [herr]
  · simp [hid]
  · simp
  · simp
  · simp
  · simp

theorem Pool.inv_done {s : Pool} {i : Nat}
    (hs : Pool.Inv body lib stack tasks s) (hi : s.pcs[i]? = some .finishing) :
    Pool.Inv body lib stack tasks { s with
      pcs := s.pcs.set i .done, wg := s.wg - 1, dones := s.dones ++ [i] } := by
  have hold := hs.task i _ hi
  have hlt : i < s.pcs.length := (List.getElem?_eq_some.mp hi).1
  have hid : i ∉ s.dones := fun h => by simpa using hold.dones_iff.mp h
  refine {
    len := by simp [hs.len]
    task := Pool.Inv.task_step hs rfl (fun _ _ => Iff.rfl) (fun _ _ => Iff.rfl)
      (fun j hj => mem_append_singleton_ne hj) ?_
    bound := Pool.Inv.bound_step hs hi rfl (fun _ _ => Iff.rfl) (fun _ _ => Iff.rfl)
      (fun j hj => mem_append_singleton_ne hj)
    merges_nodup := hs.merges_nodup
    sends_nodup := hs.sends_nodup
    dones_nodup := by
      simp only
      rw [List.nodup_append]
      exact ⟨hs.dones_nodup, by simp, by
        intro k hk1 hk2
        simp only [List.mem_singleton] at hk2
        subst hk2
        exact hid hk1⟩
    resources_eq := hs.resources_eq
    errors_eq := hs.errors_eq
    mutex := Pool.Inv.mutex_step hs hi rfl id (by simp)
    wg_eq := by
      simp only [List.length_append, List.length_singleton, Nat.cast_add, Nat.cast_one]
      rw [hs.wg_eq]
      ring
    lookups_mem := Pool.Inv.lookups_step hs hi rfl rfl (by simp)
    calls_sub := hs.calls_sub
    lookups_nodup := hs.lookups_nodup }
  constructor
  · have := hold.merges_iff
    simpa using this
  · have := hold.sends_iff
    simpa using this
  · simp
  · simp
  · simp
  · simp
  · simp

theorem Pool.inv_step {s s' : Pool} {i : Nat} (hk : (tasks.map Prod.fst).Nodup)
    (hs : Pool.Inv body lib stack tasks s)
    (h : Pool.step body lib stack tasks i s = some s') : Pool.Inv body lib stack tasks s' := by
  unfold Pool.step at h
  split at h
  · cases h
  · rename_i hi
    split at h
    · cases h
    · rename_i key inst ht
      split at h
      · rename_i called r hb
        injection h with h
        subst h
        exact Pool.inv_spawned hk hs hi ht (Or.inl ⟨r, rfl, by rw [hb]⟩)
      · rename_i called v hb
        injection h with h
        subst h
        exact Pool.inv_spawned hk hs hi ht (Or.inr ⟨v, rfl, by rw [hb]⟩)
  · rename_i r hi
    split at h
    · cases h
    · injection h with h
      subst h
      exact Pool.inv_lock hs hi
  · rename_i r hi
    injection h with h
    subst h
    exact Pool.inv_merge hs hi
  · rename_i hi
    injection h with h
    subst h
    exact Pool.inv_unlock hs hi
  · rename_i v hi
    injection h with h
    subst h
    exact Pool.inv_send hs hi
  · rename_i hi
    injection h with h
    subst h
    exact Pool.inv_done hs hi
  · cases h

theorem Pool.run_cons (s : Pool) (i : Nat) (rest : List Nat) :
    Pool.run body lib stack tasks s (i :: rest) =
      Pool.run body lib stack tasks ((Pool.step body lib stack tasks i s).getD s) rest := rfl

theorem Pool.run_append (s : Pool) (a b : List Nat) :
    Pool.run body lib stack tasks s (a ++ b) =
      Pool.run body lib stack tasks (Pool.run body lib stack tasks s a) b := by
  simp [Pool.run, List.foldl_append]

theorem Pool.inv_run (hk : (tasks.map Prod.fst).Nodup) {s : Pool}
    (hs : Pool.Inv body lib stack tasks s) (schedule : List Nat) :
    Pool.Inv body lib stack tasks (Pool.run body lib stack tasks s schedule) := by
  induction schedule generalizing s with
  | nil => exact hs
  | cons i rest ih =>
    rw [Pool.run_cons]
    apply ih
    cases h : Pool.step body lib stack tasks i s with
    | none => exact hs
    | some s' => exact Pool.inv_step hk hs h

theorem sum_rank_set {l : List TaskPc} {i : Nat} {pc pc' : TaskPc} (hi : l[i]? = some pc)
    (h : pc'.rank < pc.rank) :
    ((l.set i pc').map TaskPc.rank).sum < (l.map TaskPc.rank).sum := by
  induction l generalizing i with
  | nil => simp at hi
  | cons a t ih =>
    cases i with
    | zero =>
      simp only [List.getElem?_cons_zero, Option.some.injEq] at hi
      subst hi
      simp only [List.set_cons_zero, List.map_cons, List.sum_cons]
      omega
    | succ n =>
      simp only [List.getElem?_cons_succ] at hi
      have := ih hi
      simp only [List.set_cons_succ, List.map_cons, List.sum_cons]
      omega

theorem Pool.step_potential {s s' : Pool} {i : Nat}
    (h : Pool.step body lib stack tasks i s = some s') : s'.potential < s.potential := by
  unfold Pool.step at h
  split at h
  · cases h
  · rename_i hi
    split at h
    · cases h
    · split at h <;>
      · injection h with h
        subst h
        exact sum_rank_set hi (by simp [TaskPc.rank])
  · rename_i r hi
    split at h
    · cases h
    · injection h with h
      subst h
      exact sum_rank_set hi (by simp [TaskPc.rank])
  · rename_i r hi
    injection h with h
    subst h
    exact sum_rank_set hi (by simp [TaskPc.rank])
  · rename_i hi
    injection h with h
    subst h
    exact sum_rank_set hi (by simp [TaskPc.rank])
  · rename_i v hi
    injection h with h
    subst h
    exact sum_rank_set hi (by simp [TaskPc.rank])
  · rename_i hi
    injection h with h
    subst h
    exact sum_rank_set hi (by simp [TaskPc.rank])
  · cases h

theorem Pool.progress {s : Pool} (hs : Pool.Inv body lib stack tasks s) (hnd : ¬ s.allDone) :
    ∃ i s', Pool.step body lib stack tasks i s = some s' := by
  suffices h : ∃ i, (Pool.step body lib stack tasks i s).isSome = true by
    obtain ⟨i, hi⟩ := h
    exact ⟨i, Option.isSome_iff_exists.mp hi⟩
  by_cases hm : s.mutexHeld = true
  · obtain ⟨i, ⟨r, hi⟩ | hi⟩ := hs.mutex hm
    · exact ⟨i, by simp [Pool.step, hi]⟩
    · exact ⟨i, by simp [Pool.step, hi]⟩
  · simp only [Pool.allDone, not_forall] at hnd
    obtain ⟨pc, hpc, hne⟩ := hnd
    obtain ⟨i, hi⟩ := List.mem_iff_getElem?.mp hpc
    have hlt : i < tasks.length := by
      rw [← hs.len]
      exact (List.getElem?_eq_some.mp hi).1
    refine ⟨i, ?_⟩
    cases pc with
    | spawned =>
      obtain ⟨⟨key, inst⟩, ht⟩ : ∃ t, tasks[i]? = some t :=
        ⟨tasks[i], List.getElem?_eq_getElem hlt⟩
      rcases hb : body inst with ⟨called, r | v⟩
      · simp [Pool.step, hi, ht, hb]
      · simp [Pool.step, hi, ht, hb]
    | fetched r => simp [Pool.step, hi, hm]
    | holding r => simp [Pool.step, hi]
    | merged => simp [Pool.step, hi]
    | failed v => simp [Pool.step, hi]
    | finishing => simp [Pool.step, hi]
    | done => exact absurd rfl hne

theorem Pool.completes (hk : (tasks.map Prod.fst).Nodup) (n : Nat) :
    ∀ s : Pool, Pool.Inv body lib stack tasks s → s.potential ≤ n →
      ∃ more : List Nat, more.length ≤ n ∧
        (Pool.run body lib stack tasks s more).allDone := by
  induction n with
  | zero =>
    intro s hs hp
    refine ⟨[], le_refl _, ?_⟩
    by_contra hnd
    obtain ⟨i, s', h⟩ := Pool.progress hs hnd
    have := Pool.step_potential h
    omega
  | succ n ih =>
    intro s hs hp
    by_cases hd : s.allDone
    · exact ⟨[], by simp, hd⟩
    · obtain ⟨i, s', h⟩ := Pool.progress hs hd
      have hlt := Pool.step_potential h
      obtain ⟨more, hlen, hdone⟩ := ih s' (Pool.inv_step hk hs h) (by omega)
      refine ⟨i :: more, by simp; omega, ?_⟩
      rw [Pool.run_cons, h]
      exact hdone

theorem GoMap.range_mem {κ υ : Type} [DecidableEq κ] {m : GoMap κ υ} {k : κ} {v : υ}
    (h : (k, v) ∈ GoMap.range m) : GoMap.get k m = some v := by
  induction m with
  | nil => simp [GoMap.range] at h
  | cons p t ih =>
    obtain ⟨k0, v0⟩ := p
    simp only [GoMap.range, List.mem_cons, List.mem_filter, decide_eq_true_eq] at h
    rcases h with h | ⟨h, hne⟩
    · injection h with h1 h2
      subst h1 h2
      simp [GoMap.get]
    · simp [GoMap.get, Ne.symm hne, ih h]

theorem GoMap.range_keys_nodup {κ υ : Type} [DecidableEq κ] (m : GoMap κ υ) :
    ((GoMap.range m).map Prod.fst).Nodup := by
  induction m with
  | nil => simp [GoMap.range]
  | cons p t ih =>
    obtain ⟨k0, v0⟩ := p
    simp only [GoMap.range, List.map_cons, List.nodup_cons]
    constructor
    · simp
    · exact List.Nodup.sublist ((List.filter_sublist _).map _) ih

theorem spawnTasks_sublist (depKey : String) (l : List (String × ComponentInstance)) :
    (spawnTasks depKey l).Sublist l := by
  induction l with
  | nil => simp [spawnTasks]
  | cons p t ih =>
    obtain ⟨k, inst⟩ := p
    simp only [spawnTasks]
    split
    · split
      · exact ih.cons _
      · exact ih.cons₂ _
    · exact ih.cons _

theorem mem_spawnTasks {depKey : String} {l : List (String × ComponentInstance)}
    {k : String} {inst : ComponentInstance} (h : (k, inst) ∈ spawnTasks depKey l) :
    (inst.DependencyKeys.bind (GoMap.get depKey)).isSome = true ∧ inst.IsCode = true := by
  induction l with
  | nil => simp [spawnTasks] at h
  | cons p t ih =>
    obtain ⟨k0, inst0⟩ := p
    simp only [spawnTasks] at h
    split at h
    · rename_i d hd
      split at h
      · exact ih h
      · rename_i hc
        simp only [List.mem_cons, Prod.mk.injEq] at h
        rcases h with ⟨_, h⟩ | h
        · subst h
          simp only [Bool.not_eq_true, Bool.not_eq_eq_eq_not, Bool.not_true,
            Bool.not_eq_false] at hc
          exact ⟨by rw [hd]; rfl, by simpa using hc⟩
        · exact ih h
    · exact ih h

theorem nodup_full {l : List Nat} {n : Nat} (hn : l.Nodup) (hb : ∀ i ∈ l, i < n)
    (hl : n ≤ l.length) : ∀ i, i < n → i ∈ l := by
  have hsub : l.toFinset ⊆ Finset.range n := by
    intro i hi
    simp only [List.mem_toFinset] at hi
    simpa using hb i hi
  have hcard : (Finset.range n).card ≤ l.toFinset.card := by
    rw [List.toFinset_card_of_nodup hn, Finset.card_range]
    exact hl
  have heq := Finset.eq_of_subset_of_card_le hsub hcard
  intro i hi
  have : i ∈ l.toFinset := by rw [heq]; simpa using hi
  simpa using this

theorem nodup_length_le {l : List Nat} {n : Nat} (hn : l.Nodup) (hb : ∀ i ∈ l, i < n) :
    l.length ≤ n := by
  have hsub : l.toFinset ⊆ Finset.range n := by
    intro i hi
    simp only [List.mem_toFinset] at hi
    simpa using hb i hi
  have := Finset.card_le_card hsub
  rwa [List.toFinset_card_of_nodup hn, Finset.card_range] at this

theorem full_length_ge {l : List Nat} {n : Nat} (hfull : ∀ i, i < n → i ∈ l) :
    n ≤ l.length := by
  have hsub : Finset.range n ⊆ l.toFinset := by
    intro i hi
    simp only [List.mem_toFinset]
    exact hfull i (by simpa using hi)
  have := Finset.card_le_card hsub
  rw [Finset.card_range] at this
  exact this.trans (List.toFinset_card_le l)

theorem Pool.Inv.dones_bound {s : Pool} (hs : Pool.Inv body lib stack tasks s) :
    ∀ i ∈ s.dones, i < tasks.length := by
  intro i hi
  rw [← hs.len]
  exact hs.bound i (Or.inr (Or.inr hi))

theorem Pool.Inv.allDone_of_wg {s : Pool} (hs : Pool.Inv body lib stack tasks s) (h : s.wg = 0) :
    s.allDone := by
  have hlen : tasks.length ≤ s.dones.length := by
    have := hs.wg_eq
    omega
  have hfull := nodup_full hs.dones_nodup hs.dones_bound hlen
  intro pc hpc
  obtain ⟨i, hi⟩ := List.mem_iff_getElem?.mp hpc
  have hlt : i < tasks.length := by
    rw [← hs.len]
    exact (List.getElem?_eq_some.mp hi).1
  exact (hs.task i pc hi).dones_iff.mp (hfull i hlt)

theorem Pool.Inv.done_of_allDone {s : Pool} (hs : Pool.Inv body lib stack tasks s) (h : s.allDone)
    {i : Nat} (hi : i < tasks.length) : s.pcs[i]? = some .done := by
  have hlt : i < s.pcs.length := by rw [hs.len]; exact hi
  rw [List.getElem?_eq_getElem hlt]
  rw [h _ (List.getElem_mem hlt)]

theorem Pool.Inv.wg_of_allDone {s : Pool} (hs : Pool.Inv body lib stack tasks s) (h : s.allDone) :
    s.wg = 0 := by
  have hfull : ∀ i, i < tasks.length → i ∈ s.dones := by
    intro i hi
    have hd := hs.done_of_allDone h hi
    exact (hs.task i _ hd).dones_iff.mpr rfl
  have h1 := full_length_ge hfull
  have h2 := nodup_length_le hs.dones_nodup hs.dones_bound
  have := hs.wg_eq
  omega

/-- What holds of a pool whose goroutines are all over. -/
theorem Pool.Inv.final {s : Pool} (hs : Pool.Inv body lib stack tasks s) (h : s.allDone) :
    (∀ i, i < tasks.length → s.dones.count i = 1) ∧
    (∀ i, i < tasks.length → (Pool.resultOf body tasks i).isSome = true →
      s.merges.count i = 1) ∧
    (∀ i ∈ s.merges, (Pool.resultOf body tasks i).isSome = true) ∧
    (∀ i, i < tasks.length → (Pool.errorOf body stack tasks i).isSome = true →
      s.sends.count i = 1) ∧
    (∀ i ∈ s.sends, (Pool.errorOf body stack tasks i).isSome = true) := by
  refine ⟨?_, ?_, ?_, ?_, ?_⟩
  · intro i hi
    have hd := hs.done_of_allDone h hi
    exact List.count_eq_one_of_mem hs.dones_nodup ((hs.task i _ hd).dones_iff.mpr rfl)
  · intro i hi hr
    have hd := hs.done_of_allDone h hi
    exact List.count_eq_one_of_mem hs.merges_nodup
      ((hs.task i _ hd).merges_iff.mpr ⟨Or.inr (Or.inr rfl), hr⟩)
  · intro i hi
    have hlt : i < tasks.length := by
      rw [← hs.len]; exact hs.bound i (Or.inl hi)
    have hd := hs.done_of_allDone h hlt
    exact ((hs.task i _ hd).merges_iff.mp hi).2
  · intro i hi hr
    have hd := hs.done_of_allDone h hi
    exact List.count_eq_one_of_mem hs.sends_nodup
      ((hs.task i _ hd).sends_iff.mpr ⟨Or.inr rfl, hr⟩)
  · intro i hi
    have hlt : i < tasks.length := by
      rw [← hs.len]; exact hs.bound i (Or.inr (Or.inl hi))
    have hd := hs.done_of_allDone h hlt
    exact ((hs.task i _ hd).sends_iff.mp hi).2

theorem resourceTasks_keys_nodup (env : Env) (dependency : lang.Dependency)
    (actualState : PolicyResolution) :
    ((resourceTasks env dependency actualState).map Prod.fst).Nodup :=
  List.Nodup.sublist ((spawnTasks_sublist _ _).map _) (GoMap.range_keys_nodup _)

theorem head?_filterMap_of_all {α β : Type} (f : α → Option β) (l : List α)
    (h : ∀ a ∈ l, (f a).isSome = true) : (l.filterMap f).head? = l.head?.bind f := by
  cases l with
  | nil => rfl
  | cons a t =>
    obtain ⟨b, hb⟩ := Option.isSome_iff_exists.mp (h a (List.mem_cons_self _ _))
    simp [List.filterMap_cons, hb]

theorem Pool.Inv.isolated {s : Pool} (hs : Pool.Inv body lib stack tasks s) (h : s.wg = 0) :
    Pool.Isolated body lib stack tasks s := by
  have hd := hs.allDone_of_wg h
  obtain ⟨h1, h2, h3, h4, h5⟩ := hs.final hd
  exact {
    wg_zero := h
    done_once := h1
    merged_once := h2
    merges_only := h3
    resources_eq := hs.resources_eq
    sent_once := h4
    sends_only := h5
    errors_eq := by rw [hs.errors_eq, head?_filterMap_of_all _ _ h5] }

theorem handle_running (env : Env) (lib : plugin.Lib) (api : coreAPI)
    (policy : lang.Policy) (dependency : lang.Dependency) (actualState : PolicyResolution)
    (ns name stack : String) (schedule : List Nat)
    (hp : api.GetPolicy = (some policy, none))
    (ho : policy.GetObject lang.DependencyObjectKind name ns =
      (some (.dependency dependency), none))
    (ha : api.GetActualState = (some actualState, none)) :
    (api.handleDependencyResourcesGet env lib ns name stack schedule).pool =
        Pool.run (resourcesTask env lib policy api.pluginRegistryFactory) lib stack
          (resourceTasks env dependency actualState)
          (Pool.init (resourceTasks env dependency actualState).length) schedule ∧
      ((api.handleDependencyResourcesGet env lib ns name stack schedule).completion ≠ none ↔
        (api.handleDependencyResourcesGet env lib ns name stack schedule).pool.wg = 0) ∧
      (∀ e, (api.handleDependencyResourcesGet env lib ns name stack schedule).pool.wg = 0 →
        (api.handleDependencyResourcesGet env lib ns name stack schedule).pool.errors = some e →
        (api.handleDependencyResourcesGet env lib ns name stack schedule).completion =
            some (.panicked ⟨e⟩) ∧
          (api.handleDependencyResourcesGet env lib ns name stack schedule).written = []) ∧
      ((api.handleDependencyResourcesGet env lib ns name stack schedule).pool.wg = 0 →
        (api.handleDependencyResourcesGet env lib ns name stack schedule).pool.errors = none →
        (api.handleDependencyResourcesGet env lib ns name stack schedule).completion =
            some (.returned ()) ∧
          (api.handleDependencyResourcesGet env lib ns name stack schedule).written =
            [.WriteOne
              (api.handleDependencyResourcesGet env lib ns name stack schedule).pool.resources]) := by
  simp only [coreAPI.handleDependencyResourcesGet, hp, ho, ha, resourceTasks]
  split
  · rename_i hwg
    split
    · rename_i e he
      simp [hwg, he]
    · rename_i he
      simp [hwg, he]
  · rename_i hwg
    simp [hwg]

theorem handle_cases (env : Env) (lib : plugin.Lib) (api : coreAPI)
    (ns name stack : String) (schedule : List Nat) :
    (api.handleDependencyResourcesGet env lib ns name stack schedule).pool = Pool.init 0 ∨
    ∃ policy dependency actualState, api.GetPolicy = (some policy, none) ∧
      policy.GetObject lang.DependencyObjectKind name ns =
        (some (.dependency dependency), none) ∧
      api.GetActualState = (some actualState, none) := by
  rcases hp : api.GetPolicy with ⟨_ | policy, _ | e⟩
  · exact Or.inl (by simp [coreAPI.handleDependencyResourcesGet, hp])
  · exact Or.inl (by simp [coreAPI.handleDependencyResourcesGet, hp])
  · rcases ho : policy.GetObject lang.DependencyObjectKind name ns with ⟨_ | obj, _ | e⟩
    · exact Or.inl (by simp [coreAPI.handleDependencyResourcesGet, hp, ho])
    · exact Or.inl (by simp [coreAPI.handleDependencyResourcesGet, hp, ho])
    · cases obj with
      | dependency dependency =>
        rcases ha : api.GetActualState with ⟨_ | actualState, _ | e⟩
        · exact Or.inl (by simp [coreAPI.handleDependencyResourcesGet, hp, ho, ha])
        · exact Or.inl (by simp [coreAPI.handleDependencyResourcesGet, hp, ho, ha])
        · exact Or.inr ⟨policy, dependency, actualState, rfl, ho, rfl⟩
        · exact Or.inl (by simp [coreAPI.handleDependencyResourcesGet, hp, ho, ha])
      | service _ => exact Or.inl (by simp [coreAPI.handleDependencyResourcesGet, hp, ho])
      | contract _ => exact Or.inl (by simp [coreAPI.handleDependencyResourcesGet, hp, ho])
      | cluster _ => exact Or.inl (by simp [coreAPI.handleDependencyResourcesGet, hp, ho])
    · exact Or.inl (by simp [coreAPI.handleDependencyResourcesGet, hp, ho])
  · exact Or.inl (by simp [coreAPI.handleDependencyResourcesGet, hp])

/-- C11: in every call of the handler and at every moment of it, the instances a plugin was
looked up for are instances of the actual state with `IsCode` true and the key of the
requested dependency in `DependencyKeys`, each looked up once; `Resources` was called only
for instances that were looked up, and at most once for each. -/
theorem resources_only_for_code_instances (env : Env) (lib : plugin.Lib) (api : coreAPI)
    (ns name stack : String) (schedule : List Nat) :
    (api.handleDependencyResourcesGet env lib ns name stack schedule).pool.lookups.Nodup ∧
    (api.handleDependencyResourcesGet env lib ns name stack schedule).pool.resourcesCalls.Nodup ∧
    (api.handleDependencyResourcesGet env lib ns name stack schedule).pool.resourcesCalls.Sublist
      (api.handleDependencyResourcesGet env lib ns name stack schedule).pool.lookups ∧
    ∀ key ∈ (api.handleDependencyResourcesGet env lib ns name stack schedule).pool.lookups,
      ∃ policy dependency actualState inst,
        api.GetPolicy = (some policy, none) ∧
        policy.GetObject lang.DependencyObjectKind name ns =
          (some (.dependency dependency), none) ∧
        api.GetActualState = (some actualState, none) ∧
        GoMap.get key actualState.ComponentInstanceMap = some inst ∧
        inst.IsCode = true ∧
        (inst.DependencyKeys.bind (GoMap.get (env.KeyForStorable dependency))).isSome = true := by
  rcases handle_cases env lib api ns name stack schedule with h | ⟨policy, dependency, st, hp, ho, ha⟩
  · rw [h]
    simp [Pool.init]
  · have hrun := (handle_running env lib api policy dependency st ns name stack schedule
      hp ho ha).1
    have hk := resourceTasks_keys_nodup env dependency st
    have hs : Pool.Inv (resourcesTask env lib policy api.pluginRegistryFactory) lib stack
        (resourceTasks env dependency st)
        (Pool.run (resourcesTask env lib policy api.pluginRegistryFactory) lib stack
          (resourceTasks env dependency st)
          (Pool.init (resourceTasks env dependency st).length) schedule) :=
      Pool.inv_run hk Pool.inv_init schedule
    rw [hrun]
    refine ⟨hs.lookups_nodup, List.Nodup.sublist hs.calls_sub hs.lookups_nodup,
      hs.calls_sub, ?_⟩
    intro key hkey
    obtain ⟨i, inst, ht, _⟩ := hs.lookups_mem key hkey
    have hmem : (key, inst) ∈ resourceTasks env dependency st :=
      List.mem_iff_getElem?.mpr ⟨i, ht⟩
    have hsub := (spawnTasks_sublist (env.KeyForStorable dependency)
      (GoMap.range st.ComponentInstanceMap)).subset hmem
    obtain ⟨h1, h2⟩ := mem_spawnTasks hmem
    exact ⟨policy, dependency, st, inst, hp, ho, ha, GoMap.range_mem hsub, h2, h1⟩

/-- C12: whatever turns the goroutines took, they can all run to their end, which lets the
handler past `wg.Wait()`; and once it is past, every goroutine called `Done` once, those
whose body returned merged their resources, those whose body panicked tried once to send,
the channel holds the error of the first of them, and the handler panics with that error
alone, or writes the merged resources when there was none. -/
theorem panic_isolation (env : Env) (lib : plugin.Lib) (api : coreAPI)
    (policy : lang.Policy) (dependency : lang.Dependency) (actualState : PolicyResolution)
    (ns name stack : String) (schedule : List Nat)
    (hp : api.GetPolicy = (some policy, none))
    (ho : policy.GetObject lang.DependencyObjectKind name ns =
      (some (.dependency dependency), none))
    (ha : api.GetActualState = (some actualState, none)) :
    (∃ more, (api.handleDependencyResourcesGet env lib ns name stack
      (schedule ++ more)).completion ≠ none) ∧
    ((api.handleDependencyResourcesGet env lib ns name stack schedule).completion ≠ none →
      Pool.Isolated (resourcesTask env lib policy api.pluginRegistryFactory) lib stack
        (resourceTasks env dependency actualState)
        (api.handleDependencyResourcesGet env lib ns name stack schedule).pool ∧
      ((api.handleDependencyResourcesGet env lib ns name stack schedule).pool.sends = [] →
        (api.handleDependencyResourcesGet env lib ns name stack schedule).completion =
            some (.returned ()) ∧
          (api.handleDependencyResourcesGet env lib ns name stack schedule).written =
            [.WriteOne
              (api.handleDependencyResourcesGet env lib ns name stack schedule).pool.resources]) ∧
      (∀ first rest,
        (api.handleDependencyResourcesGet env lib ns name stack schedule).pool.sends =
          first :: rest →
        ∃ e, Pool.errorOf (resourcesTask env lib policy api.pluginRegistryFactory) stack
            (resourceTasks env dependency actualState) first = some e ∧
          (api.handleDependencyResourcesGet env lib ns name stack schedule).completion =
            some (.panicked ⟨e⟩) ∧
          (api.handleDependencyResourcesGet env lib ns name stack schedule).written = [])) := by
  have hk := resourceTasks_keys_nodup env dependency actualState
  have hinv : ∀ sched, Pool.Inv (resourcesTask env lib policy api.pluginRegistryFactory) lib stack
      (resourceTasks env dependency actualState)
      (api.handleDependencyResourcesGet env lib ns name stack sched).pool := by
    intro sched
    rw [(handle_running env lib api policy dependency actualState ns name stack sched
      hp ho ha).1]
    exact Pool.inv_run hk Pool.inv_init sched
  constructor
  · have hs0 : Pool.Inv (resourcesTask env lib policy api.pluginRegistryFactory) lib stack
        (resourceTasks env dependency actualState)
        (Pool.run (resourcesTask env lib policy api.pluginRegistryFactory) lib stack
          (resourceTasks env dependency actualState)
          (Pool.init (resourceTasks env dependency actualState).length) schedule) :=
      Pool.inv_run hk Pool.inv_init schedule
    obtain ⟨more, _, hdone⟩ := Pool.completes hk _ _ hs0 (le_refl _)
    refine ⟨more, ?_⟩
    obtain ⟨hrun, hiff, _⟩ := handle_running env lib api policy dependency actualState ns name
      stack (schedule ++ more) hp ho ha
    rw [hiff]
    apply (hinv (schedule ++ more)).wg_of_allDone
    rw [hrun, Pool.run_append]
    exact hdone
  · intro hc
    obtain ⟨hrun, hiff, herr, hok⟩ := handle_running env lib api policy dependency actualState
      ns name stack schedule hp ho ha
    have hwg := hiff.mp hc
    have hiso := (hinv schedule).isolated hwg
    refine ⟨hiso, ?_, ?_⟩
    · intro hsends
      apply hok hwg
      rw [hiso.errors_eq, hsends]
      rfl
    · intro first rest hsends
      obtain ⟨e, he⟩ := Option.isSome_iff_exists.mp
        (hiso.sends_only first (by rw [hsends]; exact List.mem_cons_self _ _))
      refine ⟨e, he, ?_⟩
      apply herr e hwg
      rw [hiso.errors_eq, hsends]
      simpa using he

/-- C12, on the sample API: `db` and `cache` panic, `web` still merges its resources, and
the handler panics with the error of `db`, which was sent first. -/
theorem panic_isolation_witness :
    (sampleAPI.handleDependencyResourcesGet sampleEnv sampleLib "main" "dep1" "stack"
        sampleSchedule).completion =
      some (.panicked ⟨"panic: Error while getting deployment resources for component " ++
        "instance cluster#db#app: timeout\nstack"⟩) ∧
    (sampleAPI.handleDependencyResourcesGet sampleEnv sampleLib "main" "dep1" "stack"
        sampleSchedule).pool.resources = [("pods", [["web#app"]])] ∧
    (sampleAPI.handleDependencyResourcesGet sampleEnv sampleLib "main" "dep1" "stack"
        sampleSchedule).pool.sends = [1, 2] ∧
    Pool.Isolated (resourcesTask sampleEnv sampleLib samplePolicy sampleAPI.pluginRegistryFactory)
      sampleLib "stack" (resourceTasks sampleEnv sampleNode.dependency sampleActualState)
      (sampleAPI.handleDependencyResourcesGet sampleEnv sampleLib "main" "dep1" "stack"
        sampleSchedule).pool :=
  ⟨by decide, by decide, by decide,
    ((panic_isolation sampleEnv sampleLib sampleAPI samplePolicy sampleNode.dependency
      sampleActualState "main" "dep1" "stack" sampleSchedule rfl rfl rfl).2 (by decide)).1⟩

/-- C19, the code at the failing input: when the policy returns no object and no error,
the handler writes the `NotFound` response and then panics at the type assertion on the
nil object; it does not load the actual state and starts no goroutine. -/
theorem handler_not_found_panics (env : Env) (lib : plugin.Lib) (ns name stack : String)
    (schedule : List Nat) :
    notFoundAPI.handleDependencyResourcesGet env lib ns name stack schedule =
      ⟨[.WriteOneWithStatus StatusNotFound], 0, Pool.init 0,
        some (.panicked (interfaceConversion none "*lang.Dependency"))⟩ := rfl

/-- C11, on the sample API: of five instances, the plugin is looked up for the three code
instances of the dependency, and `Resources` is called for the two that have a plugin. -/
theorem resources_only_for_code_instances_witness :
    (sampleAPI.handleDependencyResourcesGet sampleEnv sampleLib "main" "dep1" "stack"
        sampleSchedule).pool.lookups = ["db", "cache", "web"] ∧
    (sampleAPI.handleDependencyResourcesGet sampleEnv sampleLib "main" "dep1" "stack"
        sampleSchedule).pool.resourcesCalls = ["db", "web"] ∧
    (sampleAPI.handleDependencyResourcesGet sampleEnv sampleLib "main" "dep1" "stack"
        sampleSchedule).pool.resourcesCalls.Nodup :=
  ⟨by decide, by decide,
    (resources_only_for_code_instances sampleEnv sampleLib sampleAPI "main" "dep1" "stack"
      sampleSchedule).2.1⟩

end PoolTheory

/-! ## Tracing a dependency -/

section TraceTheory

theorem GraphBuilder.Same.refl (b : GraphBuilder) : b.Same b := ⟨rfl, rfl, rfl⟩

theorem GraphBuilder.Same.trans {a b c : GraphBuilder} (h1 : a.Same b) (h2 : b.Same c) :
    a.Same c :=
  ⟨h2.1.trans h1.1, h2.2.1.trans h1.2.1, h2.2.2.trans h1.2.2⟩

theorem GraphBuilder.Extends.self (P : graphNode → Prop) (b : GraphBuilder) :
    GraphBuilder.Extends P b b :=
  ⟨GraphBuilder.Same.refl b, [], by simp, by simp⟩

theorem GraphBuilder.Extends.chain {P : graphNode → Prop} {a b c : GraphBuilder}
    (h1 : GraphBuilder.Extends P a b) (h2 : GraphBuilder.Extends P b c) :
    GraphBuilder.Extends P a c := by
  obtain ⟨s1, l1, e1, p1⟩ := h1
  obtain ⟨s2, l2, e2, p2⟩ := h2
  refine ⟨s1.trans s2, l1 ++ l2, by rw [e2, e1, List.append_assoc], ?_⟩
  intro p hp
  rcases List.mem_append.mp hp with h | h
  · exact p1 p h
  · exact p2 p h

theorem GraphBuilder.extends_addNode {P : graphNode → Prop} (b : GraphBuilder)
    (node : graphNode) (level : Int) (h : P node) :
    GraphBuilder.Extends P b (b.addNode node level) :=
  ⟨⟨rfl, rfl, rfl⟩, [(node, level)], rfl, by simpa using h⟩

theorem GraphBuilder.extends_addEdge (P : graphNode → Prop) (b : GraphBuilder)
    (edge : graphEdge) : GraphBuilder.Extends P b (b.addEdge edge) :=
  ⟨⟨rfl, rfl, rfl⟩, [], by simp [GraphBuilder.addEdge], by simp⟩

theorem traceEdges_extends {P : graphNode → Prop}
    (round : String → GraphBuilder → GraphBuilder × Run) (keys : List String)
    (b : GraphBuilder)
    (h : ∀ k ∈ keys, ∀ b0, b.Same b0 → GraphBuilder.Extends P b0 (round k b0).1) :
    GraphBuilder.Extends P b (traceEdges round keys b).1 := by
  induction keys generalizing b with
  | nil => exact GraphBuilder.Extends.self P b
  | cons k rest ih =>
    have hk := h k (List.mem_cons_self _ _) b (GraphBuilder.Same.refl b)
    simp only [traceEdges]
    rcases hr : round k b with ⟨b1, r⟩
    rw [hr] at hk
    cases r with
    | finished =>
      simp only
      refine hk.chain (ih b1 ?_)
      intro k' hk' b0 hb0
      exact h k' (List.mem_cons_of_mem _ hk') b0 (hk.1.trans hb0)
    | panicked v => exact hk
    | outOfFuel => exact hk

theorem traceEdge_extends (env : Env)
    (recurse : String → Option graphNode → Int → GraphBuilder → GraphBuilder × Run)
    (dependency : lang.Dependency) (last : Option graphNode) (level : Int)
    (cfg : DependencyResolutionCfg) (existsFn : ComponentInstance → Bool)
    (keyDst : String) (b : GraphBuilder) (dres : resolve.DependencyResolution)
    (hshown : ∀ inst, GoMap.get keyDst b.resolution.ComponentInstanceMap = some inst →
      (inst.DependencyKeys.bind (GoMap.get (env.KeyForStorable dependency))).isSome = true →
      existsFn inst = true →
      Shown b.resolution dres (env.KeyForStorable dependency) existsFn keyDst inst)
    (hrec : ∀ inst, Shown b.resolution dres (env.KeyForStorable dependency) existsFn keyDst inst →
      ∀ l lv b0, b.Same b0 →
        GraphBuilder.Extends (ShownNode b.resolution dres (env.KeyForStorable dependency) existsFn)
          b0 (recurse keyDst l lv b0).1) :
    GraphBuilder.Extends (ShownNode b.resolution dres (env.KeyForStorable dependency) existsFn)
      b (traceEdge env recurse dependency last level cfg existsFn keyDst b).1 := by
  have hother : ∀ n : graphNode, (∀ i s, n ≠ .serviceInstanceNode i s) →
      ShownNode b.resolution dres (env.KeyForStorable dependency) existsFn n := by
    intro n hn i s h
    exact absurd h (hn i s)
  unfold traceEdge
  split
  · exact GraphBuilder.Extends.self _ b
  · rename_i instanceCurrent hget
    simp only
    split
    · exact GraphBuilder.Extends.self _ b
    · rename_i d hd
      have hdep : (instanceCurrent.DependencyKeys.bind
          (GoMap.get (env.KeyForStorable dependency))).isSome = true := by rw [hd]; rfl
      split
      · exact GraphBuilder.Extends.self _ b
      · rename_i hex
        have hex' : existsFn instanceCurrent = true := by simpa using hex
        have hsh := hshown instanceCurrent hget hdep hex'
        have hnode : ∀ service, ShownNode b.resolution dres (env.KeyForStorable dependency)
            existsFn (.serviceInstanceNode instanceCurrent service) := by
          intro service i s h
          injection h with h1 h2
          subst h1
          exact ⟨keyDst, hsh⟩
        split
        · split
          · exact GraphBuilder.extends_addNode b _ _ (hother _ (by intro i s h; cases h))
          · rename_i contract hc
            split
            · exact GraphBuilder.extends_addNode b _ _ (hother _ (by intro i s h; cases h))
            · rename_i service hsv
              split
              · have e1 := GraphBuilder.extends_addNode
                  (P := ShownNode b.resolution dres (env.KeyForStorable dependency) existsFn)
                  b (.contractNode contract) level (hother _ (by intro i s h; cases h))
                have e2 := GraphBuilder.extends_addEdge
                  (ShownNode b.resolution dres (env.KeyForStorable dependency) existsFn)
                  (b.addNode (.contractNode contract) level) ⟨last, .contractNode contract, ""⟩
                have e3 := GraphBuilder.extends_addNode
                  (P := ShownNode b.resolution dres (env.KeyForStorable dependency) existsFn)
                  ((b.addNode (.contractNode contract) level).addEdge
                    ⟨last, .contractNode contract, ""⟩)
                  (.serviceInstanceNode instanceCurrent service) (level + 1) (hnode service)
                have e4 := GraphBuilder.extends_addEdge
                  (ShownNode b.resolution dres (env.KeyForStorable dependency) existsFn)
                  (((b.addNode (.contractNode contract) level).addEdge
                    ⟨last, .contractNode contract, ""⟩).addNode
                    (.serviceInstanceNode instanceCurrent service) (level + 1))
                  ⟨some (.contractNode contract), .serviceInstanceNode instanceCurrent service,
                    instanceCurrent.Metadata.Key.ContextNameWithKeys⟩
                have e := ((e1.chain e2).chain e3).chain e4
                exact e.chain (hrec instanceCurrent hsh _ _ _ e.1)
              · have e1 := GraphBuilder.extends_addNode
                  (P := ShownNode b.resolution dres (env.KeyForStorable dependency) existsFn)
                  b (.serviceInstanceNode instanceCurrent service) level (hnode service)
                have e2 := GraphBuilder.extends_addEdge
                  (ShownNode b.resolution dres (env.KeyForStorable dependency) existsFn)
                  (b.addNode (.serviceInstanceNode instanceCurrent service) level)
                  ⟨last, .serviceInstanceNode instanceCurrent service, ""⟩
                have e := e1.chain e2
                exact e.chain (hrec instanceCurrent hsh _ _ _ e.1)
            · exact GraphBuilder.Extends.self _ b
          · exact GraphBuilder.Extends.self _ b
        · exact hrec instanceCurrent hsh _ _ _ (GraphBuilder.Same.refl b)


theorem GoMap.range_singleton_keys (k : String) :
    (GoMap.range (GoMap.set k true ([] : GoMap String Bool))).map (fun p => p.1) = [k] := by
  simp [GoMap.set, GoMap.range]

theorem trace_extends (env : Env) (dependency : lang.Dependency)
    (cfg : DependencyResolutionCfg) (existsFn : ComponentInstance → Bool)
    (res : PolicyResolution) (dres : resolve.DependencyResolution) :
    ∀ (fuel : Nat) (keySrc : String) (last : Option graphNode) (level : Int)
      (b : GraphBuilder),
      b.resolution = res → b.GetDependencyResolution dependency = dres →
      (keySrc.length ≤ 0 ∨ ∃ src, GoMap.get keySrc res.ComponentInstanceMap = some src ∧
        Shown res dres (env.KeyForStorable dependency) existsFn keySrc src) →
      GraphBuilder.Extends (ShownNode res dres (env.KeyForStorable dependency) existsFn) b
        (traceDependencyResolution env fuel keySrc dependency last level cfg existsFn b).1 := by
  intro fuel
  induction fuel with
  | zero =>
    intro keySrc last level b _ _ _
    exact GraphBuilder.Extends.self _ b
  | succ fuel ih =>
    intro keySrc last level b hres hdres hsrc
    have hrecurse : ∀ (b1 : GraphBuilder), b.Same b1 → ∀ keyDst inst,
        Shown b1.resolution dres (env.KeyForStorable dependency) existsFn keyDst inst →
        ∀ l lv b0, b1.Same b0 →
          GraphBuilder.Extends
            (ShownNode b1.resolution dres (env.KeyForStorable dependency) existsFn) b0
            (traceDependencyResolution env fuel keyDst dependency l lv cfg existsFn b0).1 := by
      intro b1 hb1 keyDst inst hsh l lv b0 hb0
      have hr1 : b1.resolution = res := hb1.2.1.trans hres
      rw [hr1] at hsh ⊢
      have hget : GoMap.get keyDst res.ComponentInstanceMap = some inst := by
        cases hsh with
        | root _ _ h _ _ => exact h
        | edge _ _ _ _ _ _ h _ _ => exact h
      refine ih keyDst l lv b0 (hb0.2.1.trans hr1) ?_ (Or.inr ⟨inst, hget, hsh⟩)
      rw [hb0.2.2, hb1.2.2]
      exact hdres
    unfold traceDependencyResolution
    split
    · -- the first call
      have e1 := GraphBuilder.extends_addNode
        (P := ShownNode res dres (env.KeyForStorable dependency) existsFn) b
        (.dependencyNode dependency) 0 (by intro i s h; cases h)
      refine e1.chain ?_
      apply traceEdges_extends
      intro k hk b0 hb0
      have hb1 : b.Same b0 := e1.1.trans hb0
      have hr0 : b0.resolution = res := hb1.2.1.trans hres
      have := traceEdge_extends env
        (fun k l lv b => traceDependencyResolution env fuel k dependency l lv cfg existsFn b)
        dependency (some (.dependencyNode dependency)) (level + 1) cfg existsFn k b0 dres
      rw [hr0] at this
      apply this
      · intro inst hget hdep hex
        have hd : (b.addNode (.dependencyNode dependency) 0).GetDependencyResolution dependency
            = dres := hdres
        rw [hd] at hk
        by_cases hrs : dres.Resolved = true
        · rw [if_pos hrs, GoMap.range_singleton_keys] at hk
          simp only [List.mem_singleton] at hk
          subst hk
          exact Shown.root inst hrs hget hdep hex
        · rw [if_neg hrs] at hk
          simp [GoMap.range] at hk
      · intro inst hsh l lv b2 hb2
        have := hrecurse b0 hb1 k inst (by rw [hr0]; exact hsh) l lv b2 hb2
        rw [hr0] at this
        exact this
    · rename_i hlen
      rcases hsrc with h | ⟨src, hget, hsh⟩
      · exact absurd h hlen
      · rw [hres, hget]
        simp only
        apply traceEdges_extends
        intro k hk b0 hb0
        have hr0 : b0.resolution = res := hb0.2.1.trans hres
        have := traceEdge_extends env
          (fun k l lv b => traceDependencyResolution env fuel k dependency l lv cfg existsFn b)
          dependency last level cfg existsFn k b0 dres
        rw [hr0] at this
        apply this
        · intro inst hgetk hdep hex
          exact Shown.edge keySrc k src inst hsh hk hgetk hdep hex
        · intro inst hshk l lv b2 hb2
          have := hrecurse b0 hb0 k inst (by rw [hr0]; exact hshk) l lv b2 hb2
          rw [hr0] at this
          exact this

theorem Shown.spec {res : PolicyResolution} {dres : resolve.DependencyResolution}
    {depKey : String} {existsFn : ComponentInstance → Bool} {key : String}
    {inst : ComponentInstance} (h : Shown res dres depKey existsFn key inst) :
    dres.Resolved = true ∧
      Relation.ReflTransGen (EdgeOut res) dres.ComponentInstanceKey key ∧
      GoMap.get key res.ComponentInstanceMap = some inst ∧
      (inst.DependencyKeys.bind (GoMap.get depKey)).isSome = true ∧
      existsFn inst = true := by
  induction h with
  | root inst hr hget hdep hex => exact ⟨hr, Relation.ReflTransGen.refl, hget, hdep, hex⟩
  | edge keySrc keyDst src inst _ hk hget hdep hex ih =>
    exact ⟨ih.1, ih.2.1.tail ⟨src, ih.2.2.1, hk⟩, hget, hdep, hex⟩

theorem GraphBuilder.Extends.mono {P Q : graphNode → Prop} {b b' : GraphBuilder}
    (h : GraphBuilder.Extends P b b') (hPQ : ∀ n, P n → Q n) : GraphBuilder.Extends Q b b' := by
  obtain ⟨hs, added, hadd, hP⟩ := h
  exact ⟨hs, added, hadd, fun p hp => hPQ _ (hP p hp)⟩

theorem traceDependencies_shown (env : Env) (fuel : Nat) (cfg : DependencyResolutionCfg)
    (existsFn : ComponentInstance → Bool) (b : GraphBuilder) :
    ∀ (objs : List lang.Base) (b0 : GraphBuilder), b.Same b0 →
      GraphBuilder.Extends
        (fun node => ∀ inst service, node = .serviceInstanceNode inst service →
          ∃ dependency, lang.Base.dependency dependency ∈ objs ∧
            ∃ key, Shown b.resolution (b.GetDependencyResolution dependency)
              (env.KeyForStorable dependency) existsFn key inst)
        b0 (traceDependencies env fuel cfg existsFn objs b0).1 := by
  intro objs
  induction objs with
  | nil =>
    intro b0 _
    exact GraphBuilder.Extends.self _ b0
  | cons obj rest ih =>
    intro b0 hb0
    cases obj with
    | dependency dependency =>
      simp only [traceDependencies]
      have h1 := trace_extends env dependency cfg existsFn b.resolution
        (b.GetDependencyResolution dependency) fuel "" none 0 b0 hb0.2.1
        (by rw [hb0.2.2]) (Or.inl (by decide))
      have h1' := h1.mono (Q := fun node => ∀ inst service,
          node = .serviceInstanceNode inst service →
          ∃ d, lang.Base.dependency d ∈ lang.Base.dependency dependency :: rest ∧
            ∃ key, Shown b.resolution (b.GetDependencyResolution d)
              (env.KeyForStorable d) existsFn key inst)
        (fun n hn inst service hns =>
          ⟨dependency, List.mem_cons_self _ _, hn inst service hns⟩)
      rcases hr : traceDependencyResolution env fuel "" dependency none 0 cfg existsFn b0
        with ⟨b1, r⟩
      rw [hr] at h1'
      cases r with
      | finished =>
        simp only
        refine h1'.chain ((ih b1 (hb0.trans h1'.1)).mono ?_)
        intro n hn inst service hns
        obtain ⟨d, hd, hk⟩ := hn inst service hns
        exact ⟨d, List.mem_cons_of_mem _ hd, hk⟩
      | panicked v => exact h1'
      | outOfFuel => exact h1'
    | service _ => exact GraphBuilder.Extends.self _ b0
    | contract _ => exact GraphBuilder.Extends.self _ b0
    | cluster _ => exact GraphBuilder.Extends.self _ b0

theorem dependencyResolution_shown (env : Env) (fuel : Nat) (b : GraphBuilder)
    (cfg : DependencyResolutionCfg) (existsFn : ComponentInstance → Bool) :
    ∃ added : List (graphNode × Int),
      (b.DependencyResolutionWithFunc env fuel cfg existsFn).1.nodes = b.graph.nodes ++ added ∧
      ∀ inst service lv, (graphNode.serviceInstanceNode inst service, lv) ∈ added →
        ∃ dependency,
          lang.Base.dependency dependency ∈ b.policy.GetObjectsByKind lang.DependencyObjectKind ∧
          ∃ key, Shown b.resolution (b.GetDependencyResolution dependency)
            (env.KeyForStorable dependency) existsFn key inst := by
  obtain ⟨_, added, hadd, hP⟩ := traceDependencies_shown env fuel cfg existsFn b
    (b.policy.GetObjectsByKind lang.DependencyObjectKind) b (GraphBuilder.Same.refl b)
  refine ⟨added, ?_, fun inst service lv h => hP _ h inst service rfl⟩
  simp only [GraphBuilder.DependencyResolutionWithFunc]
  exact hadd

/-- C17: every service-instance node added to the graph while a dependency is traced,
however the trace ends, is for an instance that is shown: its key is followed from the
resolved root key through `EdgesOut` of instances that are themselves shown, it holds the
key of the dependency in `DependencyKeys` and it passes `existsFn`; so an instance that
fails a test hides what is reached only through it. The same holds of the nodes added by
`DependencyResolutionWithFunc`, for one of the dependencies of the policy. A dependency
that is not resolved adds its dependency node and nothing else. -/
theorem trace_shows_only_allocated (env : Env) (b : GraphBuilder) (fuel : Nat)
    (dependency : lang.Dependency) (last : Option graphNode) (level : Int)
    (cfg : DependencyResolutionCfg) (existsFn : ComponentInstance → Bool) :
    (∃ added : List (graphNode × Int),
      (traceDependencyResolution env fuel "" dependency last level cfg existsFn b).1.graph.nodes
        = b.graph.nodes ++ added ∧
      ∀ inst service lv, (graphNode.serviceInstanceNode inst service, lv) ∈ added →
        ∃ key, Shown b.resolution (b.GetDependencyResolution dependency)
          (env.KeyForStorable dependency) existsFn key inst) ∧
    (∃ added : List (graphNode × Int),
      (b.DependencyResolutionWithFunc env fuel cfg existsFn).1.nodes = b.graph.nodes ++ added ∧
      ∀ inst service lv, (graphNode.serviceInstanceNode inst service, lv) ∈ added →
        ∃ traced,
          lang.Base.dependency traced ∈ b.policy.GetObjectsByKind lang.DependencyObjectKind ∧
          ∃ key, Shown b.resolution (b.GetDependencyResolution traced)
            (env.KeyForStorable traced) existsFn key inst) ∧
    (∀ key inst, Shown b.resolution (b.GetDependencyResolution dependency)
        (env.KeyForStorable dependency) existsFn key inst →
      (b.GetDependencyResolution dependency).Resolved = true ∧
      Relation.ReflTransGen (EdgeOut b.resolution)
        (b.GetDependencyResolution dependency).ComponentInstanceKey key ∧
      GoMap.get key b.resolution.ComponentInstanceMap = some inst ∧
      (inst.DependencyKeys.bind (GoMap.get (env.KeyForStorable dependency))).isSome = true ∧
      existsFn inst = true) ∧
    ((b.GetDependencyResolution dependency).Resolved = false →
      traceDependencyResolution env (fuel + 1) "" dependency last level cfg existsFn b =
        (b.addNode (.dependencyNode dependency) 0, .finished)) := by
  refine ⟨?_, dependencyResolution_shown env fuel b cfg existsFn, fun key inst h => h.spec, ?_⟩
  · obtain ⟨_, added, hadd, hP⟩ := trace_extends env dependency cfg existsFn b.resolution
      (b.GetDependencyResolution dependency) fuel "" last level b rfl rfl (Or.inl (by decide))
    exact ⟨added, hadd, fun inst service lv h => hP _ h inst service rfl⟩
  · intro hr
    have hd : (b.addNode (.dependencyNode dependency) 0).GetDependencyResolution dependency
        = b.GetDependencyResolution dependency := rfl
    simp [traceDependencyResolution, hd, hr, GoMap.range, traceEdges]


theorem traceEdges_same (round : String → GraphBuilder → GraphBuilder × Run)
    (h : ∀ k b0, GraphBuilder.Same b0 (round k b0).1) (keys : List String) (b : GraphBuilder) :
    b.Same (traceEdges round keys b).1 := by
  induction keys generalizing b with
  | nil => exact GraphBuilder.Same.refl b
  | cons k rest ih =>
    have hk := h k b
    simp only [traceEdges]
    rcases hr : round k b with ⟨b1, r⟩
    rw [hr] at hk
    cases r with
    | finished => exact hk.trans (ih b1)
    | panicked v => exact hk
    | outOfFuel => exact hk

theorem traceEdge_same (env : Env)
    (recurse : String → Option graphNode → Int → GraphBuilder → GraphBuilder × Run)
    (dependency : lang.Dependency) (last : Option graphNode) (level : Int)
    (cfg : DependencyResolutionCfg) (existsFn : ComponentInstance → Bool)
    (hrec : ∀ k l lv b0, GraphBuilder.Same b0 (recurse k l lv b0).1)
    (keyDst : String) (b : GraphBuilder) :
    b.Same (traceEdge env recurse dependency last level cfg existsFn keyDst b).1 := by
  have hn : ∀ (b0 : GraphBuilder) n lv, b0.Same (b0.addNode n lv) := fun _ _ _ => ⟨rfl, rfl, rfl⟩
  have he : ∀ (b0 : GraphBuilder) e, b0.Same (b0.addEdge e) := fun _ _ => ⟨rfl, rfl, rfl⟩
  unfold traceEdge
  split
  · exact GraphBuilder.Same.refl b
  · simp only
    split
    · exact GraphBuilder.Same.refl b
    · split
      · exact GraphBuilder.Same.refl b
      · split
        · split
          · exact hn _ _ _
          · split
            · exact hn _ _ _
            · split
              · exact ((((hn _ _ _).trans (he _ _)).trans (hn _ _ _)).trans (he _ _)).trans
                  (hrec _ _ _ _)
              · exact ((hn _ _ _).trans (he _ _)).trans (hrec _ _ _ _)
            · exact GraphBuilder.Same.refl b
          · exact GraphBuilder.Same.refl b
        · exact hrec _ _ _ _

theorem trace_same (env : Env) (dependency : lang.Dependency) (cfg : DependencyResolutionCfg)
    (existsFn : ComponentInstance → Bool) :
    ∀ (fuel : Nat) (keySrc : String) (last : Option graphNode) (level : Int)
      (b : GraphBuilder),
      b.Same (traceDependencyResolution env fuel keySrc dependency last level cfg existsFn b).1 := by
  intro fuel
  induction fuel with
  | zero => intro keySrc last level b; exact GraphBuilder.Same.refl b
  | succ fuel ih =>
    intro keySrc last level b
    unfold traceDependencyResolution
    split
    · have h0 : b.Same (b.addNode (.dependencyNode dependency) 0) := ⟨rfl, rfl, rfl⟩
      refine h0.trans ?_
      apply traceEdges_same
      intro k b0
      exact traceEdge_same env _ dependency _ _ cfg existsFn (fun k l lv b0 => ih k l lv b0) k b0
    · split
      · exact GraphBuilder.Same.refl b
      · apply traceEdges_same
        intro k b0
        exact traceEdge_same env _ dependency _ _ cfg existsFn (fun k l lv b0 => ih k l lv b0) k b0

theorem traceEdges_ends (round : String → GraphBuilder → GraphBuilder × Run)
    (hsame : ∀ k b0, GraphBuilder.Same b0 (round k b0).1) (keys : List String)
    (b : GraphBuilder) (h : ∀ k ∈ keys, ∀ b0, b.Same b0 → (round k b0).2.Ends) :
    (traceEdges round keys b).2.Ends := by
  induction keys generalizing b with
  | nil => exact ⟨by simp [traceEdges], by simp [traceEdges]⟩
  | cons k rest ih =>
    have hk := h k (List.mem_cons_self _ _) b (GraphBuilder.Same.refl b)
    have hs := hsame k b
    simp only [traceEdges]
    rcases hr : round k b with ⟨b1, r⟩
    rw [hr] at hk hs
    cases r with
    | finished =>
      exact ih b1 (fun k' hk' b0 hb0 => h k' (List.mem_cons_of_mem _ hk') b0 (hs.trans hb0))
    | panicked v => exact hk
    | outOfFuel => exact hk

theorem traceEdge_ends (env : Env)
    (recurse : String → Option graphNode → Int → GraphBuilder → GraphBuilder × Run)
    (dependency : lang.Dependency) (last : Option graphNode) (level : Int)
    (cfg : DependencyResolutionCfg) (existsFn : ComponentInstance → Bool)
    (keyDst : String) (b : GraphBuilder)
    (hget : (GoMap.get keyDst b.resolution.ComponentInstanceMap).isSome = true)
    (hrec : ∀ l lv b0, b.Same b0 → (recurse keyDst l lv b0).2.Ends) :
    (traceEdge env recurse dependency last level cfg existsFn keyDst b).2.Ends := by
  have hfin : Run.Ends .finished := ⟨by simp, by simp⟩
  have hconv : ∀ o w, Run.Ends (.panicked (interfaceConversion o w)) := by
    intro o w
    refine ⟨by simp, ?_⟩
    intro h
    injection h with h
    simp only [interfaceConversion, nilDereference, PanicValue.mk.injEq] at h
    have := congrArg String.data h
    simp at this
  have hn : ∀ (b0 : GraphBuilder) n lv, b0.Same (b0.addNode n lv) := fun _ _ _ => ⟨rfl, rfl, rfl⟩
  have he : ∀ (b0 : GraphBuilder) e, b0.Same (b0.addEdge e) := fun _ _ => ⟨rfl, rfl, rfl⟩
  unfold traceEdge
  split
  · rename_i hnone
    rw [hnone] at hget
    cases hget
  · simp only
    split
    · exact hfin
    · split
      · exact hfin
      · split
        · split
          · exact hfin
          · split
            · exact hfin
            · split
              · exact hrec _ _ _
                  ((((hn _ _ _).trans (he _ _)).trans (hn _ _ _)).trans (he _ _))
              · exact hrec _ _ _ ((hn _ _ _).trans (he _ _))
            · exact hconv _ _
          · exact hconv _ _
        · exact hrec _ _ _ (GraphBuilder.Same.refl b)

theorem GoMap.mem_keys_of_get {κ υ : Type} [DecidableEq κ] {m : GoMap κ υ} {k : κ}
    (h : (GoMap.get k m).isSome = true) : k ∈ m.map Prod.fst := by
  induction m with
  | nil => simp [GoMap.get] at h
  | cons p t ih =>
    obtain ⟨k0, v0⟩ := p
    simp only [GoMap.get] at h
    by_cases hk : k0 = k
    · simp [hk]
    · rw [if_neg hk] at h
      simp [ih h]

theorem trace_ends_from (env : Env) (dependency : lang.Dependency)
    (cfg : DependencyResolutionCfg) (existsFn : ComponentInstance → Bool)
    (res : PolicyResolution)
    (hedges : ∀ keySrc keyDst, EdgeOut res keySrc keyDst →
      (GoMap.get keyDst res.ComponentInstanceMap).isSome = true)
    (hacyclic : ∀ key, ¬ Relation.TransGen (EdgeOut res) key key)
    (hkeys : GoMap.get "" res.ComponentInstanceMap = none) :
    ∀ (fuel : Nat) (keySrc : String) (path : List String) (last : Option graphNode)
      (level : Int) (b : GraphBuilder),
      b.resolution = res → keySrc ∈ path → path.Nodup →
      (∀ x ∈ path, Relation.ReflTransGen (EdgeOut res) x keySrc) →
      (∀ x ∈ path, (GoMap.get x res.ComponentInstanceMap).isSome = true) →
      res.ComponentInstanceMap.length + 1 ≤ fuel + path.length →
      (traceDependencyResolution env fuel keySrc dependency last level cfg existsFn b).2.Ends := by
  intro fuel
  induction fuel with
  | zero =>
    intro keySrc path last level b _ _ hnd _ hdom hfuel
    have hsub : path ⊆ res.ComponentInstanceMap.map Prod.fst :=
      fun x hx => GoMap.mem_keys_of_get (hdom x hx)
    have := (hnd.subperm hsub).length_le
    simp only [List.length_map] at this
    omega
  | succ fuel ih =>
    intro keySrc path last level b hres hmem hnd hreach hdom hfuel
    have hsome := hdom keySrc hmem
    have hne : ¬ keySrc.length ≤ 0 := by
      intro h
      have : keySrc = "" := by
        obtain ⟨data⟩ := keySrc
        have hl : data.length = 0 := by
          have h' := h
          simp only [String.length] at h'
          omega
        rw [List.length_eq_zero] at hl
        subst hl
        rfl
      rw [this, hkeys] at hsome
      cases hsome
    unfold traceDependencyResolution
    rw [if_neg hne]
    obtain ⟨src, hsrc⟩ := Option.isSome_iff_exists.mp hsome
    rw [hres, hsrc]
    simp only
    apply traceEdges_ends
    · intro k b0
      exact traceEdge_same env _ dependency _ _ cfg existsFn
        (fun k l lv b0 => trace_same env dependency cfg existsFn fuel k l lv b0) k b0
    · intro k hk b0 hb0
      have hr0 : b0.resolution = res := hb0.2.1.trans hres
      have hedge : EdgeOut res keySrc k := ⟨src, hsrc, hk⟩
      apply traceEdge_ends
      · rw [hr0]
        exact hedges keySrc k hedge
      · intro l lv b1 hb1
        have hnot : k ∉ path := by
          intro hin
          exact hacyclic k (Relation.TransGen.tail' (hreach k hin) hedge)
        apply ih k (k :: path) l lv b1 (hb1.2.1.trans hr0) (List.mem_cons_self _ _)
          (List.nodup_cons.mpr ⟨hnot, hnd⟩)
        · intro x hx
          rcases List.mem_cons.mp hx with h | h
          · rw [h]
          · exact (hreach x h).tail hedge
        · intro x hx
          rcases List.mem_cons.mp hx with h | h
          · rw [h]
            exact hedges keySrc k hedge
          · exact hdom x h
        · simp only [List.length_cons]
          omega

/-- C18, amended: when the resolved root key and every key in `EdgesOut` is present in the
map of instances, `EdgesOut` has no cycle and no instance has the empty key, the trace of
a dependency ends within as many nested calls as the map has entries, plus one, and never
dereferences a missing instance. -/
theorem trace_terminates (env : Env) (b : GraphBuilder) (dependency : lang.Dependency)
    (last : Option graphNode) (level : Int) (cfg : DependencyResolutionCfg)
    (existsFn : ComponentInstance → Bool)
    (hroot : (b.GetDependencyResolution dependency).Resolved = true →
      (GoMap.get (b.GetDependencyResolution dependency).ComponentInstanceKey
        b.resolution.ComponentInstanceMap).isSome = true)
    (hedges : ∀ keySrc keyDst, EdgeOut b.resolution keySrc keyDst →
      (GoMap.get keyDst b.resolution.ComponentInstanceMap).isSome = true)
    (hacyclic : ∀ key, ¬ Relation.TransGen (EdgeOut b.resolution) key key)
    (hkeys : GoMap.get "" b.resolution.ComponentInstanceMap = none)
    (fuel : Nat) (hfuel : b.resolution.ComponentInstanceMap.length + 1 ≤ fuel) :
    (traceDependencyResolution env fuel "" dependency last level cfg existsFn b).2 ≠
        .outOfFuel ∧
      (traceDependencyResolution env fuel "" dependency last level cfg existsFn b).2 ≠
        .panicked nilDereference := by
  obtain ⟨fuel, rfl⟩ : ∃ f, fuel = f + 1 := ⟨fuel - 1, by omega⟩
  show Run.Ends _
  unfold traceDependencyResolution
  rw [if_pos (by decide)]
  simp only
  apply traceEdges_ends
  · intro k b0
    exact traceEdge_same env _ dependency _ _ cfg existsFn
      (fun k l lv b0 => trace_same env dependency cfg existsFn fuel k l lv b0) k b0
  · intro k hk b0 hb0
    have hr0 : b0.resolution = b.resolution := hb0.2.1
    have hd : (b.addNode (.dependencyNode dependency) 0).GetDependencyResolution dependency
        = b.GetDependencyResolution dependency := rfl
    rw [hd] at hk
    by_cases hrs : (b.GetDependencyResolution dependency).Resolved = true
    · rw [if_pos hrs, GoMap.range_singleton_keys] at hk
      simp only [List.mem_singleton] at hk
      subst hk
      apply traceEdge_ends
      · rw [hr0]
        exact hroot hrs
      · intro l lv b1 hb1
        apply trace_ends_from env dependency cfg existsFn b.resolution hedges hacyclic hkeys
          fuel _ [(b.GetDependencyResolution dependency).ComponentInstanceKey] l lv b1
          (hb1.2.1.trans hr0) (List.mem_singleton_self _) (List.nodup_singleton _)
        · intro x hx
          rw [List.mem_singleton.mp hx]
        · intro x hx
          rw [List.mem_singleton.mp hx]
          exact hroot hrs
        · simp only [List.length_singleton]
          omega
    · rw [if_neg hrs] at hk
      simp [GoMap.range] at hk


/-- C17, on a sample builder: `root` and `svc2` get a service-instance node; `hidden`,
which is reached only through `skip`, gets none. -/
theorem trace_shows_only_allocated_witness :
    (traceDependencyResolution sampleEnv 5 "" sampleNode.dependency none 0
        DependencyResolutionCfgDefault (fun _ => true) graphBuilder).1.graph.nodes =
      [(.dependencyNode sampleNode.dependency, 0),
        (.serviceInstanceNode (graphInstance "web" "root" true ["app", "skip"])
          ⟨"service", ⟨"main", "web", 1⟩, [], []⟩, 1),
        (.serviceInstanceNode (graphInstance "store" "root" true [])
          ⟨"service", ⟨"main", "store", 1⟩, [], []⟩, 2)] ∧
    ∃ added : List (graphNode × Int),
      (traceDependencyResolution sampleEnv 5 "" sampleNode.dependency none 0
        DependencyResolutionCfgDefault (fun _ => true) graphBuilder).1.graph.nodes
        = graphBuilder.graph.nodes ++ added ∧
      ∀ inst service lv, (graphNode.serviceInstanceNode inst service, lv) ∈ added →
        ∃ key, Shown graphBuilder.resolution
          (graphBuilder.GetDependencyResolution sampleNode.dependency)
          (sampleEnv.KeyForStorable sampleNode.dependency) (fun _ => true) key inst :=
  ⟨by decide,
    (trace_shows_only_allocated sampleEnv graphBuilder 5 sampleNode.dependency none 0
      DependencyResolutionCfgDefault (fun _ => true)).1⟩

theorem emptyKey_no_edge (keySrc keyDst : String) :
    ¬ EdgeOut emptyKeyBuilder.resolution keySrc keyDst := by
  rintro ⟨inst, hget, hk⟩
  simp only [emptyKeyBuilder, GoMap.get] at hget
  split at hget
  · injection hget with hget
    subst hget
    simp [graphInstance, GoMap.range] at hk
  · cases hget

theorem emptyKey_runs_out : ∀ (fuel : Nat) (last : Option graphNode) (level : Int)
    (b : GraphBuilder), b.resolution = emptyKeyBuilder.resolution →
    b.GetDependencyResolution sampleNode.dependency = ⟨true, ""⟩ →
    (traceDependencyResolution sampleEnv fuel "" sampleNode.dependency last level
      DependencyResolutionCfgDefault (fun _ => true) b).2 = .outOfFuel := by
  intro fuel
  induction fuel with
  | zero => intro last level b _ _; rfl
  | succ fuel ih =>
    intro last level b hres hd
    have hd' : (b.addNode (.dependencyNode sampleNode.dependency) 0).GetDependencyResolution
        sampleNode.dependency = ⟨true, ""⟩ := hd
    have hres' : (b.addNode (.dependencyNode sampleNode.dependency) 0).resolution =
        emptyKeyBuilder.resolution := hres
    have hrec := ih (some (.dependencyNode sampleNode.dependency)) (level + 1)
      (b.addNode (.dependencyNode sampleNode.dependency) 0) hres' hd'
    unfold traceDependencyResolution
    rw [if_pos (by decide)]
    simp only [hd', if_true, GoMap.range_singleton_keys, traceEdges]
    have hedge : traceEdge sampleEnv
        (fun k l lv b => traceDependencyResolution sampleEnv fuel k sampleNode.dependency l lv
          DependencyResolutionCfgDefault (fun _ => true) b)
        sampleNode.dependency (some (.dependencyNode sampleNode.dependency)) (level + 1)
        DependencyResolutionCfgDefault (fun _ => true) ""
        (b.addNode (.dependencyNode sampleNode.dependency) 0) =
        traceDependencyResolution sampleEnv fuel "" sampleNode.dependency
          (some (.dependencyNode sampleNode.dependency)) (level + 1)
          DependencyResolutionCfgDefault (fun _ => true)
          (b.addNode (.dependencyNode sampleNode.dependency) 0) := by
      unfold traceEdge
      rw [hres']
      rfl
    rw [hedge]
    rcases hr : traceDependencyResolution sampleEnv fuel "" sampleNode.dependency
      (some (.dependencyNode sampleNode.dependency)) (level + 1)
      DependencyResolutionCfgDefault (fun _ => true)
      (b.addNode (.dependencyNode sampleNode.dependency) 0) with ⟨b1, r⟩
    rw [hr] at hrec
    simp only at hrec
    subst hrec
    rfl

/-- C18 as stated fails: in a resolution whose root key is present, that has no dangling
edge and no cycle, but whose single instance has the empty key, the trace is cut off
whatever number of nested calls it is allowed: the empty key makes the nested call start
over from the dependency. -/
theorem trace_runs_forever_on_empty_key :
    (GoMap.get (emptyKeyBuilder.GetDependencyResolution sampleNode.dependency).ComponentInstanceKey
      emptyKeyBuilder.resolution.ComponentInstanceMap).isSome = true ∧
    (∀ keySrc keyDst, EdgeOut emptyKeyBuilder.resolution keySrc keyDst →
      (GoMap.get keyDst emptyKeyBuilder.resolution.ComponentInstanceMap).isSome = true) ∧
    (∀ key, ¬ Relation.TransGen (EdgeOut emptyKeyBuilder.resolution) key key) ∧
    ∀ fuel, (traceDependencyResolution sampleEnv fuel "" sampleNode.dependency none 0
      DependencyResolutionCfgDefault (fun _ => true) emptyKeyBuilder).2 = .outOfFuel := by
  refine ⟨by decide, ?_, ?_, ?_⟩
  · intro keySrc keyDst h
    exact absurd h (emptyKey_no_edge keySrc keyDst)
  · intro key h
    obtain ⟨c, hc, _⟩ := Relation.TransGen.head'_iff.mp h
    exact emptyKey_no_edge key c hc
  · intro fuel
    exact emptyKey_runs_out fuel none 0 emptyKeyBuilder rfl rfl

theorem small_edge {keySrc keyDst : String} (h : EdgeOut smallBuilder.resolution keySrc keyDst) :
    keySrc = "root" ∧ keyDst = "app" := by
  obtain ⟨inst, hget, hk⟩ := h
  simp only [smallBuilder, GoMap.get] at hget
  split at hget
  · rename_i h1
    injection hget with hget
    subst hget
    simp [graphInstance, GoMap.range] at hk
    exact ⟨h1.symm, hk⟩
  · split at hget
    · injection hget with hget
      subst hget
      simp [graphInstance, GoMap.range] at hk
    · cases hget

/-- C18, on the small sample builder: the trace finishes within three nested calls. -/
theorem trace_terminates_witness :
    (traceDependencyResolution sampleEnv 3 "" sampleNode.dependency none 0
        DependencyResolutionCfgDefault (fun _ => true) smallBuilder).2 = .finished ∧
    (traceDependencyResolution sampleEnv 3 "" sampleNode.dependency none 0
        DependencyResolutionCfgDefault (fun _ => true) smallBuilder).2 ≠ .outOfFuel ∧
    (traceDependencyResolution sampleEnv 3 "" sampleNode.dependency none 0
        DependencyResolutionCfgDefault (fun _ => true) smallBuilder).2 ≠
      .panicked nilDereference := by
  refine ⟨by decide, ?_⟩
  apply trace_terminates sampleEnv smallBuilder sampleNode.dependency none 0
    DependencyResolutionCfgDefault (fun _ => true)
  · intro _
    decide
  · intro keySrc keyDst h
    obtain ⟨_, h2⟩ := small_edge h
    subst h2
    decide
  · intro key h
    obtain ⟨c, hc, hrest⟩ := Relation.TransGen.head'_iff.mp h
    obtain ⟨h1, h2⟩ := small_edge hc
    subst h1 h2
    rcases Relation.ReflTransGen.cases_head hrest with h | ⟨d, hd, _⟩
    · exact absurd h (by decide)
    · exact absurd (small_edge hd).1 (by decide)
  · decide
  · decide

end TraceTheory

end Aptomi
